import Mathlib

/-!
# viaproxy: PROXY protocol (v1) header detection on a wrapped connection

A shallow embedding of `vendor/github.com/topfreegames/viaproxy/conn.go`, and of
`request` and `notify` of `commands.go` (namespace `Commands`).

* Bytes are natural numbers (`Byte := Nat`, the values 0..255); a Go `string` or
  `[]byte` is a `List Byte`.
* The raw `net.Conn` is a script of read events (`RawConn`): what each call of the
  connection's `Read` will deliver.
* `bufio.Reader` (Go standard library) is modelled operation by operation
  (`fill`, `Peek`, `Read`, `Discard`, `ReadByte`, `ReadSlice`, `ReadString`) over
  the unread part of its 4096-byte buffer.
* `net.ParseIP` (Go standard library) is modelled from `netip.ParseAddr`, on which it
  rests: an octet with a leading zero, a group of more than four hexadecimal digits and
  an address with a zone are refused. `strconv.Atoi` is modelled from `strconv.ParseInt`
  with a 64-bit `int`.
* `Conn.parse`, `Conn.init`, `Conn.readIP`, `Conn.readPort`, `Wrap`,
  `Conn.RemoteAddr`, `Conn.ProxyAddr`, `Conn.Read` follow `conn.go` line by line.
* The theorems speak of the bytes a connection delivers before its first error
  (`dataStart`), in whatever chunks they arrive, and of that error (`firstErr`, `io.EOF`
  when the peer closes). They assume `NoEmptyChunk`: a `Read` of the raw connection into a
  non-empty slice does not return zero bytes without an error.
-/

namespace Viaproxy

/-! ## Bytes, errors, addresses -/

/-- One byte of the stream, as its numeric value. -/
abbrev Byte := Nat

/-- Byte `' '`. -/
def SP : Byte := 32

/-- Byte `'\r'`. -/
def CR : Byte := 13

/-- Byte `'\n'`. -/
def LF : Byte := 10

/-- Errors that travel through the buffered reader: `io.EOF`, `bufio.ErrBufferFull`,
`io.ErrNoProgress`, or any other error of the raw connection (timeout, reset, ...). -/
inductive IOError where
  | EOF
  | ErrBufferFull
  | ErrNoProgress
  | transport (code : Nat)
  deriving DecidableEq, Repr

/-- The two kinds of `*strconv.NumError` that `strconv.Atoi` returns. -/
inductive NumError where
  | ErrSyntax
  | ErrRange
  deriving DecidableEq, Repr

/-- A `net.IP`: the 16 bytes that `net.ParseIP` returns. -/
abbrev IP := List Byte

/-- Errors of `readIP` and `readPort`: an error of `ReadString`, the
`cannot parse IP %q` error of `readIP`, or the `strconv.Atoi` error of `readPort`. -/
inductive FieldError where
  | io (e : IOError)
  | cannotParseIP (p : List Byte)
  | num (e : NumError)
  deriving DecidableEq, Repr

/-- Errors returned by `parse` and `init`, one constructor per `return` site. -/
inductive WrapError where
  /-- Message `parsing proxy protocol header on loop: %q` (parse). -/
  | onLoop (e : IOError)
  /-- An error of the reader returned as it is (`return err` in init). -/
  | raw (e : IOError)
  /-- Message `invalid proxy protocol header prefix: %q`. -/
  | invalidHeaderStart (got : List Byte)
  /-- Message `parsing proxy protocol header: %q`. -/
  | header (e : IOError)
  /-- Message `unrecognized protocol: %q`. -/
  | unrecognizedProtocol (buf : List Byte)
  /-- Message `cannot parse client IP: %q`. -/
  | clientIP (e : FieldError)
  /-- Message `cannot parse proxy IP: %q`. -/
  | proxyIP (e : FieldError)
  /-- Message `cannot parse client port: %q`. -/
  | clientPort (e : FieldError)
  /-- Message `cannot parse proxy port: %q`. -/
  | proxyPort (e : FieldError)
  /-- Message `invalid trailing: %q` (the error is nil when the byte read is not a line feed). -/
  | invalidTrailing (e : Option IOError)
  deriving DecidableEq, Repr

/-- A `net.Addr`: a `*net.TCPAddr` (IP and port) or an address of another kind. -/
inductive Addr where
  | tcp (ip : IP) (port : Int)
  | other (network : List Byte) (text : List Byte)
  deriving DecidableEq, Repr

/-! ## The raw connection -/

/-- What one call of the raw connection's `Read` finds: bytes that have arrived, or an error. -/
inductive Event where
  | data (bs : List Byte)
  | fail (e : IOError)
  deriving DecidableEq, Repr

/-- The raw `net.Conn`: the read events still to come (after the last one the peer has
closed and every `Read` returns `io.EOF`), and the peer address `RemoteAddr()` reports. -/
structure RawConn where
  events : List Event
  peer : Option Addr
  deriving DecidableEq, Repr

/-- Reading into a slice of length `n` on the raw connection: at most `n` bytes of the
next data event (what is left of it stays for the next call), or the next error. -/
def RawConn.Read (cn : RawConn) (n : Nat) : List Byte × Option IOError × RawConn :=
  match cn.events with
  | [] => ([], some IOError.EOF, cn)
  | Event.fail e :: rest => ([], some e, { cn with events := rest })
  | Event.data bs :: rest =>
    if bs.length ≤ n then (bs, none, { cn with events := rest })
    else (bs.take n, none, { cn with events := Event.data (bs.drop n) :: rest })

/-- Handle of `(c *Conn).RemoteAddr` on the raw connection. -/
def RawConn.RemoteAddr (cn : RawConn) : Option Addr := cn.peer

/-! ## bufio.Reader (Go standard library) -/

/-- Size of the buffer `bufio.NewReader` allocates. -/
def defaultBufSize : Nat := 4096

/-- Bound on consecutive empty reads in `fill`. -/
def maxConsecutiveEmptyReads : Nat := 100

/-- A `bufio.Reader`: `buf` is the unread part `b.buf[b.r:b.w]` of the buffer, `rd` the
underlying connection, `err` the pending error `b.err`. -/
structure Reader where
  buf : List Byte
  rd : RawConn
  err : Option IOError
  deriving DecidableEq, Repr

/-- Model of `bufio.NewReader(cn)`. -/
def NewReader (cn : RawConn) : Reader := { buf := [], rd := cn, err := none }

/-- Model of `b.readErr()`: returns the pending error and clears it. -/
def Reader.readErr (b : Reader) : Option IOError × Reader := (b.err, { b with err := none })

/-- The read loop of `fill`: up to `i` reads into the free part of the buffer. -/
def Reader.fillLoop : Nat → Reader → Reader
  | 0, b => { b with err := some IOError.ErrNoProgress }
  | i + 1, b =>
    match b.rd.Read (defaultBufSize - b.buf.length) with
    | (bs, err, rd) =>
      match err with
      | some e => { buf := b.buf ++ bs, rd := rd, err := some e }
      | none =>
        if 0 < bs.length then { buf := b.buf ++ bs, rd := rd, err := b.err }
        else Reader.fillLoop i { buf := b.buf ++ bs, rd := rd, err := b.err }

/-- Model of `b.fill()`: slides the unread data to the start of the buffer and reads a new
chunk into the rest. Every caller guards it with "buffer not full" (Go panics otherwise);
on a full buffer the model leaves the reader as it is. -/
def Reader.fill (b : Reader) : Reader :=
  if defaultBufSize ≤ b.buf.length then b
  else Reader.fillLoop maxConsecutiveEmptyReads b

/-- The loop of `Peek`: fill while fewer than `n` bytes are buffered, the buffer is not
full and no error is pending. Every `fill` adds a byte or sets the error, so `n` rounds
always reach the exit (`peekLoop_done`). -/
def Reader.peekLoop : Nat → Nat → Reader → Reader
  | 0, _, b => b
  | k + 1, n, b =>
    if b.buf.length < n ∧ b.buf.length < defaultBufSize ∧ b.err = none then
      Reader.peekLoop k n b.fill
    else b

/-- Model of `b.Peek(n)`: the next `n` bytes without advancing the reader; fewer bytes
come with the error that explains why. -/
def Reader.Peek (b : Reader) (n : Nat) : List Byte × Option IOError × Reader :=
  let b1 := Reader.peekLoop n n b
  if defaultBufSize < n then (b1.buf, some IOError.ErrBufferFull, b1)
  else if b1.buf.length < n then
    match b1.readErr with
    | (some e, b2) => (b1.buf, some e, b2)
    | (none, b2) => (b1.buf, some IOError.ErrBufferFull, b2)
  else (b1.buf.take n, none, b1)

/-- Model of `b.Read(p)` with `len(p) = n`: returns the bytes copied into `p`. At most one
read of the underlying connection; what is buffered is served first. -/
def Reader.Read (b : Reader) (n : Nat) : List Byte × Option IOError × Reader :=
  if n = 0 then
    if 0 < b.buf.length then ([], none, b)
    else match b.readErr with
      | (e, b1) => ([], e, b1)
  else if b.buf = [] then
    if b.err ≠ none then
      match b.readErr with
      | (e, b1) => ([], e, b1)
    else if defaultBufSize ≤ n then
      -- Large read, empty buffer: read directly into p.
      match b.rd.Read n with
      | (bs, err, rd) =>
        match Reader.readErr { buf := [], rd := rd, err := err } with
        | (e, b1) => (bs, e, b1)
    else
      -- One read.
      match b.rd.Read defaultBufSize with
      | (bs, err, rd) =>
        if bs.length = 0 then
          match Reader.readErr { buf := [], rd := rd, err := err } with
          | (e, b1) => ([], e, b1)
        else (bs.take n, none, { buf := bs.drop n, rd := rd, err := err })
  else
    -- copy as much as we can
    (b.buf.take n, none, { b with buf := b.buf.drop n })

/-- The loop of `Discard`, `remain` bytes still to skip. Every round skips a byte or
ends, so `remain + 1` rounds of fuel are never used up. -/
def Reader.discardLoop : Nat → Nat → Nat → Reader → Nat × Option IOError × Reader
  | 0, n, remain, b => (n - remain, some IOError.ErrNoProgress, b)
  | k + 1, n, remain, b =>
    let b1 := if b.buf.length = 0 then b.fill else b
    let skip := min b1.buf.length remain
    let b2 : Reader := { b1 with buf := b1.buf.drop skip }
    let remain1 := remain - skip
    if remain1 = 0 then (n, none, b2)
    else if b2.err ≠ none then
      match b2.readErr with
      | (e, b3) => (n - remain1, e, b3)
    else Reader.discardLoop k n remain1 b2

/-- Model of `b.Discard(n)`: skips the next `n` bytes. -/
def Reader.Discard (b : Reader) (n : Nat) : Nat × Option IOError × Reader :=
  if n = 0 then (0, none, b)
  else Reader.discardLoop (n + 1) n n b

/-- The loop of `ReadByte`: fill while nothing is buffered. One `fill` adds a byte or
sets the error, so the second round always ends. -/
def Reader.readByteLoop : Nat → Reader → Byte × Option IOError × Reader
  | 0, b => (0, some IOError.ErrNoProgress, b)
  | k + 1, b =>
    match b.buf with
    | c :: rest => (c, none, { b with buf := rest })
    | [] =>
      if b.err ≠ none then
        match b.readErr with
        | (e, b1) => (0, e, b1)
      else Reader.readByteLoop k b.fill

/-- Model of `b.ReadByte()`. -/
def Reader.ReadByte (b : Reader) : Byte × Option IOError × Reader :=
  Reader.readByteLoop 2 b

/-- Model of `bytes.IndexByte`: position of the first `c` in `s`. -/
def indexByte : List Byte → Byte → Option Nat
  | [], _ => none
  | x :: xs, c => if x = c then some 0 else (indexByte xs c).map (· + 1)

/-- The loop of `ReadSlice`: search the buffer, else report the pending error, else
report a full buffer, else fill and search again. A `fill` adds a byte or sets the error
and the buffer holds `defaultBufSize` bytes, so `defaultBufSize + 2` rounds always end. -/
def Reader.readSliceLoop : Nat → Byte → Reader → List Byte × Option IOError × Reader
  | 0, _, b => ([], some IOError.ErrNoProgress, b)
  | k + 1, delim, b =>
    match indexByte b.buf delim with
    | some i => (b.buf.take (i + 1), none, { b with buf := b.buf.drop (i + 1) })
    | none =>
      if b.err ≠ none then
        match b.readErr with
        | (e, b1) => (b.buf, e, { b1 with buf := [] })
      else if defaultBufSize ≤ b.buf.length then
        (b.buf, some IOError.ErrBufferFull, { b with buf := [] })
      else Reader.readSliceLoop k delim b.fill

/-- Model of `b.ReadSlice(delim)`. -/
def Reader.ReadSlice (b : Reader) (delim : Byte) : List Byte × Option IOError × Reader :=
  Reader.readSliceLoop (defaultBufSize + 2) delim b

/-- Number of data bytes the raw connection still holds. -/
def RawConn.pending (cn : RawConn) : Nat :=
  (cn.events.map fun ev => match ev with
    | Event.data bs => bs.length
    | Event.fail _ => 0).sum

/-- The loop of `ReadBytes`: call `ReadSlice`, accumulating full buffers in `full`. A
round that goes on has taken a full buffer out of the stream, so one round per
remaining byte (plus one) is never used up. -/
def Reader.readBytesLoop : Nat → Byte → List Byte → Reader →
    List Byte × Option IOError × Reader
  | 0, _, full, b => (full, some IOError.ErrNoProgress, b)
  | k + 1, delim, full, b =>
    match b.ReadSlice delim with
    | (frag, none, b1) => (full ++ frag, none, b1)
    | (frag, some e, b1) =>
      if e ≠ IOError.ErrBufferFull then (full ++ frag, some e, b1)
      else Reader.readBytesLoop k delim (full ++ frag) b1

/-- Model of `b.ReadBytes(delim)` / `b.ReadString(delim)`: reads up to and including the
first `delim`; on an error before it, returns what was read and the error. -/
def Reader.ReadString (b : Reader) (delim : Byte) : List Byte × Option IOError × Reader :=
  Reader.readBytesLoop (b.buf.length + b.rd.pending + 1) delim [] b

/-! ## Byte strings -/

/-- The bytes of an ASCII string literal. -/
def bytesOf (s : String) : List Byte := s.toList.map Char.toNat

/-! ## net.ParseIP (Go standard library): `netip.ParseAddr`, refused when the address
has a zone, then `As16` -/

/-- The value of a hexadecimal digit, if the byte is one. -/
def hexVal (c : Byte) : Option Nat :=
  if 48 ≤ c ∧ c ≤ 57 then some (c - 48)
  else if 97 ≤ c ∧ c ≤ 102 then some (c - 97 + 10)
  else if 65 ≤ c ∧ c ≤ 70 then some (c - 65 + 10)
  else none

/-- The 12 bytes before the IPv4 address in the 16-byte form (`As16` of an IPv4 address). -/
def v4InV6Start : List Byte := [0, 0, 0, 0, 0, 0, 0, 0, 0, 0, 0xff, 0xff]

/-- The loop of `parseIPv4Fields` (package `net/netip`) over the bytes still to read:
`prev` is the byte before them (`none` at the start of the text), `val` the value of the
current octet, `digLen` its number of digits, `fields` the `pos = fields.length` octets
already stored. The result is `val`, `pos` and `fields` at the end of the text, or `none`
where the code returns an error. -/
def parseIPv4FieldsLoop : List Byte → Option Byte → Nat → Nat → List Byte →
    Option (Nat × List Byte)
  | [], _, val, _, fields => some (val, fields)
  | c :: cs, prev, val, digLen, fields =>
    if 48 ≤ c ∧ c ≤ 57 then
      if digLen = 1 ∧ val = 0 then none
      else if 255 < val * 10 + (c - 48) then none
      else parseIPv4FieldsLoop cs (some c) (val * 10 + (c - 48)) (digLen + 1) fields
    else if c = 46 then
      if prev = none ∨ cs = [] ∨ prev = some 46 then none
      else if fields.length = 3 then none
      else parseIPv4FieldsLoop cs (some c) 0 0 (fields ++ [val])
    else none

/-- Model of `parseIPv4Fields` of `net/netip`: the four octets of a dotted-decimal text;
an octet has no leading zero and is at most 255. -/
def parseIPv4Fields (s : List Byte) : Option (List Byte) :=
  match parseIPv4FieldsLoop s none 0 0 [] with
  | none => none
  | some (val, fields) => if fields.length < 3 then none else some (fields ++ [val])

/-- Model of `netip.parseIPv4` followed by `As16`: the 16-byte form of the address. -/
def parseIPv4 (s : List Byte) : Option IP :=
  match parseIPv4Fields s with
  | none => none
  | some fields => some (v4InV6Start ++ fields)

/-- The inner loop of `parseIPv6` over one group of hexadecimal digits: the value `acc`
and the number `off` of digits read; `none` on a fifth digit or a value above `0xFFFF`. -/
def hexGroupLoop : List Byte → Nat → Nat → Option (Nat × Nat)
  | [], acc, off => some (acc, off)
  | c :: cs, acc, off =>
    match hexVal c with
    | some d =>
      if 3 < off then none
      else if 0xFFFF < acc * 16 + d then none
      else hexGroupLoop cs (acc * 16 + d) (off + 1)
    | none => some (acc, off)

/-- The loop of `parseIPv6`, "parsing hex numbers followed by colon": `ip` holds the
`i = ip.length` bytes written so far, `ellipsis` the position of the `::`. The result is
the state at the loop's exit, or `none` where the code returns an error. Every round
writes two bytes or leaves, so eight rounds reach `i = 16`. -/
def parseIPv6Loop : Nat → List Byte → List Byte → Option Nat →
    Option (List Byte × List Byte × Option Nat)
  | 0, s, ip, ellipsis => some (s, ip, ellipsis)
  | k + 1, s, ip, ellipsis =>
    if ¬ ip.length < 16 then some (s, ip, ellipsis)
    else
      match hexGroupLoop s 0 0 with
      | none => none
      | some (acc, off) =>
        if off = 0 then none
        else if off < s.length ∧ s.get? off = some 46 then
          -- followed by dot: trailing IPv4
          if ellipsis = none ∧ ip.length ≠ 12 then none
          else if 16 < ip.length + 4 then none
          else
            match parseIPv4Fields s with
            | none => none
            | some fields => some ([], ip ++ fields, ellipsis)
        else
          -- save this 16-bit chunk
          let ip1 := ip ++ [acc / 256 % 256, acc % 256]
          let s1 := s.drop off
          if s1.length = 0 then some (s1, ip1, ellipsis)
          else if s1.head? ≠ some 58 then none
          else if s1.length = 1 then none
          else
            let s2 := s1.drop 1
            if s2.head? = some 58 then
              if ellipsis ≠ none then none
              else
                let s3 := s2.drop 1
                if s3.length = 0 then some (s3, ip1, some ip1.length)
                else parseIPv6Loop k s3 ip1 (some ip1.length)
            else parseIPv6Loop k s2 ip1 ellipsis

/-- The start of `parseIPv6`: the zone after the first `'%'` is split off; an empty zone
is an error. -/
def splitZone (s : List Byte) : Option (List Byte × List Byte) :=
  match indexByte s 37 with
  | none => some (s, [])
  | some i => if s.drop (i + 1) = [] then none else some (s.take i, s.drop (i + 1))

/-- Model of `netip.parseIPv6`: the 16 bytes of a colon-hex text and its zone. -/
def parseIPv6 (s : List Byte) : Option (IP × List Byte) :=
  match splitZone s with
  | none => none
  | some (s, zone) =>
    -- might have leading ellipsis
    let lead : Bool := 2 ≤ s.length ∧ s.get? 0 = some 58 ∧ s.get? 1 = some 58
    let s0 := if lead then s.drop 2 else s
    let ellipsis : Option Nat := if lead then some 0 else none
    if lead ∧ s0.length = 0 then some (List.replicate 16 0, zone)
    else
      match parseIPv6Loop 8 s0 [] ellipsis with
      | none => none
      | some (s1, ip, ell) =>
        -- must have used entire string
        if s1.length ≠ 0 then none
        else if ip.length < 16 then
          -- expand ellipsis
          match ell with
          | none => none
          | some e => some (ip.take e ++ List.replicate (16 - ip.length) 0 ++ ip.drop e, zone)
        else if ell ≠ none then none
        else some (ip, zone)

/-- The scan of `netip.ParseAddr` for the first `'.'`, `':'` or `'%'`, which picks the
parser. -/
def parseAddrScan (s : List Byte) : List Byte → Option (IP × List Byte)
  | [] => none
  | c :: cs =>
    if c = 46 then
      match parseIPv4 s with
      | none => none
      | some ip => some (ip, [])
    else if c = 58 then parseIPv6 s
    else if c = 37 then none
    else parseAddrScan s cs

/-- Model of `netip.ParseAddr(s)` followed by `As16`: the 16 bytes and the zone. -/
def ParseAddr (s : List Byte) : Option (IP × List Byte) := parseAddrScan s s

/-- Model of `net.ParseIP(s)`: the address that `netip.ParseAddr` reads, unless it has a
zone; `none` is the nil IP of an invalid text. -/
def ParseIP (s : List Byte) : Option IP :=
  match ParseAddr s with
  | none => none
  | some (ip, zone) => if zone ≠ [] then none else some ip

/-! ## strconv.Atoi (Go standard library, 64-bit `int`) -/

/-- The digit loop of `strconv.ParseUint(s, 10, 64)`. -/
def parseUintLoop : List Byte → Nat → Except NumError Nat
  | [], n => Except.ok n
  | c :: cs, n =>
    if 48 ≤ c ∧ c ≤ 57 then
      if 2 ^ 64 / 10 + 1 ≤ n then Except.error NumError.ErrRange
      else if 2 ^ 64 ≤ n * 10 + (c - 48) then Except.error NumError.ErrRange
      else parseUintLoop cs (n * 10 + (c - 48))
    else Except.error NumError.ErrSyntax

/-- Model of `strconv.ParseUint(s, 10, 64)`. -/
def ParseUint (s : List Byte) : Except NumError Nat :=
  if s = [] then Except.error NumError.ErrSyntax else parseUintLoop s 0

/-- Model of `strconv.Atoi(s)`, through `ParseInt(s, 10, 0)` (the fast path of `Atoi` for
short texts computes the same result): an optional sign, then decimal digits, the value in
the range of a 64-bit `int`. -/
def Atoi (s : List Byte) : Except NumError Int :=
  match s with
  | [] => Except.error NumError.ErrSyntax
  | c :: cs =>
    let neg : Bool := c = 45
    let t := if c = 43 ∨ c = 45 then cs else s
    match ParseUint t with
    | Except.error NumError.ErrSyntax => Except.error NumError.ErrSyntax
    | r =>
      let un : Nat := match r with
        | Except.ok v => v
        | Except.error _ => 2 ^ 64 - 1
      if !neg ∧ 2 ^ 63 ≤ un then Except.error NumError.ErrRange
      else if neg ∧ 2 ^ 63 < un then Except.error NumError.ErrRange
      else Except.ok (if neg then -(un : Int) else (un : Int))

/-! ## conn.go -/

/-- The wrapped connection. The raw connection `cn` of the Go struct is `r.rd`: the
reader owns it, and `Write`, `Close`, the deadlines and `LocalAddr` (pure delegation) do
not touch what is modelled here. -/
structure Conn where
  r : Reader
  proxy : Option Addr
  remote : Option Addr
  deriving DecidableEq, Repr

/-- Package variable `unknown = []byte("UNKNOWN\r\n")`. -/
def unknown : List Byte := bytesOf "UNKNOWN\r\n"

/-- Package variable `proxy = []byte("PROXY ")`. -/
def proxy : List Byte := bytesOf "PROXY "

/-- A buffer made by `make([]byte, n)` after `Read` stored `bs` in it: zero-filled. -/
def intoBuf (n : Nat) (bs : List Byte) : List Byte :=
  bs.take n ++ List.replicate (n - bs.length) 0

/-- Message `ProxyAddr` returns the proxy remote network address. -/
def Conn.ProxyAddr (c : Conn) : Option Addr := c.proxy

/-- Message `RemoteAddr` returns the remote network address. -/
def Conn.RemoteAddr (c : Conn) : Option Addr :=
  if c.remote ≠ none then c.remote else c.r.rd.RemoteAddr

/-- Message `Read` reads data from the connection: `c.r.Read(b)` with `len(b) = n`. -/
def Conn.Read (c : Conn) (n : Nat) : List Byte × Option IOError × Conn :=
  match c.r.Read n with
  | (bs, err, r) => (bs, err, { c with r := r })

/-- Method `readIP`: the text up to the next space, parsed by `net.ParseIP`. -/
def Conn.readIP (c : Conn) : Except FieldError IP × Conn :=
  match c.r.ReadString SP with
  | (_, some err, r) => (Except.error (FieldError.io err), { c with r := r })
  | (p, none, r) =>
    match ParseIP (p.take (p.length - 1)) with
    | none => (Except.error (FieldError.cannotParseIP p), { c with r := r })
    | some ip => (Except.ok ip, { c with r := r })

/-- Method `readPort`: the text up to the next `delim`, parsed by `strconv.Atoi`. -/
def Conn.readPort (c : Conn) (delim : Byte) : Except FieldError Int × Conn :=
  match c.r.ReadString delim with
  | (_, some err, r) => (Except.error (FieldError.io err), { c with r := r })
  | (p, none, r) =>
    match Atoi (p.take (p.length - 1)) with
    | Except.error err => (Except.error (FieldError.num err), { c with r := r })
    | Except.ok port => (Except.ok port, { c with r := r })

/-- Method `init`: consumes and decodes the header after the `PROXY ` start was seen. -/
def Conn.init (c : Conn) : Option WrapError × Conn :=
  -- PROXY
  match c.r.Read 6 with
  | (_, some err, r) => (some (WrapError.raw err), { c with r := r })
  | (got, none, r) =>
    let c : Conn := { c with r := r }
    if intoBuf 6 got ≠ bytesOf "PROXY " then (some (WrapError.invalidHeaderStart got), c)
    else
      match c.r.Peek unknown.length with
      | (_, some err, r) => (some (WrapError.header err), { c with r := r })
      | (buf, none, r) =>
        let c : Conn := { c with r := r }
        if buf = unknown then
          match c.r.Discard unknown.length with
          | (_, err, r) => (err.map WrapError.raw, { c with r := r })
        else
          -- TCP4 || TCP6
          match c.r.Read 5 with
          | (got, _, r) =>
            let c : Conn := { c with r := r }
            let buf := intoBuf 5 got
            if bytesOf "TCP4 " ≠ buf ∧ bytesOf "TCP6 " ≠ buf then
              (some (WrapError.unrecognizedProtocol buf), c)
            else
              -- CLIENT IP
              match c.readIP with
              | (Except.error err, c) => (some (WrapError.clientIP err), c)
              | (Except.ok clientIP, c) =>
                -- PROXY IP
                match c.readIP with
                | (Except.error err, c) => (some (WrapError.proxyIP err), c)
                | (Except.ok proxyIP, c) =>
                  -- CLIENT PORT
                  match c.readPort SP with
                  | (Except.error err, c) => (some (WrapError.clientPort err), c)
                  | (Except.ok clientPort, c) =>
                    -- PROXY PORT
                    match c.readPort CR with
                    | (Except.error err, c) => (some (WrapError.proxyPort err), c)
                    | (Except.ok proxyPort, c) =>
                      -- Trailing
                      match c.r.ReadByte with
                      | (b, err, r) =>
                        let c : Conn := { c with r := r }
                        if err ≠ none ∨ b ≠ LF then (some (WrapError.invalidTrailing err), c)
                        else
                          (none, { c with
                            remote := some (Addr.tcp clientIP clientPort)
                            proxy := some (Addr.tcp proxyIP proxyPort) })

/-- Method `parse`: peeks the six bytes of the `PROXY ` start and runs `init` on a match. -/
def Conn.parse (c : Conn) : Option WrapError × Conn :=
  match c.r.Peek Viaproxy.proxy.length with
  | (_, some err, r) =>
    if err = IOError.ErrBufferFull ∨ err = IOError.EOF then (none, { c with r := r })
    else (some (WrapError.onLoop err), { c with r := r })
  | (buf, none, r) =>
    let c : Conn := { c with r := r }
    if buf ≠ Viaproxy.proxy then (none, c)
    else c.init

/-- Message `Wrap` takes a `net.Conn` and returns a `Conn` that knows how to identify the remote
address if it comes via a proxy that supports the Proxy Protocol; an error of `parse`
is returned in place of the connection. -/
def Wrap (cn : RawConn) : Except WrapError Conn :=
  match Conn.parse { r := NewReader cn, proxy := none, remote := none } with
  | (some err, _) => Except.error err
  | (none, c) => Except.ok c

/-- Reads of `n` bytes on the connection until the first error: the bytes delivered and
that error (`none` when `fuel` reads did not reach it). -/
def Conn.readAll : Nat → Nat → Conn → List Byte × Option IOError
  | 0, _, _ => ([], none)
  | fuel + 1, n, c =>
    match c.Read n with
    | (bs, some e, _) => (bs, some e)
    | (bs, none, c1) =>
      match Conn.readAll fuel n c1 with
      | (rest, e) => (bs ++ rest, e)

/-! ## The stream a reader stands for -/

/-- The bytes the raw connection delivers before its first error. -/
def dataStart : List Event → List Byte
  | [] => []
  | Event.data bs :: rest => bs ++ dataStart rest
  | Event.fail _ :: _ => []

/-- The first error of the raw connection: that of the first `fail` event, or `io.EOF`
when the events end without one. -/
def firstErr : List Event → IOError
  | [] => IOError.EOF
  | Event.data _ :: rest => firstErr rest
  | Event.fail e :: _ => e

/-- The events that follow the first error. -/
def afterErr : List Event → List Event
  | [] => []
  | Event.data _ :: rest => afterErr rest
  | Event.fail _ :: rest => rest

/-- No data event is empty: a `Read` of the raw connection into a non-empty slice does not
return zero bytes without an error. -/
def NoEmptyChunk (evs : List Event) : Prop := Event.data [] ∉ evs

instance (evs : List Event) : Decidable (NoEmptyChunk evs) :=
  inferInstanceAs (Decidable (Event.data [] ∉ evs))

/-- The unread bytes before the first error: buffered ones, then those still to arrive. -/
def Reader.pre (b : Reader) : List Byte := b.buf ++ dataStart b.rd.events

/-- What lies behind the unread bytes: the first error, the events after it, the peer. -/
def Reader.ctx (b : Reader) : IOError × List Event × Option Addr :=
  (firstErr b.rd.events, afterErr b.rd.events, b.rd.peer)

/-- A reader between two operations: no pending error, the buffer within its size, the
raw connection without empty reads. -/
structure Reader.WF (b : Reader) : Prop where
  err_none : b.err = none
  buf_le : b.buf.length ≤ defaultBufSize
  chunks : NoEmptyChunk b.rd.events

/-- A well-formed reader whose unread bytes are `L`, followed by `x`. -/
def Reader.Holds (b : Reader) (L : List Byte) (x : IOError × List Event × Option Addr) :
    Prop :=
  b.WF ∧ b.pre = L ∧ b.ctx = x

/-- The reader in which `fill` has just met the first error of the connection. -/
def Reader.atErr (b : Reader) : Reader :=
  { buf := b.buf, rd := { events := afterErr b.rd.events, peer := b.rd.peer },
    err := some (firstErr b.rd.events) }

/-! ## Texts of addresses and ports -/

/-- The bytes a textual IP address is made of: hexadecimal digits, `'.'` and `':'`. -/
def IsIPChar (c : Byte) : Prop := hexVal c ≠ none ∨ c = 46 ∨ c = 58

/-- A decimal digit `'0'..'9'`. -/
def IsDigit (c : Byte) : Prop := 48 ≤ c ∧ c ≤ 57

instance (c : Byte) : Decidable (IsDigit c) := inferInstanceAs (Decidable (48 ≤ c ∧ c ≤ 57))

/-- A non-empty text of decimal digits. -/
def IsDecimal (s : List Byte) : Prop := s ≠ [] ∧ ∀ c ∈ s, IsDigit c

instance (s : List Byte) : Decidable (IsDecimal s) :=
  inferInstanceAs (Decidable (s ≠ [] ∧ ∀ c ∈ s, IsDigit c))

/-- The number a text of decimal digits denotes, continuing from `n`. -/
def decFrom (n : Nat) (s : List Byte) : Nat := s.foldl (fun n c => n * 10 + (c - 48)) n

/-- The number a text of decimal digits denotes. -/
def decVal (s : List Byte) : Nat := decFrom 0 s

/-- A text `strconv.Atoi` reads as the integer `v`: decimal digits with an optional sign,
the value in the range of a 64-bit `int`. -/
def IsIntText (s : List Byte) (v : Int) : Prop :=
  (IsDecimal s ∧ decVal s < 2 ^ 63 ∧ v = decVal s) ∨
  (∃ t, s = 43 :: t ∧ IsDecimal t ∧ decVal t < 2 ^ 63 ∧ v = decVal t) ∨
  (∃ t, s = 45 :: t ∧ IsDecimal t ∧ decVal t ≤ 2 ^ 63 ∧ v = -(decVal t : Int))

/-! ## The header as a function of the stream -/

/-- Splits a text at its first `delim`: what stands before it and what follows it. -/
def cut (delim : Byte) : List Byte → Option (List Byte × List Byte)
  | [] => none
  | c :: cs =>
    if c = delim then some ([], cs)
    else
      match cut delim cs with
      | none => none
      | some (p, q) => some (c :: p, q)

/-- What `init` makes of the bytes that follow `PROXY `. -/
inductive Outcome where
  /-- The header `PROXY UNKNOWN\r\n`; `rest` follows it. -/
  | unknownHeader (rest : List Byte)
  /-- A complete header with the two addresses; `rest` follows it. -/
  | addrs (remote proxy : Addr) (rest : List Byte)
  /-- The header is rejected with this error. -/
  | failed (e : WrapError)
  /-- The stream breaks where a `Peek` or `ReadByte` needs more bytes: the error of the
  connection, wrapped. -/
  | broken (w : IOError → WrapError)
  /-- The stream breaks inside a field read by `ReadString`: the error of the connection,
  wrapped. -/
  | cutOff (w : IOError → WrapError)

/-- The outcome on the bytes `s` after the proxy port: the trailing line feed. -/
def outcomeTrailer (clientIP proxyIP : IP) (clientPort proxyPort : Int) (s : List Byte) :
    Outcome :=
  match s with
  | [] => Outcome.broken fun e => WrapError.invalidTrailing (some e)
  | c :: rest =>
    if c ≠ LF then Outcome.failed (WrapError.invalidTrailing none)
    else Outcome.addrs (Addr.tcp clientIP clientPort) (Addr.tcp proxyIP proxyPort) rest

/-- The outcome on the bytes `s` after the client port: the proxy port, up to `'\r'`. -/
def outcomeProxyPort (clientIP proxyIP : IP) (clientPort : Int) (s : List Byte) : Outcome :=
  match cut CR s with
  | none => Outcome.cutOff fun e => WrapError.proxyPort (FieldError.io e)
  | some (q, rest) =>
    match Atoi q with
    | Except.error e => Outcome.failed (WrapError.proxyPort (FieldError.num e))
    | Except.ok proxyPort => outcomeTrailer clientIP proxyIP clientPort proxyPort rest

/-- The outcome on the bytes `s` after the proxy IP: the client port, up to `' '`. -/
def outcomeClientPort (clientIP proxyIP : IP) (s : List Byte) : Outcome :=
  match cut SP s with
  | none => Outcome.cutOff fun e => WrapError.clientPort (FieldError.io e)
  | some (p, rest) =>
    match Atoi p with
    | Except.error e => Outcome.failed (WrapError.clientPort (FieldError.num e))
    | Except.ok clientPort => outcomeProxyPort clientIP proxyIP clientPort rest

/-- The outcome on the bytes `s` after the client IP: the proxy IP, up to `' '`. -/
def outcomeProxyIP (clientIP : IP) (s : List Byte) : Outcome :=
  match cut SP s with
  | none => Outcome.cutOff fun e => WrapError.proxyIP (FieldError.io e)
  | some (b, rest) =>
    match ParseIP b with
    | none => Outcome.failed (WrapError.proxyIP (FieldError.cannotParseIP (b ++ [SP])))
    | some proxyIP => outcomeClientPort clientIP proxyIP rest

/-- The outcome on the bytes `s` after the family token: the client IP, up to `' '`. -/
def outcomeClientIP (s : List Byte) : Outcome :=
  match cut SP s with
  | none => Outcome.cutOff fun e => WrapError.clientIP (FieldError.io e)
  | some (a, rest) =>
    match ParseIP a with
    | none => Outcome.failed (WrapError.clientIP (FieldError.cannotParseIP (a ++ [SP])))
    | some clientIP => outcomeProxyIP clientIP rest

/-- The outcome of `init` as a function of the bytes `s` that the connection delivers
after `PROXY ` and before its first error. -/
def headerOutcome (s : List Byte) : Outcome :=
  if s.length < 9 then Outcome.broken WrapError.header
  else if s.take 9 = unknown then Outcome.unknownHeader (s.drop 9)
  else if bytesOf "TCP4 " ≠ s.take 5 ∧ bytesOf "TCP6 " ≠ s.take 5 then
    Outcome.failed (WrapError.unrecognizedProtocol (s.take 5))
  else outcomeClientIP (s.drop 5)

/-- A result of `init` (or of its last steps) on `c0` meets an outcome, `x` being what
lies behind the bytes before the first error of the connection. -/
def Meets (res : Option WrapError × Conn) (c0 : Conn)
    (x : IOError × List Event × Option Addr) : Outcome → Prop
  | Outcome.unknownHeader rest =>
    ∃ r1, res = (none, { c0 with r := r1 }) ∧ r1.Holds rest x
  | Outcome.addrs ra pa rest =>
    ∃ r1, res = (none, { r := r1, remote := some ra, proxy := some pa }) ∧ r1.Holds rest x
  | Outcome.failed e => ∃ c1, res = (some e, c1)
  | Outcome.broken w => ∃ c1, res = (some (w x.1), c1)
  | Outcome.cutOff w => x.1 ≠ IOError.ErrBufferFull → ∃ c1, res = (some (w x.1), c1)

/-! ## The last steps of `init`, named for the proofs -/

/-- The last step of `init`: the trailing byte and the two addresses. -/
def Conn.initTrailer (c : Conn) (clientIP proxyIP : IP) (clientPort proxyPort : Int) :
    Option WrapError × Conn :=
  match c.r.ReadByte with
  | (b, err, r) =>
    let c : Conn := { c with r := r }
    if err ≠ none ∨ b ≠ LF then (some (WrapError.invalidTrailing err), c)
    else
      (none, { c with
        remote := some (Addr.tcp clientIP clientPort)
        proxy := some (Addr.tcp proxyIP proxyPort) })

/-- The steps of `init` from the proxy port on. -/
def Conn.initProxyPort (c : Conn) (clientIP proxyIP : IP) (clientPort : Int) :
    Option WrapError × Conn :=
  match c.readPort CR with
  | (Except.error err, c) => (some (WrapError.proxyPort err), c)
  | (Except.ok proxyPort, c) => c.initTrailer clientIP proxyIP clientPort proxyPort

/-- The steps of `init` from the client port on. -/
def Conn.initClientPort (c : Conn) (clientIP proxyIP : IP) : Option WrapError × Conn :=
  match c.readPort SP with
  | (Except.error err, c) => (some (WrapError.clientPort err), c)
  | (Except.ok clientPort, c) => c.initProxyPort clientIP proxyIP clientPort

/-- The steps of `init` from the proxy IP on. -/
def Conn.initProxyIP (c : Conn) (clientIP : IP) : Option WrapError × Conn :=
  match c.readIP with
  | (Except.error err, c) => (some (WrapError.proxyIP err), c)
  | (Except.ok proxyIP, c) => c.initClientPort clientIP proxyIP

/-- The steps of `init` from the client IP on. -/
def Conn.initClientIP (c : Conn) : Option WrapError × Conn :=
  match c.readIP with
  | (Except.error err, c) => (some (WrapError.clientIP err), c)
  | (Except.ok clientIP, c) => c.initProxyIP clientIP

/-- What lies behind the data of a fresh connection. -/
def RawConn.ctx (cn : RawConn) : IOError × List Event × Option Addr :=
  (firstErr cn.events, afterErr cn.events, cn.peer)

/-- The result of `Wrap` meets an outcome of the header. -/
def WrapMeets (res : Except WrapError Conn) (x : IOError × List Event × Option Addr) :
    Outcome → Prop
  | Outcome.unknownHeader rest =>
    ∃ r1, res = Except.ok { r := r1, proxy := none, remote := none } ∧ r1.Holds rest x
  | Outcome.addrs ra pa rest =>
    ∃ r1, res = Except.ok { r := r1, remote := some ra, proxy := some pa } ∧ r1.Holds rest x
  | Outcome.failed e => res = Except.error e
  | Outcome.broken w => res = Except.error (w x.1)
  | Outcome.cutOff w => x.1 ≠ IOError.ErrBufferFull → res = Except.error (w x.1)

/-- A header line: `PROXY `, the family token `F` (with its space), the four fields
separated by spaces, `\r\n`. -/
def headerLine (F a b p q : List Byte) : List Byte :=
  bytesOf "PROXY " ++ (F ++ (a ++ SP :: (b ++ SP :: (p ++ SP :: (q ++ [CR, LF])))))

/-! ## Example streams -/

/-- The stream of the example: the TCP4 header and `HELLO`, arriving in two chunks. -/
def exampleConn : RawConn :=
  { events := [Event.data (bytesOf "PROXY TCP4 192.168"),
               Event.data (bytesOf ".0.1 192.168.0.11 56324 443\r\nHELLO")],
    peer := some (Addr.tcp [10, 0, 0, 7] 31000) }

/-- A stream without a header: `GET / HTTP/1.1\r\n` in two chunks, then the peer closes. -/
def plainConn : RawConn :=
  { events := [Event.data (bytesOf "GET"), Event.data (bytesOf " / HTTP/1.1\r\n")],
    peer := some (Addr.tcp [10, 0, 0, 7] 31000) }

/-- The stream that closes after the four bytes `PROX`. -/
def proxConn : RawConn :=
  { events := [Event.data (bytesOf "PROX")], peer := some (Addr.tcp [10, 0, 0, 7] 31000) }

/-- The stream `PROXY TCP4 not-an-ip 192.168.0.11 56324 443\r\n` followed by `HELLO`. -/
def notAnIPConn : RawConn :=
  { events := [Event.data (bytesOf "PROXY TCP4 not-an-ip 192.168.0.11 56324 443\r\nHELLO")],
    peer := some (Addr.tcp [10, 0, 0, 7] 31000) }

/-- The stream `PROXY TCP4 x ` that the peer then closes. -/
def shortFieldConn : RawConn :=
  { events := [Event.data (bytesOf "PROXY TCP4 x ")],
    peer := some (Addr.tcp [10, 0, 0, 7] 31000) }

/-- The stream `PROXY TCP4 192.168.0.1 192.168.0.11 +56324 443\r\n` followed by `HELLO`. -/
def signedPortConn : RawConn :=
  { events := [Event.data (bytesOf "PROXY TCP4 192.168.0.1 192.168.0.11 +56324 443\r\nHELLO")],
    peer := some (Addr.tcp [10, 0, 0, 7] 31000) }

/-- The stream `PROXY TCP4 192.168.0.1 192.168.0.11 -1 443\r\n` followed by `HELLO`. -/
def negativePortConn : RawConn :=
  { events := [Event.data (bytesOf "PROXY TCP4 192.168.0.1 192.168.0.11 -1 443\r\nHELLO")],
    peer := some (Addr.tcp [10, 0, 0, 7] 31000) }

/-- The stream `PROXY UNKNOWN\r\n` followed by `HELLO`, in two chunks. -/
def unknownConn : RawConn :=
  { events := [Event.data (bytesOf "PROXY UNKN"), Event.data (bytesOf "OWN\r\nHELLO")],
    peer := some (Addr.tcp [10, 0, 0, 7] 31000) }

/-- The stream `PROXY UDP4 x` that the peer then closes. -/
def shortFamilyConn : RawConn :=
  { events := [Event.data (bytesOf "PROXY UDP4 x")],
    peer := some (Addr.tcp [10, 0, 0, 7] 31000) }

/-- The stream `PROXY UDP4 192.168.0.1 192.168.0.11 56324 443\r\n` followed by `HELLO`. -/
def udpConn : RawConn :=
  { events := [Event.data (bytesOf "PROXY UDP4 192.168.0.1 192.168.0.11 56324 443\r\nHELLO")],
    peer := some (Addr.tcp [10, 0, 0, 7] 31000) }

/-- The stream `PROXY TCP4 192.168.0.1 192.168.0.11 56324 443\r` followed by `X`. -/
def badTrailerConn : RawConn :=
  { events := [Event.data (bytesOf "PROXY TCP4 192.168.0.1 192.168.0.11 56324 443\rX")],
    peer := some (Addr.tcp [10, 0, 0, 7] 31000) }

/-- Two results of `Wrap` are the same: the same error, or connections with the same
stored addresses and the same unread bytes. -/
def SameResult : Except WrapError Conn → Except WrapError Conn → Prop
  | Except.error e1, Except.error e2 => e1 = e2
  | Except.ok c1, Except.ok c2 =>
    c1.remote = c2.remote ∧ c1.proxy = c2.proxy ∧ c1.r.pre = c2.r.pre
  | _, _ => False

/-- The stream `PROXY TCP4 ::1 192.168.0.11 56324 443\r\n` followed by `HELLO`. -/
def mixedUnderTCP4Conn : RawConn :=
  { events := [Event.data (bytesOf "PROXY TCP4 ::1 192.168.0.11 56324 443\r\nHELLO")],
    peer := some (Addr.tcp [10, 0, 0, 7] 31000) }

/-- The stream `PROXY TCP6 ::1 192.168.0.11 56324 443\r\n` followed by `HELLO`, in two
chunks. -/
def mixedUnderTCP6Conn : RawConn :=
  { events := [Event.data (bytesOf "PROXY TCP6 ::1 192."),
               Event.data (bytesOf "168.0.11 56324 443\r\nHELLO")],
    peer := some (Addr.tcp [10, 0, 0, 7] 31000) }

/-- The stream `PROXY TCP4 192.168.0.1 192.168.0.11 70000 00443\r\n` followed by `HELLO`. -/
def bigPortConn : RawConn :=
  { events := [Event.data (bytesOf "PROXY TCP4 192.168.0.1 192.168.0.11 70000 00443\r\nHELLO")],
    peer := some (Addr.tcp [10, 0, 0, 7] 31000) }

/-- The stream `PROXY TCP4 192.168.01.1 192.168.0.11 56324 443\r\n` followed by `HELLO`:
the third octet of the client IP has a leading zero. -/
def leadingZeroConn : RawConn :=
  { events := [Event.data (bytesOf "PROXY TCP4 192.168.01.1 192.168.0.11 56324 443\r\nHELLO")],
    peer := some (Addr.tcp [10, 0, 0, 7] 31000) }

/-- A reader that has buffered `TCP4 192.168.0.1 ` and more, after `PROXY ` was read. -/
def familyReader : Reader :=
  { buf := bytesOf "TCP4 192.168.0.1 192.168.0.11 56324 443\r\nHELLO",
    rd := { events := [], peer := none }, err := none }

end Viaproxy

/-! ## commands.go

Go strings and byte slices are lists of bytes, as above; the `logger` of `request` and
`notify` is not used by them and is left out. -/

namespace Commands

/-- One send of the client: `SendRequest(route, data)` or `SendNotify(route, data)`. -/
inductive ClientCall where
  | request (route data : List Viaproxy.Byte)
  | notify (route data : List Viaproxy.Byte)
  deriving DecidableEq, Repr

/-- The value behind the package variable `pClient`, an implementation of the interface
`client.PitayaClient` of the pitaya library (its code is not part of these sources), taken
as a parameter: what `ConnectedStatus()` answers, the error each send returns (`none` is
nil), and the sends made so far, oldest first. -/
structure PitayaClient where
  connected : Bool
  sendResult : ClientCall → Option (List Viaproxy.Byte)
  calls : List ClientCall

/-- Method `ConnectedStatus()` of the client. -/
def PitayaClient.ConnectedStatus (cl : PitayaClient) : Bool := cl.connected

/-- Method `SendRequest(route, data)` of the client: the send is made, its error returned. -/
def PitayaClient.SendRequest (cl : PitayaClient) (route data : List Viaproxy.Byte) :
    Option (List Viaproxy.Byte) × PitayaClient :=
  (cl.sendResult (ClientCall.request route data),
    { cl with calls := cl.calls ++ [ClientCall.request route data] })

/-- Method `SendNotify(route, data)` of the client: the send is made, its error returned. -/
def PitayaClient.SendNotify (cl : PitayaClient) (route data : List Viaproxy.Byte) :
    Option (List Viaproxy.Byte) × PitayaClient :=
  (cl.sendResult (ClientCall.notify route data),
    { cl with calls := cl.calls ++ [ClientCall.notify route data] })

/-- Errors that `request` and `notify` return. -/
inductive CmdError where
  /-- Message `not connected`. -/
  | notConnected
  /-- Message `request should be in the format: request {route} [data]`. -/
  | requestFormat
  /-- Message `notify should be in the format: notify {route} [data]`. -/
  | notifyFormat
  /-- An error of the client, returned as it is. -/
  | client (err : List Viaproxy.Byte)
  deriving DecidableEq, Repr

/-- Model of `strings.Join(elems, sep)` (Go standard library). -/
def stringsJoin : List (List Viaproxy.Byte) → List Viaproxy.Byte → List Viaproxy.Byte
  | [], _ => []
  | [a], _ => a
  | a :: rest, sep => rest.foldl (fun acc s => acc ++ sep ++ s) a

/-- Function `request` of commands.go (its `logger` is not used): the result and the
package variable `pClient` afterwards. -/
def request (pClient : Option PitayaClient) (args : List (List Viaproxy.Byte)) :
    Option CmdError × Option PitayaClient :=
  match pClient with
  | none => (some CmdError.notConnected, none)
  | some cl =>
    if !cl.ConnectedStatus then (some CmdError.notConnected, some cl)
    else if args.length < 1 then (some CmdError.requestFormat, some cl)
    else
      let route := args.headD []
      let data : List Viaproxy.Byte := if 1 < args.length then stringsJoin (args.drop 1) [] else []
      match cl.SendRequest route data with
      | (some err, cl1) => (some (CmdError.client err), some cl1)
      | (none, cl1) => (none, some cl1)

/-- Function `notify` of commands.go (its `logger` is not used): the result and the
package variable `pClient` afterwards. -/
def notify (pClient : Option PitayaClient) (args : List (List Viaproxy.Byte)) :
    Option CmdError × Option PitayaClient :=
  match pClient with
  | none => (some CmdError.notConnected, none)
  | some cl =>
    if !cl.ConnectedStatus then (some CmdError.notConnected, some cl)
    else if args.length < 1 then (some CmdError.notifyFormat, some cl)
    else
      let route := args.headD []
      let data : List Viaproxy.Byte := if 1 < args.length then stringsJoin (args.drop 1) [] else []
      match cl.SendNotify route data with
      | (some err, cl1) => (some (CmdError.client err), some cl1)
      | (none, cl1) => (none, some cl1)

end Commands

namespace Viaproxy

/-! ## Lemmas on the reader -/

theorem noEmptyChunk_tail {ev : Event} {evs : List Event} (h : NoEmptyChunk (ev :: evs)) :
    NoEmptyChunk evs := fun hbs => h (List.mem_cons_of_mem _ hbs)

theorem fillLoop_succ (i : Nat) (b : Reader) (hwf : b.WF)
    (hlt : b.buf.length < defaultBufSize) :
    (dataStart b.rd.events ≠ [] ∧ (Reader.fillLoop (i + 1) b).WF ∧
        (Reader.fillLoop (i + 1) b).pre = b.pre ∧ (Reader.fillLoop (i + 1) b).ctx = b.ctx ∧
        b.buf.length < (Reader.fillLoop (i + 1) b).buf.length) ∨
      (dataStart b.rd.events = [] ∧ Reader.fillLoop (i + 1) b = b.atErr) := by
  obtain ⟨buf, ⟨evs, peer⟩, err⟩ := b
  obtain ⟨herr, hle, hch⟩ := hwf
  simp only at herr hle hch hlt
  subst herr
  cases evs with
  | nil =>
    right
    simp [Reader.fillLoop, RawConn.Read, dataStart, Reader.atErr, afterErr, firstErr]
  | cons ev rest =>
    cases ev with
    | fail e =>
      right
      simp [Reader.fillLoop, RawConn.Read, dataStart, Reader.atErr, afterErr, firstErr]
    | data bs =>
      left
      have hbs : bs ≠ [] := fun hnil => hch (hnil ▸ List.mem_cons_self _ _)
      have hpos : 0 < bs.length := List.length_pos.mpr hbs
      have hrest : NoEmptyChunk rest := noEmptyChunk_tail hch
      refine ⟨by simp [dataStart, hbs], ?_⟩
      by_cases hfit : bs.length ≤ defaultBufSize - buf.length
      · simp only [Reader.fillLoop, RawConn.Read, hfit, if_true, hpos]
        refine ⟨⟨rfl, ?_, hrest⟩, ?_, ?_, ?_⟩
        · simp only [List.length_append]; omega
        · simp [Reader.pre, dataStart]
        · simp [Reader.ctx, firstErr, afterErr]
        · simp only [List.length_append]; omega
      · have htake : (bs.take (defaultBufSize - buf.length)).length =
            defaultBufSize - buf.length := by
          rw [List.length_take]; omega
        have hpos2 : 0 < (bs.take (defaultBufSize - buf.length)).length := by
          rw [htake]; omega
        simp only [Reader.fillLoop, RawConn.Read, hfit, if_false, hpos2, if_true]
        refine ⟨⟨rfl, ?_, ?_⟩, ?_, ?_, ?_⟩
        · simp only [List.length_append, htake]; omega
        · intro hcs
          simp only [List.mem_cons, Event.data.injEq] at hcs
          rcases hcs with hcs | hcs
          · have hl := congrArg List.length hcs
            simp only [List.length_drop, List.length_nil] at hl
            omega
          · exact hrest hcs
        · simp only [Reader.pre, dataStart, List.append_assoc]
          rw [← List.append_assoc (bs.take _), List.take_append_drop]
        · simp [Reader.ctx, firstErr, afterErr]
        · simp only [List.length_append, htake]; omega

theorem fill_spec (b : Reader) (hwf : b.WF) (hlt : b.buf.length < defaultBufSize) :
    (dataStart b.rd.events ≠ [] ∧ b.fill.WF ∧ b.fill.pre = b.pre ∧ b.fill.ctx = b.ctx ∧
        b.buf.length < b.fill.buf.length) ∨
      (dataStart b.rd.events = [] ∧ b.fill = b.atErr) := by
  have h := fillLoop_succ 99 b hwf hlt
  have hf : b.fill = Reader.fillLoop (99 + 1) b := by
    unfold Reader.fill
    rw [if_neg (by omega)]
    rfl
  rw [hf]
  exact h

theorem length_buf_le_pre (b : Reader) : b.buf.length ≤ b.pre.length := by
  simp [Reader.pre]

theorem peekLoop_spec (n : Nat) (hn : n ≤ defaultBufSize) :
    ∀ (k : Nat) (b : Reader), b.WF → n ≤ k + b.buf.length →
      (n ≤ b.pre.length → (Reader.peekLoop k n b).WF ∧ (Reader.peekLoop k n b).pre = b.pre ∧
          (Reader.peekLoop k n b).ctx = b.ctx ∧ n ≤ (Reader.peekLoop k n b).buf.length) ∧
      (b.pre.length < n → Reader.peekLoop k n b =
          { buf := b.pre, rd := { events := afterErr b.rd.events, peer := b.rd.peer },
            err := some (firstErr b.rd.events) }) := by
  intro k
  induction k with
  | zero =>
    intro b hwf hk
    have := length_buf_le_pre b
    refine ⟨fun _ => ⟨hwf, rfl, rfl, by simpa using hk⟩, fun h => by omega⟩
  | succ k ih =>
    intro b hwf hk
    have hpre := length_buf_le_pre b
    by_cases hlt : b.buf.length < n
    · have hg : b.buf.length < n ∧ b.buf.length < defaultBufSize ∧ b.err = none :=
        ⟨hlt, by omega, hwf.err_none⟩
      have hstep : Reader.peekLoop (k + 1) n b = Reader.peekLoop k n b.fill := by
        simp only [Reader.peekLoop, hg, and_self, if_true]
      rw [hstep]
      rcases fill_spec b hwf (by omega) with ⟨_, hwf1, hpre1, hctx1, hlen1⟩ | ⟨hds, hfill⟩
      · have := ih b.fill hwf1 (by omega)
        rw [hpre1, hctx1] at this
        have hev : afterErr b.fill.rd.events = afterErr b.rd.events ∧
            b.fill.rd.peer = b.rd.peer ∧ firstErr b.fill.rd.events = firstErr b.rd.events := by
          simp only [Reader.ctx, Prod.mk.injEq] at hctx1
          exact ⟨hctx1.2.1, hctx1.2.2, hctx1.1⟩
        rw [hev.1, hev.2.1, hev.2.2] at this
        exact this
      · have hpb : b.pre = b.buf := by simp [Reader.pre, hds]
        rw [hfill]
        have hloop : Reader.peekLoop k n b.atErr = b.atErr := by
          cases k with
          | zero => rfl
          | succ k => simp [Reader.peekLoop, Reader.atErr]
        rw [hloop]
        have hpl : b.pre.length = b.buf.length := by rw [hpb]
        refine ⟨fun h => by omega, fun _ => ?_⟩
        simp [Reader.atErr, hpb]
    · have hstep : Reader.peekLoop (k + 1) n b = b := by
        simp only [Reader.peekLoop, hlt, false_and, if_false]
      rw [hstep]
      refine ⟨fun _ => ⟨hwf, rfl, rfl, by omega⟩, fun h => by omega⟩

/-- Message `Peek` with enough bytes before the first error returns them and consumes nothing;
afterwards they are all buffered. -/
theorem Peek_ok (b : Reader) (n : Nat) (L : List Byte) (x : IOError × List Event × Option Addr)
    (h : b.Holds L x) (hn : n ≤ defaultBufSize) (hlen : n ≤ L.length) :
    ∃ b1, b.Peek n = (L.take n, none, b1) ∧ b1.Holds L x ∧ n ≤ b1.buf.length := by
  obtain ⟨hwf, hpre, hctx⟩ := h
  subst hpre
  subst hctx
  obtain ⟨h1, -⟩ := peekLoop_spec n hn n b hwf (by omega)
  obtain ⟨hwf1, hpre1, hctx1, hlen1⟩ := h1 hlen
  refine ⟨Reader.peekLoop n n b, ?_, ⟨hwf1, hpre1, hctx1⟩, hlen1⟩
  unfold Reader.Peek
  simp only [if_neg (show ¬ defaultBufSize < n by omega),
    if_neg (show ¬ (Reader.peekLoop n n b).buf.length < n by omega)]
  rw [← hpre1, Reader.pre, List.take_append_of_le_length hlen1]

/-- Message `Peek` with fewer than `n` bytes before the first error returns them with that error,
and leaves them buffered with the error cleared. -/
theorem Peek_short (b : Reader) (n : Nat) (hwf : b.WF) (hn : n ≤ defaultBufSize)
    (hlen : b.pre.length < n) :
    b.Peek n = (b.pre, some (firstErr b.rd.events),
      { buf := b.pre, rd := { events := afterErr b.rd.events, peer := b.rd.peer },
        err := none }) := by
  obtain ⟨-, h2⟩ := peekLoop_spec n hn n b hwf (by omega)
  have h := h2 hlen
  unfold Reader.Peek
  simp only [h, if_neg (show ¬ defaultBufSize < n by omega), if_pos hlen, Reader.readErr]

theorem Reader.Holds.drop_buf {b : Reader} {L : List Byte} {x : IOError × List Event × Option Addr}
    (h : b.Holds L x) (n : Nat) (hn : n ≤ b.buf.length) :
    Reader.Holds { b with buf := b.buf.drop n } (L.drop n) x := by
  obtain ⟨hwf, hpre, hctx⟩ := h
  refine ⟨⟨hwf.err_none, ?_, hwf.chunks⟩, ?_, hctx⟩
  · have := hwf.buf_le
    simp only [List.length_drop]
    omega
  · rw [← hpre]
    simp only [Reader.pre]
    rw [List.drop_append_of_le_length hn]

theorem Reader.Holds.buf_eq_take {b : Reader} {L : List Byte}
    {x : IOError × List Event × Option Addr} (h : b.Holds L x) :
    b.buf = L.take b.buf.length := by
  rw [← h.2.1, Reader.pre, List.take_left']
  rfl

theorem Reader.Holds.buf_le {b : Reader} {L : List Byte}
    {x : IOError × List Event × Option Addr} (h : b.Holds L x) :
    b.buf.length ≤ L.length := by
  rw [← h.2.1]
  exact length_buf_le_pre b

/-- Message `Read` of `n` bytes when at least `n` are buffered copies exactly those. -/
theorem Read_buffered (b : Reader) (n : Nat) (L : List Byte)
    (x : IOError × List Event × Option Addr) (h : b.Holds L x) (hpos : 0 < n)
    (hn : n ≤ b.buf.length) :
    ∃ b1, b.Read n = (L.take n, none, b1) ∧ b1.Holds (L.drop n) x ∧
      b1.buf.length = b.buf.length - n := by
  refine ⟨{ b with buf := b.buf.drop n }, ?_, h.drop_buf n hn, by simp⟩
  have hne : b.buf ≠ [] := by
    intro hnil
    rw [hnil] at hn
    simp at hn
    omega
  have htake : b.buf.take n = L.take n := by
    rw [← h.2.1, Reader.pre, List.take_append_of_le_length hn]
  unfold Reader.Read
  rw [if_neg (by omega), if_neg hne, htake]

/-- Message `Discard` of `n` bytes when at least `n` are buffered skips exactly those. -/
theorem Discard_buffered (b : Reader) (n : Nat) (L : List Byte)
    (x : IOError × List Event × Option Addr) (h : b.Holds L x) (hn : n ≤ b.buf.length) :
    ∃ b1, b.Discard n = (n, none, b1) ∧ b1.Holds (L.drop n) x := by
  by_cases h0 : n = 0
  · subst h0
    exact ⟨b, by simp [Reader.Discard], by simpa using h⟩
  · refine ⟨{ b with buf := b.buf.drop n }, ?_, h.drop_buf n hn⟩
    have hlen : ¬ b.buf.length = 0 := by omega
    unfold Reader.Discard
    rw [if_neg h0]
    simp only [Reader.discardLoop, if_neg hlen, Nat.min_eq_right hn, Nat.sub_self, if_true]

theorem dataStart_eq_nil_pre {b : Reader} (h : dataStart b.rd.events = []) : b.pre = b.buf := by
  simp [Reader.pre, h]

/-- Message `ReadByte` when a byte is left before the first error returns it. -/
theorem ReadByte_ok (b : Reader) (c : Byte) (q : List Byte)
    (x : IOError × List Event × Option Addr) (h : b.Holds (c :: q) x) :
    ∃ b1, b.ReadByte = (c, none, b1) ∧ b1.Holds q x := by
  have key : ∀ b : Reader, b.Holds (c :: q) x → b.buf ≠ [] → ∀ k,
      ∃ b1, Reader.readByteLoop (k + 1) b = (c, none, b1) ∧ b1.Holds q x := by
    intro b h hne k
    obtain ⟨d, rest, hbuf⟩ := List.exists_cons_of_ne_nil hne
    have hpre := h.2.1
    rw [Reader.pre, hbuf, List.cons_append, List.cons.injEq] at hpre
    refine ⟨{ b with buf := rest }, ?_, ?_⟩
    · simp only [Reader.readByteLoop, hbuf, hpre.1]
    · have := h.drop_buf 1 (by rw [hbuf]; simp)
      simpa [hbuf] using this
  by_cases hne : b.buf = []
  · have hlt : b.buf.length < defaultBufSize := by rw [hne]; decide
    have hstep : b.ReadByte = Reader.readByteLoop 1 b.fill := by
      simp only [Reader.ReadByte, Reader.readByteLoop, hne, h.1.err_none, ne_eq,
        not_true_eq_false, if_false]
    rw [hstep]
    rcases fill_spec b h.1 hlt with ⟨_, hwf1, hpre1, hctx1, hlen1⟩ | ⟨hds, _⟩
    · have h1 : b.fill.Holds (c :: q) x := ⟨hwf1, hpre1.trans h.2.1, hctx1.trans h.2.2⟩
      exact key b.fill h1 (by intro hnil; rw [hnil] at hlen1; simp at hlen1) 0
    · have := h.2.1
      rw [dataStart_eq_nil_pre hds, hne] at this
      cases this
  · exact key b h hne 1

/-- Message `ReadByte` when nothing is left before the first error returns that error. -/
theorem ReadByte_end (b : Reader) (x : IOError × List Event × Option Addr)
    (h : b.Holds [] x) :
    ∃ b1, b.ReadByte = (0, some x.1, b1) := by
  have hbuf : b.buf = [] := by
    have := h.2.1
    simp only [Reader.pre, List.append_eq_nil] at this
    exact this.1
  have hds : dataStart b.rd.events = [] := by
    have := h.2.1
    simp only [Reader.pre, List.append_eq_nil] at this
    exact this.2
  have hlt : b.buf.length < defaultBufSize := by rw [hbuf]; decide
  have hstep : b.ReadByte = Reader.readByteLoop 1 b.fill := by
    simp only [Reader.ReadByte, Reader.readByteLoop, hbuf, h.1.err_none, ne_eq,
      not_true_eq_false, if_false]
  rw [hstep]
  rcases fill_spec b h.1 hlt with ⟨hne, _⟩ | ⟨_, hfill⟩
  · exact absurd hds hne
  · rw [hfill]
    have hx : x.1 = firstErr b.rd.events := by rw [← h.2.2]; rfl
    rw [hx]
    simp only [Reader.readByteLoop, Reader.atErr, hbuf, ne_eq, reduceCtorEq, not_false_eq_true,
      if_true, Reader.readErr]
    exact ⟨_, rfl⟩

theorem indexByte_none {s : List Byte} {c : Byte} (h : c ∉ s) : indexByte s c = none := by
  induction s with
  | nil => rfl
  | cons a s ih =>
    simp only [List.mem_cons, not_or] at h
    simp [indexByte, Ne.symm h.1, ih h.2]

theorem indexByte_append {p : List Byte} {c : Byte} (q : List Byte) (h : c ∉ p) :
    indexByte (p ++ c :: q) c = some p.length := by
  induction p with
  | nil => simp [indexByte]
  | cons a p ih =>
    simp only [List.mem_cons, not_or] at h
    simp [indexByte, Ne.symm h.1, ih h.2]

theorem take_append_cons (p q : List Byte) (c : Byte) (m : Nat) :
    (p ++ c :: q).take (p.length + 1 + m) = p ++ c :: q.take m := by
  induction p with
  | nil => simp [Nat.add_comm 1 m]
  | cons a p ih =>
    have : (a :: p).length + 1 + m = (p.length + 1 + m) + 1 := by
      simp only [List.length_cons]; omega
    rw [this, List.cons_append, List.take_succ_cons, ih, List.cons_append]

theorem drop_append_cons (p q : List Byte) (c : Byte) :
    (p ++ c :: q).drop (p.length + 1) = q := by
  induction p with
  | nil => simp
  | cons a p ih => simp [ih]

theorem not_mem_take_of_not_mem {p : List Byte} {c : Byte} (n : Nat) (h : c ∉ p) :
    c ∉ p.take n := fun hc => h (List.mem_of_mem_take hc)

/-- Message `ReadSlice`, the delimiter among the first bytes: the line up to it. -/
theorem readSliceLoop_found (delim : Byte) (p q : List Byte)
    (x : IOError × List Event × Option Addr) (hp : delim ∉ p)
    (hlen : p.length < defaultBufSize) :
    ∀ (k : Nat) (b : Reader), b.Holds (p ++ delim :: q) x →
      defaultBufSize + 2 ≤ k + b.buf.length →
      ∃ b1, Reader.readSliceLoop k delim b = (p ++ [delim], none, b1) ∧ b1.Holds q x := by
  intro k
  induction k with
  | zero =>
    intro b h hk
    have := h.1.buf_le
    omega
  | succ k ih =>
    intro b h hk
    have hbt := h.buf_eq_take
    by_cases hlt : p.length < b.buf.length
    · have hbuf : b.buf = p ++ delim :: q.take (b.buf.length - p.length - 1) := by
        have hm : b.buf.length = p.length + 1 + (b.buf.length - p.length - 1) := by omega
        conv_lhs => rw [hbt, hm]
        exact take_append_cons p q delim _
      have hidx := indexByte_append (q.take (b.buf.length - p.length - 1)) hp
      rw [← hbuf] at hidx
      refine ⟨{ b with buf := b.buf.drop (p.length + 1) }, ?_, ?_⟩
      · simp only [Reader.readSliceLoop, hidx]
        congr 1
        have := take_append_cons p (q.take (b.buf.length - p.length - 1)) delim 0
        rw [← hbuf] at this
        rw [Nat.add_zero] at this
        rw [this]
        simp
      · have := h.drop_buf (p.length + 1) (by omega)
        rw [drop_append_cons] at this
        exact this
    · have hnot : delim ∉ b.buf := by
        rw [hbt, List.take_append_eq_append_take]
        have : b.buf.length - p.length = 0 := by omega
        rw [this]
        simpa using not_mem_take_of_not_mem _ hp
      have hnf : ¬ defaultBufSize ≤ b.buf.length := by omega
      have hstep : Reader.readSliceLoop (k + 1) delim b = Reader.readSliceLoop k delim b.fill := by
        simp only [Reader.readSliceLoop, indexByte_none hnot, h.1.err_none, ne_eq,
          not_true_eq_false, if_false, hnf]
      rw [hstep]
      rcases fill_spec b h.1 (by omega) with ⟨_, hwf1, hpre1, hctx1, hlen1⟩ | ⟨hds, _⟩
      · exact ih b.fill ⟨hwf1, hpre1.trans h.2.1, hctx1.trans h.2.2⟩ (by omega)
      · exfalso
        have := h.2.1
        rw [dataStart_eq_nil_pre hds] at this
        rw [this] at hnot
        simp at hnot

/-- Message `ReadSlice`, no delimiter in a full buffer: the buffer, with `ErrBufferFull`. -/
theorem readSliceLoop_full (delim : Byte) (L : List Byte)
    (x : IOError × List Event × Option Addr) (hp : delim ∉ L.take defaultBufSize)
    (hlen : defaultBufSize ≤ L.length) :
    ∀ (k : Nat) (b : Reader), b.Holds L x → defaultBufSize + 2 ≤ k + b.buf.length →
      ∃ b1, Reader.readSliceLoop k delim b =
          (L.take defaultBufSize, some IOError.ErrBufferFull, b1) ∧
        b1.Holds (L.drop defaultBufSize) x := by
  intro k
  induction k with
  | zero =>
    intro b h hk
    have := h.1.buf_le
    omega
  | succ k ih =>
    intro b h hk
    have hbt := h.buf_eq_take
    have hble := h.1.buf_le
    have hnot : delim ∉ b.buf := by
      intro hmem
      apply hp
      rw [hbt] at hmem
      have : L.take b.buf.length = (L.take defaultBufSize).take b.buf.length := by
        rw [List.take_take, Nat.min_eq_left hble]
      rw [this] at hmem
      exact List.mem_of_mem_take hmem
    by_cases hfull : defaultBufSize ≤ b.buf.length
    · have heq : b.buf.length = defaultBufSize := by omega
      refine ⟨{ b with buf := [] }, ?_, ?_⟩
      · simp only [Reader.readSliceLoop, indexByte_none hnot, h.1.err_none, ne_eq,
          not_true_eq_false, if_false, hfull, if_true]
        rw [← heq, ← hbt]
      · have := h.drop_buf b.buf.length (Nat.le_refl _)
        rw [heq] at this
        have hd : List.drop defaultBufSize b.buf = [] :=
          List.drop_of_length_le (by omega)
        rw [hd] at this
        exact this
    · have hstep : Reader.readSliceLoop (k + 1) delim b = Reader.readSliceLoop k delim b.fill := by
        simp only [Reader.readSliceLoop, indexByte_none hnot, h.1.err_none, ne_eq,
          not_true_eq_false, if_false, hfull]
      rw [hstep]
      rcases fill_spec b h.1 (by omega) with ⟨_, hwf1, hpre1, hctx1, hlen1⟩ | ⟨hds, _⟩
      · exact ih b.fill ⟨hwf1, hpre1.trans h.2.1, hctx1.trans h.2.2⟩ (by omega)
      · exfalso
        have := h.2.1
        rw [dataStart_eq_nil_pre hds] at this
        rw [← this] at hlen
        omega

/-- Message `ReadSlice`, the stream breaks before a delimiter and before the buffer is full:
what was read, with the error of the connection. -/
theorem readSliceLoop_err (delim : Byte) (L : List Byte)
    (x : IOError × List Event × Option Addr) (hp : delim ∉ L)
    (hlen : L.length < defaultBufSize) :
    ∀ (k : Nat) (b : Reader), b.Holds L x → defaultBufSize + 2 ≤ k + b.buf.length →
      ∃ b1, Reader.readSliceLoop k delim b = (L, some x.1, b1) := by
  intro k
  induction k with
  | zero =>
    intro b h hk
    have := h.1.buf_le
    omega
  | succ k ih =>
    intro b h hk
    have hbt := h.buf_eq_take
    have hble := h.buf_le
    have hnot : delim ∉ b.buf := by
      rw [hbt]
      exact not_mem_take_of_not_mem _ hp
    have hnf : ¬ defaultBufSize ≤ b.buf.length := by omega
    have hstep : Reader.readSliceLoop (k + 1) delim b = Reader.readSliceLoop k delim b.fill := by
      simp only [Reader.readSliceLoop, indexByte_none hnot, h.1.err_none, ne_eq,
        not_true_eq_false, if_false, hnf]
    rw [hstep]
    rcases fill_spec b h.1 (by omega) with ⟨_, hwf1, hpre1, hctx1, hlen1⟩ | ⟨hds, hfill⟩
    · exact ih b.fill ⟨hwf1, hpre1.trans h.2.1, hctx1.trans h.2.2⟩ (by omega)
    · rw [hfill]
      have hbuf : b.buf = L := by
        rw [← dataStart_eq_nil_pre hds]
        exact h.2.1
      have hx : x.1 = firstErr b.rd.events := by rw [← h.2.2]; rfl
      obtain ⟨k1, rfl⟩ : ∃ k1, k = k1 + 1 := ⟨k - 1, by omega⟩
      rw [hx]
      simp only [Reader.readSliceLoop, Reader.atErr, indexByte_none hp, ne_eq, reduceCtorEq,
        not_false_eq_true, if_true, Reader.readErr, hbuf]
      exact ⟨_, rfl⟩

theorem readBytesLoop_found (delim : Byte) (q : List Byte)
    (x : IOError × List Event × Option Addr) :
    ∀ (k : Nat) (p full : List Byte) (b : Reader), delim ∉ p →
      b.Holds (p ++ delim :: q) x → p.length < k * defaultBufSize →
      ∃ b1, Reader.readBytesLoop k delim full b = (full ++ (p ++ [delim]), none, b1) ∧
        b1.Holds q x := by
  intro k
  induction k with
  | zero =>
    intro p full b _ _ hk
    simp at hk
  | succ k ih =>
    intro p full b hp h hk
    by_cases hlen : p.length < defaultBufSize
    · obtain ⟨b1, hrs, hb1⟩ :=
        readSliceLoop_found delim p q x hp hlen (defaultBufSize + 2) b h (by omega)
      refine ⟨b1, ?_, hb1⟩
      simp only [Reader.readBytesLoop, Reader.ReadSlice, hrs]
    · have hnot : delim ∉ (p ++ delim :: q).take defaultBufSize := by
        rw [List.take_append_eq_append_take]
        have : defaultBufSize - p.length = 0 := by omega
        rw [this]
        simpa using not_mem_take_of_not_mem _ hp
      obtain ⟨b1, hrs, hb1⟩ :=
        readSliceLoop_full delim (p ++ delim :: q) x hnot
          (by simp only [List.length_append, List.length_cons]; omega) (defaultBufSize + 2) b h
          (by omega)
      have htake : (p ++ delim :: q).take defaultBufSize = p.take defaultBufSize := by
        rw [List.take_append_of_le_length (by omega)]
      have hdrop : (p ++ delim :: q).drop defaultBufSize = p.drop defaultBufSize ++ delim :: q := by
        rw [List.drop_append_of_le_length (by omega)]
      rw [htake] at hrs
      rw [hdrop] at hb1
      have hp1 : delim ∉ p.drop defaultBufSize := fun hc => hp (List.mem_of_mem_drop hc)
      have hk1 : (p.drop defaultBufSize).length < k * defaultBufSize := by
        simp only [List.length_drop]
        have : (k + 1) * defaultBufSize = k * defaultBufSize + defaultBufSize := by ring
        omega
      obtain ⟨b2, hrec, hb2⟩ := ih (p.drop defaultBufSize) (full ++ p.take defaultBufSize) b1 hp1 hb1 hk1
      refine ⟨b2, ?_, hb2⟩
      simp only [Reader.readBytesLoop, Reader.ReadSlice, hrs, ne_eq, not_true_eq_false, if_false,
        hrec]
      simp only [List.append_assoc, Prod.mk.injEq, and_true]
      rw [← List.append_assoc (p.take defaultBufSize), List.take_append_drop]

theorem readBytesLoop_err (delim : Byte) (x : IOError × List Event × Option Addr)
    (hx : x.1 ≠ IOError.ErrBufferFull) :
    ∀ (k : Nat) (L full : List Byte) (b : Reader), delim ∉ L →
      b.Holds L x → L.length < k * defaultBufSize →
      ∃ b1, Reader.readBytesLoop k delim full b = (full ++ L, some x.1, b1) := by
  intro k
  induction k with
  | zero =>
    intro p full b _ _ hk
    simp at hk
  | succ k ih =>
    intro L full b hp h hk
    by_cases hlen : L.length < defaultBufSize
    · obtain ⟨b1, hrs⟩ :=
        readSliceLoop_err delim L x hp hlen (defaultBufSize + 2) b h (by omega)
      refine ⟨b1, ?_⟩
      simp only [Reader.readBytesLoop, Reader.ReadSlice, hrs, ne_eq, hx, not_false_eq_true,
        if_true]
    · obtain ⟨b1, hrs, hb1⟩ :=
        readSliceLoop_full delim L x (not_mem_take_of_not_mem _ hp) (by omega)
          (defaultBufSize + 2) b h (by omega)
      have hp1 : delim ∉ L.drop defaultBufSize := fun hc => hp (List.mem_of_mem_drop hc)
      have hk1 : (L.drop defaultBufSize).length < k * defaultBufSize := by
        simp only [List.length_drop]
        have : (k + 1) * defaultBufSize = k * defaultBufSize + defaultBufSize := by ring
        omega
      obtain ⟨b2, hrec⟩ := ih (L.drop defaultBufSize) (full ++ L.take defaultBufSize) b1 hp1 hb1 hk1
      refine ⟨b2, ?_⟩
      simp only [Reader.readBytesLoop, Reader.ReadSlice, hrs, ne_eq, not_true_eq_false, if_false,
        hrec]
      simp only [List.append_assoc, List.take_append_drop]

theorem length_dataStart_le (evs : List Event) :
    (dataStart evs).length ≤ (RawConn.pending { events := evs, peer := none }) := by
  induction evs with
  | nil => simp [dataStart, RawConn.pending]
  | cons ev evs ih =>
    cases ev with
    | data bs =>
      simp only [RawConn.pending, List.map_cons, List.sum_cons, dataStart,
        List.length_append] at ih ⊢
      omega
    | fail e => simp [dataStart]

theorem Reader.Holds.fuel {b : Reader} {L : List Byte}
    {x : IOError × List Event × Option Addr} (h : b.Holds L x) :
    L.length < (b.buf.length + b.rd.pending + 1) * defaultBufSize := by
  have h1 : L.length ≤ b.buf.length + b.rd.pending := by
    rw [← h.2.1]
    have := length_dataStart_le b.rd.events
    simp only [Reader.pre, List.length_append]
    have e : RawConn.pending { events := b.rd.events, peer := none } = b.rd.pending := rfl
    omega
  have h2 : (b.buf.length + b.rd.pending + 1) * 1 ≤
      (b.buf.length + b.rd.pending + 1) * defaultBufSize :=
    Nat.mul_le_mul_left _ (by decide)
  omega

/-- Message `ReadString` with the delimiter before the first error: the text up to and including
the first delimiter is returned and consumed, nothing more. -/
theorem ReadString_ok (b : Reader) (delim : Byte) (p q : List Byte)
    (x : IOError × List Event × Option Addr) (h : b.Holds (p ++ delim :: q) x)
    (hp : delim ∉ p) :
    ∃ b1, b.ReadString delim = (p ++ [delim], none, b1) ∧ b1.Holds q x := by
  have hf := h.fuel
  have hlen : p.length < (b.buf.length + b.rd.pending + 1) * defaultBufSize := by
    simp only [List.length_append, List.length_cons] at hf
    omega
  obtain ⟨b1, hr, hb1⟩ := readBytesLoop_found delim q x _ p [] b hp h hlen
  exact ⟨b1, by simpa [Reader.ReadString] using hr, hb1⟩

/-- Message `ReadString` with no delimiter before the first error returns what it read and that
error (an error other than `ErrBufferFull`, which `ReadBytes` reads as "go on"). -/
theorem ReadString_err (b : Reader) (delim : Byte) (L : List Byte)
    (x : IOError × List Event × Option Addr) (h : b.Holds L x) (hp : delim ∉ L)
    (hx : x.1 ≠ IOError.ErrBufferFull) :
    ∃ b1, b.ReadString delim = (L, some x.1, b1) := by
  obtain ⟨b1, hr⟩ := readBytesLoop_err delim x hx _ L [] b hp h h.fuel
  exact ⟨b1, by simpa [Reader.ReadString] using hr⟩

/-- The first occurrence of a byte splits a list. -/
theorem split_first (delim : Byte) (L : List Byte) (h : delim ∈ L) :
    ∃ p q, L = p ++ delim :: q ∧ delim ∉ p := by
  induction L with
  | nil => simp at h
  | cons a L ih =>
    by_cases ha : a = delim
    · exact ⟨[], L, by simp [ha], by simp⟩
    · have hmem : delim ∈ L := by
        rcases List.mem_cons.mp h with h1 | h1
        · exact absurd h1.symm ha
        · exact h1
      obtain ⟨p, q, hpq, hp⟩ := ih hmem
      refine ⟨a :: p, q, by simp [hpq], ?_⟩
      simp only [List.mem_cons, not_or]
      exact ⟨fun hd => ha hd.symm, hp⟩

/-! ## Lemmas on net.ParseIP -/

theorem parseIPv4FieldsLoop_ok : ∀ (s : List Byte) (prev : Option Byte) (val digLen : Nat)
    (fields : List Byte) (r : Nat × List Byte),
    parseIPv4FieldsLoop s prev val digLen fields = some r → ∀ x ∈ s, IsIPChar x := by
  intro s
  induction s with
  | nil => intro prev val digLen fields r _ x hx; simp at hx
  | cons a s ih =>
    intro prev val digLen fields r h
    simp only [parseIPv4FieldsLoop] at h
    split at h
    · rename_i hd
      split at h
      · simp at h
      · split at h
        · simp at h
        · intro x hx
          rcases List.mem_cons.mp hx with hx | hx
          · subst hx
            left
            simp [hexVal, hd]
          · exact ih _ _ _ _ _ h x hx
    · split at h
      · rename_i hdot
        split at h
        · simp at h
        · split at h
          · simp at h
          · intro x hx
            rcases List.mem_cons.mp hx with hx | hx
            · subst hx
              right
              left
              exact hdot
            · exact ih _ _ _ _ _ h x hx
      · simp at h

theorem parseIPv4Fields_ok (s fields : List Byte) (h : parseIPv4Fields s = some fields) :
    ∀ x ∈ s, IsIPChar x := by
  simp only [parseIPv4Fields] at h
  split at h
  · simp at h
  · rename_i val fs hl
    exact parseIPv4FieldsLoop_ok _ _ _ _ _ _ hl

theorem parseIPv4_ok (s : List Byte) (ip : IP) (h : parseIPv4 s = some ip) :
    ∀ x ∈ s, IsIPChar x := by
  simp only [parseIPv4] at h
  split at h
  · simp at h
  · rename_i fields hf
    exact parseIPv4Fields_ok s fields hf

theorem hexGroupLoop_ok : ∀ (s : List Byte) (acc off v c : Nat),
    hexGroupLoop s acc off = some (v, c) →
    off ≤ c ∧ c - off ≤ s.length ∧ ∀ x ∈ s.take (c - off), IsIPChar x := by
  intro s
  induction s with
  | nil =>
    intro acc off v c h
    simp only [hexGroupLoop, Option.some.injEq, Prod.mk.injEq] at h
    obtain ⟨-, rfl⟩ := h
    simp
  | cons a s ih =>
    intro acc off v c h
    simp only [hexGroupLoop] at h
    split at h
    · rename_i d hd
      split at h
      · simp at h
      · split at h
        · simp at h
        · obtain ⟨h1, h2, h3⟩ := ih _ _ _ _ h
          refine ⟨by omega, by simp only [List.length_cons]; omega, ?_⟩
          have : c - off = (c - (off + 1)) + 1 := by omega
          rw [this, List.take_succ_cons]
          intro x hx
          rcases List.mem_cons.mp hx with hx | hx
          · subst hx
            left
            simp [hd]
          · exact h3 x hx
    · simp only [Option.some.injEq, Prod.mk.injEq] at h
      obtain ⟨-, rfl⟩ := h
      simp

/-- What a group of hexadecimal digits consumed is a run of address bytes at the start. -/
theorem consumed_split (s : List Byte) (c : Nat)
    (h : ∀ x ∈ s.take c, IsIPChar x) :
    ∃ t, s = t ++ s.drop c ∧ ∀ x ∈ t, IsIPChar x :=
  ⟨s.take c, (List.take_append_drop c s).symm, h⟩

theorem colon_split (s : List Byte) (h : s.head? = some 58) :
    ∃ t, s = t ++ s.drop 1 ∧ ∀ x ∈ t, IsIPChar x := by
  cases s with
  | nil => simp at h
  | cons a s =>
    simp only [List.head?_cons, Option.some.injEq] at h
    subst h
    exact ⟨[58], by simp, by simp [IsIPChar]⟩

theorem parseIPv6Loop_ok : ∀ (k : Nat) (s ip : List Byte) (ell : Option Nat)
    (s1 ip1 : List Byte) (ell1 : Option Nat),
    parseIPv6Loop k s ip ell = some (s1, ip1, ell1) →
    ∃ t, s = t ++ s1 ∧ ∀ x ∈ t, IsIPChar x := by
  intro k
  induction k with
  | zero =>
    intro s ip ell s1 ip1 ell1 h
    simp only [parseIPv6Loop, Option.some.injEq, Prod.mk.injEq] at h
    exact ⟨[], by simp [h.1], by simp⟩
  | succ k ih =>
    intro s ip ell s1 ip1 ell1 h
    simp only [parseIPv6Loop] at h
    split at h
    · simp only [Option.some.injEq, Prod.mk.injEq] at h
      exact ⟨[], by simp [h.1], by simp⟩
    · split at h
      · simp at h
      · rename_i acc off hx
        obtain ⟨-, -, hx3⟩ := hexGroupLoop_ok _ _ _ _ _ hx
        obtain ⟨t1, ht1, hall1⟩ := consumed_split s off (by simpa using hx3)
        split at h
        · simp at h
        · split at h
          · -- trailing IPv4
            split at h
            · simp at h
            · split at h
              · simp at h
              · split at h
                · simp at h
                · rename_i fields h4
                  simp only [Option.some.injEq, Prod.mk.injEq] at h
                  exact ⟨s, by simp [← h.1], parseIPv4Fields_ok s fields h4⟩
          · split at h
            · simp only [Option.some.injEq, Prod.mk.injEq] at h
              exact ⟨t1, by rw [← h.1]; exact ht1, hall1⟩
            · split at h
              · simp at h
              · rename_i hcolon
                simp only [ne_eq, Decidable.not_not] at hcolon
                obtain ⟨t2, ht2, hall2⟩ := colon_split _ hcolon
                split at h
                · simp at h
                · split at h
                  · rename_i hcolon2
                    split at h
                    · simp at h
                    · obtain ⟨t3, ht3, hall3⟩ := colon_split _ hcolon2
                      have hcomb : ∃ t, s = t ++ List.drop 1 (List.drop 1 (List.drop off s)) ∧
                          ∀ x ∈ t, IsIPChar x := by
                        refine ⟨t1 ++ (t2 ++ t3), ?_, ?_⟩
                        · conv_lhs => rw [ht1, ht2, ht3]
                          simp
                        · intro x hx
                          simp only [List.mem_append] at hx
                          rcases hx with hx | hx | hx
                          · exact hall1 x hx
                          · exact hall2 x hx
                          · exact hall3 x hx
                      obtain ⟨t, ht, hall⟩ := hcomb
                      split at h
                      · simp only [Option.some.injEq, Prod.mk.injEq] at h
                        exact ⟨t, by rw [← h.1]; exact ht, hall⟩
                      · obtain ⟨t4, ht4, hall4⟩ := ih _ _ _ _ _ _ h
                        refine ⟨t ++ t4, ?_, ?_⟩
                        · conv_lhs => rw [ht, ht4]
                          simp
                        · intro x hx
                          simp only [List.mem_append] at hx
                          rcases hx with hx | hx
                          · exact hall x hx
                          · exact hall4 x hx
                  · obtain ⟨t4, ht4, hall4⟩ := ih _ _ _ _ _ _ h
                    refine ⟨t1 ++ (t2 ++ t4), ?_, ?_⟩
                    · conv_lhs => rw [ht1, ht2, ht4]
                      simp
                    · intro x hx
                      simp only [List.mem_append] at hx
                      rcases hx with hx | hx | hx
                      · exact hall1 x hx
                      · exact hall2 x hx
                      · exact hall4 x hx

/-- An address without a zone came from a text without `'%'`, which is the text parsed. -/
theorem splitZone_no_zone (s t : List Byte) (h : splitZone s = some (t, [])) : t = s := by
  simp only [splitZone] at h
  split at h
  · simp only [Option.some.injEq, Prod.mk.injEq, and_true] at h
    exact h.symm
  · split at h
    · simp at h
    · rename_i hne
      simp only [Option.some.injEq, Prod.mk.injEq] at h
      exact absurd h.2 hne

theorem parseIPv6_ok (s : List Byte) (ip : IP) (h : parseIPv6 s = some (ip, [])) :
    ∀ x ∈ s, IsIPChar x := by
  simp only [parseIPv6] at h
  split at h
  · simp at h
  · rename_i t zone hz
    have hzone : zone = [] := by
      by_cases hlead : (2 ≤ t.length ∧ t.get? 0 = some 58 ∧ t.get? 1 = some 58)
      · simp only [hlead, and_self, decide_True, if_true, true_and] at h
        split at h
        · simp only [Option.some.injEq, Prod.mk.injEq] at h
          exact h.2
        · split at h
          · simp at h
          · split at h
            · simp at h
            · split at h
              · split at h
                · simp at h
                · simp only [Option.some.injEq, Prod.mk.injEq] at h
                  exact h.2
              · split at h
                · simp at h
                · simp only [Option.some.injEq, Prod.mk.injEq] at h
                  exact h.2
      · simp only [hlead, decide_False, if_false, false_and, Bool.false_eq_true] at h
        split at h
        · simp at h
        · split at h
          · simp at h
          · split at h
            · split at h
              · simp at h
              · simp only [Option.some.injEq, Prod.mk.injEq] at h
                exact h.2
            · split at h
              · simp at h
              · simp only [Option.some.injEq, Prod.mk.injEq] at h
                exact h.2
    subst hzone
    have hts := splitZone_no_zone s t hz
    subst hts
    by_cases hlead : (2 ≤ t.length ∧ t.get? 0 = some 58 ∧ t.get? 1 = some 58)
    · have hs : ∃ t0, t = t0 ++ t.drop 2 ∧ ∀ x ∈ t0, IsIPChar x := by
        match t, hlead with
        | a :: b :: r, hl =>
          simp only [List.get?_cons_zero, Option.some.injEq, List.get?_cons_succ] at hl
          obtain ⟨-, rfl, rfl⟩ := hl
          exact ⟨[58, 58], by simp, by simp [IsIPChar]⟩
      obtain ⟨t0, ht0, hall0⟩ := hs
      simp only [hlead, and_self, decide_True, if_true, true_and] at h
      split at h
      · rename_i hnil
        simp only [List.length_eq_zero] at hnil
        rw [hnil, List.append_nil] at ht0
        rw [ht0]
        exact hall0
      · split at h
        · simp at h
        · rename_i s1 ip1 ell hl
          obtain ⟨u, hu, hall⟩ := parseIPv6Loop_ok _ _ _ _ _ _ _ hl
          split at h
          · simp at h
          · rename_i hlen
            simp only [ne_eq, Decidable.not_not, List.length_eq_zero] at hlen
            rw [hlen, List.append_nil] at hu
            rw [ht0, hu]
            intro x hx
            rcases List.mem_append.mp hx with hx | hx
            · exact hall0 x hx
            · exact hall x hx
    · simp only [hlead, decide_False, if_false, false_and, Bool.false_eq_true] at h
      split at h
      · simp at h
      · rename_i s1 ip1 ell hl
        obtain ⟨u, hu, hall⟩ := parseIPv6Loop_ok _ _ _ _ _ _ _ hl
        split at h
        · simp at h
        · rename_i hlen
          simp only [ne_eq, Decidable.not_not, List.length_eq_zero] at hlen
          rw [hlen, List.append_nil] at hu
          rw [hu]
          exact hall

theorem parseAddrScan_ok (s : List Byte) (ip : IP) :
    ∀ r : List Byte, parseAddrScan s r = some (ip, []) → ∀ x ∈ s, IsIPChar x := by
  intro r
  induction r with
  | nil => intro h; simp [parseAddrScan] at h
  | cons c cs ih =>
    intro h
    simp only [parseAddrScan] at h
    split at h
    · split at h
      · simp at h
      · rename_i ip4 h4
        exact parseIPv4_ok s ip4 h4
    · split at h
      · exact parseIPv6_ok s ip h
      · split at h
        · simp at h
        · exact ih h

/-- A text that `net.ParseIP` accepts holds only hexadecimal digits, dots and colons. -/
theorem ParseIP_chars (s : List Byte) (ip : IP) (h : ParseIP s = some ip) :
    ∀ x ∈ s, IsIPChar x := by
  simp only [ParseIP] at h
  split at h
  · simp at h
  · rename_i ip1 zone ha
    split at h
    · simp at h
    · rename_i hz
      simp only [ne_eq, Decidable.not_not] at hz
      subst hz
      exact parseAddrScan_ok s ip1 s ha

/-- A text that `net.ParseIP` accepts holds no space. -/
theorem ParseIP_no_space (s : List Byte) (ip : IP) (h : ParseIP s = some ip) : SP ∉ s := by
  intro hmem
  have := ParseIP_chars s ip h SP hmem
  simp [IsIPChar, SP, hexVal] at this

/-- An octet with a leading zero and a group of five hexadecimal digits are refused. -/
theorem ParseIP_strict :
    ParseIP (bytesOf "192.168.01.1") = none ∧ ParseIP (bytesOf "00001::1") = none ∧
    ParseIP (bytesOf "192.168.0.1") =
      some [0, 0, 0, 0, 0, 0, 0, 0, 0, 0, 255, 255, 192, 168, 0, 1] ∧
    ParseIP (bytesOf "::1") = some [0, 0, 0, 0, 0, 0, 0, 0, 0, 0, 0, 0, 0, 0, 0, 1] ∧
    ParseIP (bytesOf "fe80::1%eth0") = none := by
  decide

/-! ## Lemmas on strconv.Atoi -/

theorem decFrom_cons (n : Nat) (c : Byte) (s : List Byte) :
    decFrom n (c :: s) = decFrom (n * 10 + (c - 48)) s := rfl

theorem le_decFrom (s : List Byte) : ∀ n, n ≤ decFrom n s := by
  induction s with
  | nil => intro n; exact Nat.le_refl _
  | cons c s ih =>
    intro n
    rw [decFrom_cons]
    have := ih (n * 10 + (c - 48))
    omega

theorem parseUintLoop_ok (s : List Byte) : ∀ n, (∀ c ∈ s, IsDigit c) → decFrom n s < 2 ^ 64 →
    parseUintLoop s n = Except.ok (decFrom n s) := by
  induction s with
  | nil => intro n _ _; rfl
  | cons c s ih =>
    intro n hd hlt
    have hc : IsDigit c := hd c (List.mem_cons_self _ _)
    rw [decFrom_cons] at hlt ⊢
    have hge := le_decFrom s (n * 10 + (c - 48))
    have h1 : ¬ 2 ^ 64 / 10 + 1 ≤ n := by
      norm_num at hlt ⊢
      omega
    have h2 : ¬ 2 ^ 64 ≤ n * 10 + (c - 48) := by omega
    simp only [parseUintLoop, hc.1, hc.2, and_self, if_true, h1, if_false, h2]
    exact ih _ (fun d hdm => hd d (List.mem_cons_of_mem _ hdm)) hlt

theorem parseUintLoop_inv (s : List Byte) : ∀ n v, parseUintLoop s n = Except.ok v →
    (∀ c ∈ s, IsDigit c) ∧ v = decFrom n s := by
  induction s with
  | nil =>
    intro n v h
    simp only [parseUintLoop, Except.ok.injEq] at h
    exact ⟨by simp, h.symm⟩
  | cons c s ih =>
    intro n v h
    simp only [parseUintLoop] at h
    split at h
    · rename_i hc
      split at h
      · simp at h
      · split at h
        · simp at h
        · obtain ⟨h1, h2⟩ := ih _ _ h
          refine ⟨?_, by rw [decFrom_cons]; exact h2⟩
          intro d hd
          rcases List.mem_cons.mp hd with hd | hd
          · subst hd; exact hc
          · exact h1 d hd
    · simp at h

theorem parseUintLoop_ne_ErrSyntax (s : List Byte) : ∀ n, (∀ c ∈ s, IsDigit c) →
    parseUintLoop s n ≠ Except.error NumError.ErrSyntax := by
  induction s with
  | nil => intro n _; simp [parseUintLoop]
  | cons c s ih =>
    intro n hd
    have hc : IsDigit c := hd c (List.mem_cons_self _ _)
    simp only [parseUintLoop, hc.1, hc.2, and_self, if_true]
    split
    · simp
    · split
      · simp
      · exact ih _ (fun d hdm => hd d (List.mem_cons_of_mem _ hdm))

theorem ParseUint_decimal (t : List Byte) (h : IsDecimal t) (hlt : decVal t < 2 ^ 64) :
    ParseUint t = Except.ok (decVal t) := by
  unfold ParseUint
  rw [if_neg h.1]
  exact parseUintLoop_ok t 0 h.2 hlt

theorem ParseUint_inv (t : List Byte) (v : Nat) (h : ParseUint t = Except.ok v) :
    IsDecimal t ∧ v = decVal t := by
  unfold ParseUint at h
  split at h
  · simp at h
  · rename_i hne
    obtain ⟨h1, h2⟩ := parseUintLoop_inv t 0 v h
    exact ⟨⟨hne, h1⟩, h2⟩

theorem Atoi_of_ParseUint (c : Byte) (cs : List Byte) (un : Nat)
    (h : ParseUint (if c = 43 ∨ c = 45 then cs else c :: cs) = Except.ok un) :
    Atoi (c :: cs) =
      if (!decide (c = 45) : Bool) = true ∧ 2 ^ 63 ≤ un then Except.error NumError.ErrRange
      else if decide (c = 45) = true ∧ 2 ^ 63 < un then Except.error NumError.ErrRange
      else Except.ok (if decide (c = 45) = true then -(un : Int) else (un : Int)) := by
  simp only [Atoi, h]

/-- Texts of decimal digits below `2 ^ 63` are read by `strconv.Atoi` as their value. -/
theorem Atoi_decimal (s : List Byte) (h : IsDecimal s) (hlt : decVal s < 2 ^ 63) :
    Atoi s = Except.ok (decVal s : Int) := by
  obtain ⟨c, cs, rfl⟩ := List.exists_cons_of_ne_nil h.1
  have hc : IsDigit c := h.2 c (List.mem_cons_self _ _)
  have h43 : ¬ (c = 43 ∨ c = 45) := by
    unfold IsDigit at hc
    unfold Byte at *
    omega
  have h45 : ¬ c = 45 := fun e => h43 (Or.inr e)
  have hp : ParseUint (if c = 43 ∨ c = 45 then cs else c :: cs) = Except.ok (decVal (c :: cs)) := by
    rw [if_neg h43]
    exact ParseUint_decimal _ h (lt_trans hlt (by norm_num))
  rw [Atoi_of_ParseUint c cs _ hp]
  simp [h45]
  omega

theorem ParseUint_range (t : List Byte) (e : NumError) (h : ParseUint t = Except.error e)
    (hd : IsDecimal t) : e = NumError.ErrRange := by
  unfold ParseUint at h
  rw [if_neg hd.1] at h
  cases e with
  | ErrRange => rfl
  | ErrSyntax => exact absurd h (parseUintLoop_ne_ErrSyntax t 0 hd.2)

theorem Atoi_inv_aux (c : Byte) (cs : List Byte) (v : Int) (h : Atoi (c :: cs) = Except.ok v) :
    ∃ un, ParseUint (if c = 43 ∨ c = 45 then cs else c :: cs) = Except.ok un ∧
      ((c ≠ 45 ∧ un < 2 ^ 63 ∧ v = un) ∨ (c = 45 ∧ un ≤ 2 ^ 63 ∧ v = -(un : Int))) := by
  cases hp : ParseUint (if c = 43 ∨ c = 45 then cs else c :: cs) with
  | error e =>
    exfalso
    cases e with
    | ErrSyntax => simp [Atoi, hp] at h
    | ErrRange =>
      simp only [Atoi, hp] at h
      by_cases h45 : c = 45
      · simp [h45] at h
      · simp [h45] at h
  | ok un =>
    refine ⟨un, rfl, ?_⟩
    rw [Atoi_of_ParseUint c cs un hp] at h
    by_cases h45 : c = 45
    · right
      simp only [h45, decide_True, Bool.not_true, Bool.false_eq_true, false_and, if_false,
        true_and, if_true] at h
      split at h
      · simp at h
      · simp only [Except.ok.injEq] at h
        exact ⟨h45, by omega, h.symm⟩
    · left
      simp only [h45, decide_False, Bool.not_false, true_and, Bool.false_eq_true, false_and,
        if_false] at h
      split at h
      · simp at h
      · simp only [Except.ok.injEq] at h
        exact ⟨h45, by omega, h.symm⟩

/-- Message `strconv.Atoi` accepts exactly the optionally signed decimal texts whose value fits a
64-bit `int`, and returns that value. -/
theorem Atoi_iff (s : List Byte) (v : Int) : Atoi s = Except.ok v ↔ IsIntText s v := by
  constructor
  · intro h
    cases s with
    | nil => simp [Atoi] at h
    | cons c cs =>
      obtain ⟨un, hp, hcases⟩ := Atoi_inv_aux c cs v h
      by_cases h43 : c = 43
      · subst h43
        simp only [true_or, if_true] at hp
        obtain ⟨hd, hv⟩ := ParseUint_inv cs un hp
        rcases hcases with ⟨-, hlt, hv2⟩ | ⟨h45, -, -⟩
        · right; left
          exact ⟨cs, rfl, hd, by rw [← hv]; exact hlt, by rw [← hv]; exact hv2⟩
        · exact absurd h45 (by decide)
      · by_cases h45 : c = 45
        · subst h45
          simp only [or_true, if_true] at hp
          obtain ⟨hd, hv⟩ := ParseUint_inv cs un hp
          rcases hcases with ⟨hne, -, -⟩ | ⟨-, hle, hv2⟩
          · exact absurd rfl hne
          · right; right
            exact ⟨cs, rfl, hd, by rw [← hv]; exact hle, by rw [← hv]; exact hv2⟩
        · simp only [h43, h45, or_self, if_false] at hp
          obtain ⟨hd, hv⟩ := ParseUint_inv (c :: cs) un hp
          rcases hcases with ⟨-, hlt, hv2⟩ | ⟨h45', -, -⟩
          · left
            exact ⟨hd, by rw [← hv]; exact hlt, by rw [← hv]; exact hv2⟩
          · exact absurd h45' h45
  · intro h
    rcases h with ⟨hd, hlt, hv⟩ | ⟨t, rfl, hd, hlt, hv⟩ | ⟨t, rfl, hd, hle, hv⟩
    · rw [hv]
      exact Atoi_decimal s hd hlt
    · have hp : ParseUint (if (43 : Byte) = 43 ∨ (43 : Byte) = 45 then t else 43 :: t) =
          Except.ok (decVal t) := by
        simp only [true_or, if_true]
        exact ParseUint_decimal t hd (lt_trans hlt (by norm_num))
      rw [Atoi_of_ParseUint 43 t _ hp, hv]
      simp
      omega
    · have hp : ParseUint (if (45 : Byte) = 43 ∨ (45 : Byte) = 45 then t else 45 :: t) =
          Except.ok (decVal t) := by
        simp only [or_true, if_true]
        exact ParseUint_decimal t hd (lt_of_le_of_lt hle (by norm_num))
      rw [Atoi_of_ParseUint 45 t _ hp, hv]
      simp
      omega

theorem IsDecimal.not_mem {s : List Byte} (h : IsDecimal s) {c : Byte} (hc : ¬ IsDigit c) :
    c ∉ s := fun hm => hc (h.2 c hm)

/-! ## `init` and `Wrap` meet the outcome of the stream -/

theorem cut_some {delim : Byte} : ∀ {L p q : List Byte}, cut delim L = some (p, q) →
    L = p ++ delim :: q ∧ delim ∉ p := by
  intro L
  induction L with
  | nil => intro p q h; simp [cut] at h
  | cons c cs ih =>
    intro p q h
    simp only [cut] at h
    split at h
    · rename_i hc
      simp only [Option.some.injEq, Prod.mk.injEq] at h
      obtain ⟨rfl, rfl⟩ := h
      simp [hc]
    · rename_i hc
      split at h
      · simp at h
      · rename_i p1 q1 hcut
        simp only [Option.some.injEq, Prod.mk.injEq] at h
        obtain ⟨rfl, rfl⟩ := h
        obtain ⟨h1, h2⟩ := ih hcut
        refine ⟨by simp [h1], ?_⟩
        simp only [List.mem_cons, not_or]
        exact ⟨fun e => hc e.symm, h2⟩

theorem cut_none {delim : Byte} : ∀ {L : List Byte}, cut delim L = none → delim ∉ L := by
  intro L
  induction L with
  | nil => intro _; simp
  | cons c cs ih =>
    intro h
    simp only [cut] at h
    split at h
    · simp at h
    · rename_i hc
      split at h
      · rename_i hcut
        simp only [List.mem_cons, not_or]
        exact ⟨fun e => hc e.symm, ih hcut⟩
      · simp at h

theorem cut_append {delim : Byte} (p q : List Byte) (h : delim ∉ p) :
    cut delim (p ++ delim :: q) = some (p, q) := by
  induction p with
  | nil => simp [cut]
  | cons a p ih =>
    simp only [List.mem_cons, not_or] at h
    simp [cut, Ne.symm h.1, ih h.2]

theorem take_length_sub_one (p : List Byte) (d : Byte) :
    (p ++ [d]).take ((p ++ [d]).length - 1) = p := by
  simp

theorem readIP_cut (c : Conn) (L a q : List Byte) (x : IOError × List Event × Option Addr)
    (h : c.r.Holds L x) (hcut : cut SP L = some (a, q)) :
    ∃ r1, r1.Holds q x ∧ c.readIP =
      ((match ParseIP a with
        | none => Except.error (FieldError.cannotParseIP (a ++ [SP]))
        | some ip => Except.ok ip), { c with r := r1 }) := by
  obtain ⟨hL, ha⟩ := cut_some hcut
  subst hL
  obtain ⟨r1, hrs, hr1⟩ := ReadString_ok c.r SP a q x h ha
  refine ⟨r1, hr1, ?_⟩
  simp only [Conn.readIP, hrs, take_length_sub_one]
  cases ParseIP a <;> rfl

theorem readIP_none (c : Conn) (L : List Byte) (x : IOError × List Event × Option Addr)
    (h : c.r.Holds L x) (hcut : cut SP L = none) (hx : x.1 ≠ IOError.ErrBufferFull) :
    ∃ c1, c.readIP = (Except.error (FieldError.io x.1), c1) := by
  obtain ⟨r1, hrs⟩ := ReadString_err c.r SP L x h (cut_none hcut) hx
  exact ⟨{ c with r := r1 }, by simp only [Conn.readIP, hrs]⟩

theorem readPort_cut (c : Conn) (delim : Byte) (L p q : List Byte)
    (x : IOError × List Event × Option Addr)
    (h : c.r.Holds L x) (hcut : cut delim L = some (p, q)) :
    ∃ r1, r1.Holds q x ∧ c.readPort delim =
      ((match Atoi p with
        | Except.error e => Except.error (FieldError.num e)
        | Except.ok port => Except.ok port), { c with r := r1 }) := by
  obtain ⟨hL, ha⟩ := cut_some hcut
  subst hL
  obtain ⟨r1, hrs, hr1⟩ := ReadString_ok c.r delim p q x h ha
  refine ⟨r1, hr1, ?_⟩
  simp only [Conn.readPort, hrs, take_length_sub_one]
  cases Atoi p <;> rfl

theorem readPort_none (c : Conn) (delim : Byte) (L : List Byte)
    (x : IOError × List Event × Option Addr)
    (h : c.r.Holds L x) (hcut : cut delim L = none) (hx : x.1 ≠ IOError.ErrBufferFull) :
    ∃ c1, c.readPort delim = (Except.error (FieldError.io x.1), c1) := by
  obtain ⟨r1, hrs⟩ := ReadString_err c.r delim L x h (cut_none hcut) hx
  exact ⟨{ c with r := r1 }, by simp only [Conn.readPort, hrs]⟩

theorem intoBuf_of_length (n : Nat) (bs : List Byte) (h : bs.length = n) :
    intoBuf n bs = bs := by
  subst h
  simp [intoBuf]

theorem proxy_bytes : bytesOf "PROXY " = [80, 82, 79, 88, 89, 32] := by decide

theorem unknown_bytes : unknown = [85, 78, 75, 78, 79, 87, 78, 13, 10] := by decide

theorem unknown_length : unknown.length = 9 := by decide

theorem take_proxy_append (s : List Byte) : (bytesOf "PROXY " ++ s).take 6 = bytesOf "PROXY " := by
  rw [proxy_bytes]; rfl

theorem drop_proxy_append (s : List Byte) : (bytesOf "PROXY " ++ s).drop 6 = s := by
  rw [proxy_bytes]; rfl

theorem intoBuf_proxy : intoBuf 6 (bytesOf "PROXY ") = bytesOf "PROXY " := by decide

theorem initTrailer_meets (c c0 : Conn) (s : List Byte) (x : IOError × List Event × Option Addr)
    (clientIP proxyIP : IP) (clientPort proxyPort : Int) (h : c.r.Holds s x) :
    Meets (c.initTrailer clientIP proxyIP clientPort proxyPort) c0 x
      (outcomeTrailer clientIP proxyIP clientPort proxyPort s) := by
  cases s with
  | nil =>
    obtain ⟨r1, hrb⟩ := ReadByte_end c.r x h
    simp only [outcomeTrailer, Meets]
    exact ⟨{ c with r := r1 }, by simp [Conn.initTrailer, hrb]⟩
  | cons d rest =>
    obtain ⟨r1, hrb, hr1⟩ := ReadByte_ok c.r d rest x h
    by_cases hd : d ≠ LF
    · simp only [outcomeTrailer, hd, ne_eq, not_false_eq_true, if_true, Meets]
      exact ⟨{ c with r := r1 }, by simp [Conn.initTrailer, hrb, hd]⟩
    · simp only [outcomeTrailer, hd, if_false, Meets]
      exact ⟨r1, by simp [Conn.initTrailer, hrb, hd], hr1⟩

theorem initProxyPort_meets (c c0 : Conn) (s : List Byte)
    (x : IOError × List Event × Option Addr) (clientIP proxyIP : IP) (clientPort : Int)
    (h : c.r.Holds s x) :
    Meets (c.initProxyPort clientIP proxyIP clientPort) c0 x
      (outcomeProxyPort clientIP proxyIP clientPort s) := by
  cases hc : cut CR s with
  | none =>
    simp only [outcomeProxyPort, hc, Meets]
    intro hx
    obtain ⟨c1, hp⟩ := readPort_none c CR s x h hc hx
    exact ⟨c1, by simp only [Conn.initProxyPort, hp]⟩
  | some qr =>
    obtain ⟨q, rest⟩ := qr
    obtain ⟨r1, hr1, hp⟩ := readPort_cut c CR s q rest x h hc
    cases ha : Atoi q with
    | error e =>
      rw [ha] at hp
      simp only [outcomeProxyPort, hc, ha, Meets]
      exact ⟨{ c with r := r1 }, by simp only [Conn.initProxyPort, hp]⟩
    | ok proxyPort =>
      rw [ha] at hp
      have := initTrailer_meets { c with r := r1 } c0 rest x clientIP proxyIP clientPort
        proxyPort hr1
      simp only [outcomeProxyPort, hc, ha]
      simpa only [Conn.initProxyPort, hp] using this

theorem initClientPort_meets (c c0 : Conn) (s : List Byte)
    (x : IOError × List Event × Option Addr) (clientIP proxyIP : IP) (h : c.r.Holds s x) :
    Meets (c.initClientPort clientIP proxyIP) c0 x (outcomeClientPort clientIP proxyIP s) := by
  cases hc : cut SP s with
  | none =>
    simp only [outcomeClientPort, hc, Meets]
    intro hx
    obtain ⟨c1, hp⟩ := readPort_none c SP s x h hc hx
    exact ⟨c1, by simp only [Conn.initClientPort, hp]⟩
  | some pr =>
    obtain ⟨p, rest⟩ := pr
    obtain ⟨r1, hr1, hp⟩ := readPort_cut c SP s p rest x h hc
    cases ha : Atoi p with
    | error e =>
      rw [ha] at hp
      simp only [outcomeClientPort, hc, ha, Meets]
      exact ⟨{ c with r := r1 }, by simp only [Conn.initClientPort, hp]⟩
    | ok clientPort =>
      rw [ha] at hp
      have := initProxyPort_meets { c with r := r1 } c0 rest x clientIP proxyIP clientPort hr1
      simp only [outcomeClientPort, hc, ha]
      simpa only [Conn.initClientPort, hp] using this

theorem initProxyIP_meets (c c0 : Conn) (s : List Byte)
    (x : IOError × List Event × Option Addr) (clientIP : IP) (h : c.r.Holds s x) :
    Meets (c.initProxyIP clientIP) c0 x (outcomeProxyIP clientIP s) := by
  cases hc : cut SP s with
  | none =>
    simp only [outcomeProxyIP, hc, Meets]
    intro hx
    obtain ⟨c1, hp⟩ := readIP_none c s x h hc hx
    exact ⟨c1, by simp only [Conn.initProxyIP, hp]⟩
  | some br =>
    obtain ⟨b, rest⟩ := br
    obtain ⟨r1, hr1, hp⟩ := readIP_cut c s b rest x h hc
    cases ha : ParseIP b with
    | none =>
      rw [ha] at hp
      simp only [outcomeProxyIP, hc, ha, Meets]
      exact ⟨{ c with r := r1 }, by simp only [Conn.initProxyIP, hp]⟩
    | some proxyIP =>
      rw [ha] at hp
      have := initClientPort_meets { c with r := r1 } c0 rest x clientIP proxyIP hr1
      simp only [outcomeProxyIP, hc, ha]
      simpa only [Conn.initProxyIP, hp] using this

theorem initClientIP_meets (c c0 : Conn) (s : List Byte)
    (x : IOError × List Event × Option Addr) (h : c.r.Holds s x) :
    Meets c.initClientIP c0 x (outcomeClientIP s) := by
  cases hc : cut SP s with
  | none =>
    simp only [outcomeClientIP, hc, Meets]
    intro hx
    obtain ⟨c1, hp⟩ := readIP_none c s x h hc hx
    exact ⟨c1, by simp only [Conn.initClientIP, hp]⟩
  | some ar =>
    obtain ⟨a, rest⟩ := ar
    obtain ⟨r1, hr1, hp⟩ := readIP_cut c s a rest x h hc
    cases ha : ParseIP a with
    | none =>
      rw [ha] at hp
      simp only [outcomeClientIP, hc, ha, Meets]
      exact ⟨{ c with r := r1 }, by simp only [Conn.initClientIP, hp]⟩
    | some clientIP =>
      rw [ha] at hp
      have := initProxyIP_meets { c with r := r1 } c0 rest x clientIP hr1
      simp only [outcomeClientIP, hc, ha]
      simpa only [Conn.initClientIP, hp] using this

/-- The result of `init` is the outcome computed from the stream. -/
theorem init_refines (c : Conn) (s : List Byte) (x : IOError × List Event × Option Addr)
    (h : c.r.Holds (bytesOf "PROXY " ++ s) x) (hbuf : 6 ≤ c.r.buf.length) :
    Meets c.init c x (headerOutcome s) := by
  obtain ⟨r1, hread, hr1, -⟩ := Read_buffered c.r 6 _ x h (by decide) hbuf
  rw [take_proxy_append] at hread
  rw [drop_proxy_append] at hr1
  unfold headerOutcome
  by_cases hlen : s.length < 9
  · -- the peek of the unknown token fails
    rw [if_pos hlen]
    have hpeek := Peek_short r1 9 hr1.1 (by decide) (by rw [hr1.2.1]; exact hlen)
    have hx : firstErr r1.rd.events = x.1 := by rw [← hr1.2.2]; rfl
    rw [hx] at hpeek
    simp only [Meets]
    exact ⟨_, by simp only [Conn.init, hread, intoBuf_proxy, ne_eq, not_true_eq_false, if_false,
      unknown_length, hpeek]; rfl⟩
  rw [if_neg hlen]
  obtain ⟨r2, hpeek, hr2, hb2⟩ := Peek_ok r1 9 s x hr1 (by decide) (by omega)
  by_cases hu : s.take 9 = unknown
  · rw [if_pos hu]
    obtain ⟨r3, hdisc, hr3⟩ := Discard_buffered r2 9 s x hr2 hb2
    simp only [Meets]
    refine ⟨r3, ?_, hr3⟩
    simp only [Conn.init, hread, intoBuf_proxy, ne_eq, not_true_eq_false, if_false,
      unknown_length, hpeek, hu, if_true, hdisc, Option.map_none']
  rw [if_neg hu]
  obtain ⟨r3, hread5, hr3, -⟩ := Read_buffered r2 5 s x hr2 (by decide) (by omega)
  have hfam : intoBuf 5 (s.take 5) = s.take 5 :=
    intoBuf_of_length 5 _ (by rw [List.length_take]; omega)
  by_cases hf : bytesOf "TCP4 " ≠ s.take 5 ∧ bytesOf "TCP6 " ≠ s.take 5
  · rw [if_pos hf]
    simp only [Meets]
    exact ⟨{ c with r := r3 }, by simp only [Conn.init, hread, intoBuf_proxy, ne_eq,
      not_true_eq_false, if_false, unknown_length, hpeek, hu, hread5, hfam, hf,
      not_false_eq_true, and_self, if_true]⟩
  rw [if_neg hf]
  have hinit : c.init = Conn.initClientIP { c with r := r3 } := by
    simp only [Conn.init, hread, intoBuf_proxy, ne_eq, not_true_eq_false, if_false,
      unknown_length, hpeek, hu, hread5, hfam, hf]
    rfl
  rw [hinit]
  exact initClientIP_meets { c with r := r3 } c (s.drop 5) x hr3

theorem NewReader_holds (cn : RawConn) (h : NoEmptyChunk cn.events) :
    (NewReader cn).Holds (dataStart cn.events) cn.ctx :=
  ⟨⟨rfl, by simp [NewReader], h⟩, by simp [NewReader, Reader.pre], rfl⟩

theorem proxy_length : Viaproxy.proxy.length = 6 := by decide

/-- Message `Wrap` on a stream that starts with `PROXY `: the outcome of the header. -/
theorem Wrap_header (cn : RawConn) (s : List Byte) (hne : NoEmptyChunk cn.events)
    (hs : dataStart cn.events = bytesOf "PROXY " ++ s) :
    WrapMeets (Wrap cn) cn.ctx (headerOutcome s) := by
  have h0 := NewReader_holds cn hne
  rw [hs] at h0
  obtain ⟨r1, hpeek, hr1, hb1⟩ := Peek_ok (NewReader cn) 6 _ cn.ctx h0 (by decide)
    (by rw [proxy_bytes]; simp)
  rw [take_proxy_append] at hpeek
  have hm := init_refines { r := r1, proxy := none, remote := none } s cn.ctx hr1 hb1
  have hparse : Conn.parse { r := NewReader cn, proxy := none, remote := none } =
      Conn.init { r := r1, proxy := none, remote := none } := by
    simp only [Conn.parse, proxy_length, hpeek]
    simp [Viaproxy.proxy]
  unfold Wrap
  rw [hparse]
  cases ho : headerOutcome s with
  | unknownHeader rest =>
    rw [ho] at hm
    obtain ⟨r2, hi, hr2⟩ := hm
    exact ⟨r2, by rw [hi], hr2⟩
  | addrs ra pa rest =>
    rw [ho] at hm
    obtain ⟨r2, hi, hr2⟩ := hm
    exact ⟨r2, by rw [hi], hr2⟩
  | failed e =>
    rw [ho] at hm
    obtain ⟨c1, hi⟩ := hm
    show _ = _
    rw [hi]
  | broken w =>
    rw [ho] at hm
    obtain ⟨c1, hi⟩ := hm
    show _ = _
    rw [hi]
  | cutOff w =>
    rw [ho] at hm
    intro hx
    obtain ⟨c1, hi⟩ := hm hx
    rw [hi]

/-- Message `Wrap` on a stream of six bytes or more that does not start with `PROXY `: the
connection as it is, nothing consumed. -/
theorem Wrap_plain (cn : RawConn) (hne : NoEmptyChunk cn.events)
    (hlen : 6 ≤ (dataStart cn.events).length)
    (hs : (dataStart cn.events).take 6 ≠ bytesOf "PROXY ") :
    ∃ r1, Wrap cn = Except.ok { r := r1, proxy := none, remote := none } ∧
      r1.Holds (dataStart cn.events) cn.ctx := by
  have h0 := NewReader_holds cn hne
  obtain ⟨r1, hpeek, hr1, -⟩ := Peek_ok (NewReader cn) 6 _ cn.ctx h0 (by decide) hlen
  refine ⟨r1, ?_, hr1⟩
  have hs' : (dataStart cn.events).take 6 ≠ Viaproxy.proxy := hs
  simp only [Wrap, Conn.parse, proxy_length, hpeek, ne_eq, hs', not_false_eq_true, if_true]

/-- Message `Wrap` on a stream that breaks before its sixth byte: the connection as it is when the
error is `io.EOF` (or `bufio.ErrBufferFull`), the error wrapped otherwise. -/
theorem Wrap_short (cn : RawConn) (hne : NoEmptyChunk cn.events)
    (hlen : (dataStart cn.events).length < 6) :
    Wrap cn =
      if firstErr cn.events = IOError.ErrBufferFull ∨ firstErr cn.events = IOError.EOF then
        Except.ok { r := { buf := dataStart cn.events,
                           rd := { events := afterErr cn.events, peer := cn.peer },
                           err := none },
                    proxy := none, remote := none }
      else Except.error (WrapError.onLoop (firstErr cn.events)) := by
  have h0 := NewReader_holds cn hne
  have hpeek := Peek_short (NewReader cn) 6 h0.1 (by decide) (by rw [h0.2.1]; exact hlen)
  rw [h0.2.1] at hpeek
  simp only [NewReader] at hpeek
  by_cases hc : firstErr cn.events = IOError.ErrBufferFull ∨ firstErr cn.events = IOError.EOF
  · simp only [Wrap, Conn.parse, proxy_length, NewReader, hpeek, hc, if_true]
  · simp only [Wrap, Conn.parse, proxy_length, NewReader, hpeek, hc, if_false]

/-- One `Read` of a well-formed reader: at the end of the data it returns the error of the
connection, before it a non-empty run of the next bytes. -/
theorem Read_step (b : Reader) (n : Nat) (L : List Byte)
    (x : IOError × List Event × Option Addr) (h : b.Holds L x) (hn : 0 < n) :
    (L = [] ∧ ∃ r1, b.Read n = ([], some x.1, r1)) ∨
    (∃ m r1, 0 < m ∧ m ≤ L.length ∧ b.Read n = (L.take m, none, r1) ∧
      r1.Holds (L.drop m) x) := by
  obtain ⟨buf, ⟨evs, peer⟩, err⟩ := b
  obtain ⟨⟨herr, hle, hch⟩, hpre, hctx⟩ := h
  simp only at herr hle hch
  subst herr
  subst hpre
  subst hctx
  have hn0 : ¬ n = 0 := by omega
  by_cases hbuf : buf = []
  · subst hbuf
    cases evs with
    | nil =>
      left
      refine ⟨by simp [Reader.pre, dataStart], ?_⟩
      refine ⟨{ buf := [], rd := { events := [], peer := peer }, err := none }, ?_⟩
      by_cases hbig : defaultBufSize ≤ n
      · simp [Reader.Read, hn0, hbig, RawConn.Read, Reader.readErr, Reader.ctx, firstErr]
      · simp [Reader.Read, hn0, hbig, RawConn.Read, Reader.readErr, Reader.ctx, firstErr]
    | cons ev rest =>
      cases ev with
      | fail e =>
        left
        refine ⟨by simp [Reader.pre, dataStart], ?_⟩
        refine ⟨{ buf := [], rd := { events := rest, peer := peer }, err := none }, ?_⟩
        by_cases hbig : defaultBufSize ≤ n
        · simp [Reader.Read, hn0, hbig, RawConn.Read, Reader.readErr, Reader.ctx, firstErr]
        · simp [Reader.Read, hn0, hbig, RawConn.Read, Reader.readErr, Reader.ctx, firstErr]
      | data bs =>
        right
        have hbs : bs ≠ [] := fun hnil => hch (hnil ▸ List.mem_cons_self _ _)
        have hpos : 0 < bs.length := List.length_pos.mpr hbs
        have hrest : NoEmptyChunk rest := noEmptyChunk_tail hch
        have hdrop : ∀ k, k < bs.length →
            NoEmptyChunk (Event.data (bs.drop k) :: rest) := by
          intro k hk hmem
          simp only [List.mem_cons, Event.data.injEq] at hmem
          rcases hmem with hmem | hmem
          · have hl := congrArg List.length hmem
            simp only [List.length_drop, List.length_nil] at hl
            omega
          · exact hrest hmem
        simp only [Reader.pre, List.nil_append, dataStart]
        by_cases hbig : defaultBufSize ≤ n
        · by_cases hfit : bs.length ≤ n
          · refine ⟨bs.length, { buf := [], rd := { events := rest, peer := peer }, err := none },
              hpos, by simp, ?_, ⟨rfl, by simp, hrest⟩, by simp [Reader.pre], ?_⟩
            · simp [Reader.Read, hn0, hbig, RawConn.Read, hfit, Reader.readErr]
            · simp [Reader.ctx, firstErr, afterErr]
          · refine ⟨n, ⟨[], ⟨Event.data (bs.drop n) :: rest, peer⟩, none⟩,
              hn, by simp only [List.length_append]; omega, ?_,
              ⟨rfl, by simp, hdrop n (by omega)⟩, ?_, ?_⟩
            · simp only [Reader.Read, hn0, if_false, if_true, ne_eq, not_true_eq_false, hbig,
                RawConn.Read, hfit, Reader.readErr]
              rw [List.take_append_of_le_length (by omega)]
            · simp only [Reader.pre, List.nil_append, dataStart]
              rw [List.drop_append_of_le_length (by omega)]
            · simp [Reader.ctx, firstErr, afterErr]
        · have hnlt : n < defaultBufSize := by omega
          by_cases hfit : bs.length ≤ defaultBufSize
          · have hne0 : ¬ bs.length = 0 := by omega
            refine ⟨min n bs.length,
              { buf := bs.drop n, rd := { events := rest, peer := peer }, err := none },
              by omega, by simp only [List.length_append]; omega, ?_,
              ⟨rfl, by simp only [List.length_drop]; omega, hrest⟩, ?_, ?_⟩
            · simp only [Reader.Read, hn0, if_false, if_true, ne_eq, not_true_eq_false, hbig,
                RawConn.Read, hfit, hne0]
              rw [List.take_append_of_le_length (Nat.min_le_right _ _)]
              congr 1
              rw [← List.take_take, List.take_length]
            · simp only [Reader.pre]
              rw [List.drop_append_of_le_length (Nat.min_le_right _ _)]
              congr 1
              by_cases hnb : n ≤ bs.length
              · rw [Nat.min_eq_left hnb]
              · rw [Nat.min_eq_right (by omega), List.drop_of_length_le (by omega),
                  List.drop_of_length_le (Nat.le_refl _)]
            · simp [Reader.ctx, firstErr, afterErr]
          · have htl : (bs.take defaultBufSize).length = defaultBufSize := by
              rw [List.length_take]; omega
            have hne0 : ¬ (bs.take defaultBufSize).length = 0 := by
              rw [htl]; decide
            refine ⟨n,
              ⟨(bs.take defaultBufSize).drop n, ⟨Event.data (bs.drop defaultBufSize) :: rest, peer⟩, none⟩,
              hn, by simp only [List.length_append]; omega, ?_,
              ⟨rfl, by simp only [List.length_drop, htl]; omega,
                hdrop defaultBufSize (by omega)⟩, ?_, ?_⟩
            · simp only [Reader.Read, hn0, if_false, if_true, ne_eq, not_true_eq_false, hbig,
                RawConn.Read, hfit, hne0]
              rw [List.take_append_of_le_length (by omega), List.take_take,
                Nat.min_eq_left (by omega)]
            · simp only [Reader.pre, dataStart]
              rw [List.drop_append_of_le_length (by omega), ← List.append_assoc]
              congr 1
              conv_rhs => rw [← List.take_append_drop defaultBufSize bs]
              rw [List.drop_append_of_le_length (by omega)]
            · simp [Reader.ctx, firstErr, afterErr]
  · right
    have hpos : 0 < buf.length := List.length_pos.mpr hbuf
    refine ⟨min n buf.length,
      { buf := buf.drop n, rd := { events := evs, peer := peer }, err := none },
      by omega, by simp only [Reader.pre, List.length_append]; omega, ?_,
      ⟨rfl, by simp only [List.length_drop]; omega, hch⟩, ?_, rfl⟩
    · simp only [Reader.Read, hn0, if_false, hbuf, Reader.pre]
      rw [List.take_append_of_le_length (Nat.min_le_right _ _)]
      congr 1
      rw [← List.take_take, List.take_length]
    · simp only [Reader.pre]
      rw [List.drop_append_of_le_length (Nat.min_le_right _ _)]
      congr 1
      by_cases hnb : n ≤ buf.length
      · rw [Nat.min_eq_left hnb]
      · rw [Nat.min_eq_right (by omega), List.drop_of_length_le (by omega),
          List.drop_of_length_le (Nat.le_refl _)]

/-- Reading a wrapped connection to its first error delivers exactly the bytes that stand
before that error, then the error. -/
theorem readAll_holds (n : Nat) (hn : 0 < n) (x : IOError × List Event × Option Addr) :
    ∀ (fuel : Nat) (c : Conn) (L : List Byte), c.r.Holds L x → L.length < fuel →
      Conn.readAll fuel n c = (L, some x.1) := by
  intro fuel
  induction fuel with
  | zero => intro c L _ hf; omega
  | succ fuel ih =>
    intro c L h hf
    rcases Read_step c.r n L x h hn with ⟨hnil, r1, hr⟩ | ⟨m, r1, hm, hml, hr, hr1⟩
    · simp only [Conn.readAll, Conn.Read, hr, hnil]
    · have hrec := ih { c with r := r1 } (L.drop m) hr1
        (by simp only [List.length_drop]; omega)
      simp only [Conn.readAll, Conn.Read, hr, hrec, List.take_append_drop]

/-! ## The outcome of a header line -/

theorem outcomeTrailer_lf (clientIP proxyIP : IP) (clientPort proxyPort : Int) (t : List Byte) :
    outcomeTrailer clientIP proxyIP clientPort proxyPort (LF :: t) =
      Outcome.addrs (Addr.tcp clientIP clientPort) (Addr.tcp proxyIP proxyPort) t := by
  simp [outcomeTrailer]

theorem outcomeProxyPort_err (clientIP proxyIP : IP) (clientPort : Int) (q t : List Byte)
    (hq : CR ∉ q) (e : NumError) (h : Atoi q = Except.error e) :
    outcomeProxyPort clientIP proxyIP clientPort (q ++ CR :: t) =
      Outcome.failed (WrapError.proxyPort (FieldError.num e)) := by
  simp only [outcomeProxyPort, cut_append q t hq, h]

theorem outcomeProxyPort_ok (clientIP proxyIP : IP) (clientPort : Int) (q t : List Byte)
    (hq : CR ∉ q) (v : Int) (h : Atoi q = Except.ok v) :
    outcomeProxyPort clientIP proxyIP clientPort (q ++ CR :: t) =
      outcomeTrailer clientIP proxyIP clientPort v t := by
  simp only [outcomeProxyPort, cut_append q t hq, h]

theorem outcomeClientPort_err (clientIP proxyIP : IP) (p t : List Byte) (hp : SP ∉ p)
    (e : NumError) (h : Atoi p = Except.error e) :
    outcomeClientPort clientIP proxyIP (p ++ SP :: t) =
      Outcome.failed (WrapError.clientPort (FieldError.num e)) := by
  simp only [outcomeClientPort, cut_append p t hp, h]

theorem outcomeClientPort_ok (clientIP proxyIP : IP) (p t : List Byte) (hp : SP ∉ p)
    (v : Int) (h : Atoi p = Except.ok v) :
    outcomeClientPort clientIP proxyIP (p ++ SP :: t) = outcomeProxyPort clientIP proxyIP v t := by
  simp only [outcomeClientPort, cut_append p t hp, h]

theorem outcomeProxyIP_bad (clientIP : IP) (b t : List Byte) (hb : SP ∉ b)
    (h : ParseIP b = none) :
    outcomeProxyIP clientIP (b ++ SP :: t) =
      Outcome.failed (WrapError.proxyIP (FieldError.cannotParseIP (b ++ [SP]))) := by
  simp only [outcomeProxyIP, cut_append b t hb, h]

theorem outcomeProxyIP_ok (clientIP : IP) (b t : List Byte) (hb : SP ∉ b) (ip : IP)
    (h : ParseIP b = some ip) :
    outcomeProxyIP clientIP (b ++ SP :: t) = outcomeClientPort clientIP ip t := by
  simp only [outcomeProxyIP, cut_append b t hb, h]

theorem outcomeClientIP_bad (a t : List Byte) (ha : SP ∉ a) (h : ParseIP a = none) :
    outcomeClientIP (a ++ SP :: t) =
      Outcome.failed (WrapError.clientIP (FieldError.cannotParseIP (a ++ [SP]))) := by
  simp only [outcomeClientIP, cut_append a t ha, h]

theorem outcomeClientIP_ok (a t : List Byte) (ha : SP ∉ a) (ip : IP)
    (h : ParseIP a = some ip) :
    outcomeClientIP (a ++ SP :: t) = outcomeProxyIP ip t := by
  simp only [outcomeClientIP, cut_append a t ha, h]

theorem tcp4_bytes : bytesOf "TCP4 " = [84, 67, 80, 52, 32] := by decide

theorem tcp6_bytes : bytesOf "TCP6 " = [84, 67, 80, 54, 32] := by decide

/-- After a family token and at least four more bytes, the outcome is that of the fields. -/
theorem headerOutcome_family (F t : List Byte)
    (hF : F = bytesOf "TCP4 " ∨ F = bytesOf "TCP6 ") (ht : 4 ≤ t.length) :
    headerOutcome (F ++ t) = outcomeClientIP t := by
  have hFl : F.length = 5 := by rcases hF with h | h <;> rw [h] <;> decide
  have hlen : ¬ (F ++ t).length < 9 := by
    simp only [List.length_append, hFl]; omega
  have htake : (F ++ t).take 5 = F := by rw [List.take_left' hFl]
  have hdrop : (F ++ t).drop 5 = t := by rw [List.drop_left' hFl]
  have hu : ¬ (F ++ t).take 9 = unknown := by
    intro h
    rcases hF with hF | hF
    · rw [hF, tcp4_bytes, unknown_bytes] at h
      simp at h
    · rw [hF, tcp6_bytes, unknown_bytes] at h
      simp at h
  have hfam : ¬ (bytesOf "TCP4 " ≠ F ∧ bytesOf "TCP6 " ≠ F) := by
    rcases hF with h | h <;> simp [h]
  simp only [headerOutcome, if_neg hlen, if_neg hu, htake, hdrop, if_neg hfam]

/-- The outcome of the header `PROXY UNKNOWN\r\n`. -/
theorem headerOutcome_unknown (P : List Byte) :
    headerOutcome (unknown ++ P) = Outcome.unknownHeader P := by
  have hlen : ¬ (unknown ++ P).length < 9 := by
    simp only [List.length_append, unknown_length]; omega
  have htake : (unknown ++ P).take 9 = unknown := by rw [List.take_left' unknown_length]
  have hdrop : (unknown ++ P).drop 9 = P := by rw [List.drop_left' unknown_length]
  simp only [headerOutcome, if_neg hlen, htake, if_true, hdrop]

theorem headerLine_append (F a b p q P : List Byte) :
    headerLine F a b p q ++ P =
      bytesOf "PROXY " ++ (F ++ (a ++ SP :: (b ++ SP :: (p ++ SP :: (q ++ CR :: LF :: P))))) := by
  simp [headerLine]

/-- The outcome of a complete header line with valid fields. -/
theorem headerOutcome_line (F a b p q P : List Byte) (ipa ipb : IP) (vp vq : Int)
    (hF : F = bytesOf "TCP4 " ∨ F = bytesOf "TCP6 ")
    (ha : ParseIP a = some ipa) (hb : ParseIP b = some ipb)
    (hp : Atoi p = Except.ok vp) (hq : Atoi q = Except.ok vq)
    (hps : SP ∉ p) (hqc : CR ∉ q) :
    headerOutcome (F ++ (a ++ SP :: (b ++ SP :: (p ++ SP :: (q ++ CR :: LF :: P))))) =
      Outcome.addrs (Addr.tcp ipa vp) (Addr.tcp ipb vq) P := by
  rw [headerOutcome_family F _ hF (by simp only [List.length_append, List.length_cons]; omega),
    outcomeClientIP_ok a _ (ParseIP_no_space a ipa ha) ipa ha,
    outcomeProxyIP_ok ipa b _ (ParseIP_no_space b ipb hb) ipb hb,
    outcomeClientPort_ok ipa ipb p _ hps vp hp,
    outcomeProxyPort_ok ipa ipb vp q _ hqc vq hq, outcomeTrailer_lf]

theorem IsDecimal.no_space {s : List Byte} (h : IsDecimal s) : SP ∉ s :=
  h.not_mem (by decide)

theorem IsDecimal.no_cr {s : List Byte} (h : IsDecimal s) : CR ∉ s :=
  h.not_mem (by decide)

theorem Holds.peer {r : Reader} {L : List Byte} {cn : RawConn} (h : r.Holds L cn.ctx) :
    r.rd.peer = cn.peer := by
  have := h.2.2
  simp only [Reader.ctx, RawConn.ctx, Prod.mk.injEq] at this
  exact this.2.2

/-- Message `Wrap` on a complete header line with valid fields: the connection with the two
addresses, the payload unread. -/
theorem Wrap_line (cn : RawConn) (F a b p q P : List Byte) (ipa ipb : IP) (vp vq : Int)
    (hne : NoEmptyChunk cn.events)
    (hF : F = bytesOf "TCP4 " ∨ F = bytesOf "TCP6 ")
    (hs : dataStart cn.events = headerLine F a b p q ++ P)
    (ha : ParseIP a = some ipa) (hb : ParseIP b = some ipb)
    (hp : Atoi p = Except.ok vp) (hq : Atoi q = Except.ok vq)
    (hps : SP ∉ p) (hqc : CR ∉ q) :
    ∃ r1, Wrap cn = Except.ok { r := r1, remote := some (Addr.tcp ipa vp),
                                proxy := some (Addr.tcp ipb vq) } ∧
      r1.Holds P cn.ctx := by
  rw [headerLine_append] at hs
  have hw := Wrap_header cn _ hne hs
  rw [headerOutcome_line F a b p q P ipa ipb vp vq hF ha hb hp hq hps hqc] at hw
  exact hw

/-- A connection that `init` returns without an error has the addresses it had before, or
both addresses set. -/
theorem init_none_addrs (c c1 : Conn) (h : c.init = (none, c1)) :
    (c1.remote = c.remote ∧ c1.proxy = c.proxy) ∨
    (∃ ipc pc ipp pp, c1.remote = some (Addr.tcp ipc pc) ∧ c1.proxy = some (Addr.tcp ipp pp)) := by
  simp only [Conn.init] at h
  repeat' split at h
  all_goals first
    | (simp only [Prod.mk.injEq, reduceCtorEq, false_and] at h; done)
    | (simp only [Prod.mk.injEq, true_and] at h
       subst h
       first
         | exact Or.inl ⟨rfl, rfl⟩
         | exact Or.inr ⟨_, _, _, _, rfl, rfl⟩)
    | (simp only [Prod.mk.injEq] at h
       obtain ⟨h1, h2⟩ := h
       subst h2
       exact Or.inl ⟨rfl, rfl⟩)

/-- A connection that `parse` returns without an error has the addresses it had before, or
both addresses set. -/
theorem parse_none_addrs (c c1 : Conn) (h : c.parse = (none, c1)) :
    (c1.remote = c.remote ∧ c1.proxy = c.proxy) ∨
    (∃ ipc pc ipp pp, c1.remote = some (Addr.tcp ipc pc) ∧ c1.proxy = some (Addr.tcp ipp pp)) := by
  simp only [Conn.parse] at h
  split at h
  · split at h
    · simp only [Prod.mk.injEq, true_and] at h
      subst h
      exact Or.inl ⟨rfl, rfl⟩
    · simp at h
  · split at h
    · simp only [Prod.mk.injEq, true_and] at h
      subst h
      exact Or.inl ⟨rfl, rfl⟩
    · have h2 := init_none_addrs _ c1 h
      exact h2

theorem outcomeTrailer_addrs (cip pip : IP) (cp pp : Int) (s : List Byte) (ra pa : Addr)
    (rest : List Byte) (h : outcomeTrailer cip pip cp pp s = Outcome.addrs ra pa rest) :
    s = LF :: rest ∧ ra = Addr.tcp cip cp ∧ pa = Addr.tcp pip pp := by
  cases s with
  | nil => simp [outcomeTrailer] at h
  | cons d t =>
    simp only [outcomeTrailer] at h
    split at h
    · simp at h
    · rename_i hd
      simp only [ne_eq, Decidable.not_not] at hd
      simp only [Outcome.addrs.injEq] at h
      exact ⟨by rw [hd, h.2.2], h.1.symm, h.2.1.symm⟩

theorem outcomeProxyPort_addrs (cip pip : IP) (cp : Int) (s : List Byte) (ra pa : Addr)
    (rest : List Byte) (h : outcomeProxyPort cip pip cp s = Outcome.addrs ra pa rest) :
    ∃ q vq, s = q ++ CR :: LF :: rest ∧ CR ∉ q ∧ Atoi q = Except.ok vq ∧
      ra = Addr.tcp cip cp ∧ pa = Addr.tcp pip vq := by
  simp only [outcomeProxyPort] at h
  split at h
  · simp at h
  · rename_i q t hcut
    split at h
    · simp at h
    · rename_i vq hq
      obtain ⟨hs, hnot⟩ := cut_some hcut
      obtain ⟨ht, hra, hpa⟩ := outcomeTrailer_addrs _ _ _ _ _ _ _ _ h
      exact ⟨q, vq, by rw [hs, ht], hnot, hq, hra, hpa⟩

theorem outcomeClientPort_addrs (cip pip : IP) (s : List Byte) (ra pa : Addr)
    (rest : List Byte) (h : outcomeClientPort cip pip s = Outcome.addrs ra pa rest) :
    ∃ p q vp vq, s = p ++ SP :: (q ++ CR :: LF :: rest) ∧ SP ∉ p ∧ CR ∉ q ∧
      Atoi p = Except.ok vp ∧ Atoi q = Except.ok vq ∧
      ra = Addr.tcp cip vp ∧ pa = Addr.tcp pip vq := by
  simp only [outcomeClientPort] at h
  split at h
  · simp at h
  · rename_i p t hcut
    split at h
    · simp at h
    · rename_i vp hp
      obtain ⟨hs, hnot⟩ := cut_some hcut
      obtain ⟨q, vq, ht, hq1, hq2, hra, hpa⟩ := outcomeProxyPort_addrs _ _ _ _ _ _ _ h
      exact ⟨p, q, vp, vq, by rw [hs, ht], hnot, hq1, hp, hq2, hra, hpa⟩

theorem outcomeProxyIP_addrs (cip : IP) (s : List Byte) (ra pa : Addr)
    (rest : List Byte) (h : outcomeProxyIP cip s = Outcome.addrs ra pa rest) :
    ∃ b p q pip vp vq, s = b ++ SP :: (p ++ SP :: (q ++ CR :: LF :: rest)) ∧
      SP ∉ b ∧ SP ∉ p ∧ CR ∉ q ∧ ParseIP b = some pip ∧
      Atoi p = Except.ok vp ∧ Atoi q = Except.ok vq ∧
      ra = Addr.tcp cip vp ∧ pa = Addr.tcp pip vq := by
  simp only [outcomeProxyIP] at h
  split at h
  · simp at h
  · rename_i b t hcut
    split at h
    · simp at h
    · rename_i pip hb
      obtain ⟨hs, hnot⟩ := cut_some hcut
      obtain ⟨p, q, vp, vq, ht, hp1, hq1, hp2, hq2, hra, hpa⟩ :=
        outcomeClientPort_addrs _ _ _ _ _ _ h
      exact ⟨b, p, q, pip, vp, vq, by rw [hs, ht], hnot, hp1, hq1, hb, hp2, hq2, hra, hpa⟩

theorem outcomeClientIP_addrs (s : List Byte) (ra pa : Addr)
    (rest : List Byte) (h : outcomeClientIP s = Outcome.addrs ra pa rest) :
    ∃ a b p q cip pip vp vq, s = a ++ SP :: (b ++ SP :: (p ++ SP :: (q ++ CR :: LF :: rest))) ∧
      SP ∉ a ∧ SP ∉ b ∧ SP ∉ p ∧ CR ∉ q ∧ ParseIP a = some cip ∧ ParseIP b = some pip ∧
      Atoi p = Except.ok vp ∧ Atoi q = Except.ok vq ∧
      ra = Addr.tcp cip vp ∧ pa = Addr.tcp pip vq := by
  simp only [outcomeClientIP] at h
  split at h
  · simp at h
  · rename_i a t hcut
    split at h
    · simp at h
    · rename_i cip ha
      obtain ⟨hs, hnot⟩ := cut_some hcut
      obtain ⟨b, p, q, pip, vp, vq, ht, hb1, hp1, hq1, hb2, hp2, hq2, hra, hpa⟩ :=
        outcomeProxyIP_addrs _ _ _ _ _ h
      exact ⟨a, b, p, q, cip, pip, vp, vq, by rw [hs, ht], hnot, hb1, hp1, hq1, ha, hb2, hp2,
        hq2, hra, hpa⟩

theorem outcomeTrailer_not_unknown (cip pip : IP) (cp pp : Int) (s rest : List Byte) :
    outcomeTrailer cip pip cp pp s ≠ Outcome.unknownHeader rest := by
  intro h
  cases s with
  | nil => simp [outcomeTrailer] at h
  | cons d t =>
    simp only [outcomeTrailer] at h
    split at h <;> simp at h

theorem outcomeProxyPort_not_unknown (cip pip : IP) (cp : Int) (s rest : List Byte) :
    outcomeProxyPort cip pip cp s ≠ Outcome.unknownHeader rest := by
  intro h
  simp only [outcomeProxyPort] at h
  split at h
  · simp at h
  · split at h
    · simp at h
    · exact outcomeTrailer_not_unknown _ _ _ _ _ _ h

theorem outcomeClientPort_not_unknown (cip pip : IP) (s rest : List Byte) :
    outcomeClientPort cip pip s ≠ Outcome.unknownHeader rest := by
  intro h
  simp only [outcomeClientPort] at h
  split at h
  · simp at h
  · split at h
    · simp at h
    · exact outcomeProxyPort_not_unknown _ _ _ _ _ h

theorem outcomeProxyIP_not_unknown (cip : IP) (s rest : List Byte) :
    outcomeProxyIP cip s ≠ Outcome.unknownHeader rest := by
  intro h
  simp only [outcomeProxyIP] at h
  split at h
  · simp at h
  · split at h
    · simp at h
    · exact outcomeClientPort_not_unknown _ _ _ _ h

theorem outcomeClientIP_not_unknown (s rest : List Byte) :
    outcomeClientIP s ≠ Outcome.unknownHeader rest := by
  intro h
  simp only [outcomeClientIP] at h
  split at h
  · simp at h
  · split at h
    · simp at h
    · exact outcomeProxyIP_not_unknown _ _ _ h

/-- The bytes after `PROXY ` whose outcome is the unknown header start with `UNKNOWN\r\n`. -/
theorem headerOutcome_unknown_inv (s rest : List Byte)
    (h : headerOutcome s = Outcome.unknownHeader rest) : s = unknown ++ rest := by
  simp only [headerOutcome] at h
  split at h
  · simp at h
  · split at h
    · rename_i hu
      simp only [Outcome.unknownHeader.injEq] at h
      rw [← hu, ← h, List.take_append_drop]
    · split at h
      · simp at h
      · exact absurd h (outcomeClientIP_not_unknown _ _)

/-- The bytes after `PROXY ` whose outcome is a pair of addresses are a family token and
the four fields of a complete header line. -/
theorem headerOutcome_addrs_inv (s : List Byte) (ra pa : Addr) (rest : List Byte)
    (h : headerOutcome s = Outcome.addrs ra pa rest) :
    ∃ F a b p q cip pip vp vq, (F = bytesOf "TCP4 " ∨ F = bytesOf "TCP6 ") ∧
      s = F ++ (a ++ SP :: (b ++ SP :: (p ++ SP :: (q ++ CR :: LF :: rest)))) ∧
      SP ∉ a ∧ SP ∉ b ∧ SP ∉ p ∧ CR ∉ q ∧ ParseIP a = some cip ∧ ParseIP b = some pip ∧
      Atoi p = Except.ok vp ∧ Atoi q = Except.ok vq ∧
      ra = Addr.tcp cip vp ∧ pa = Addr.tcp pip vq := by
  simp only [headerOutcome] at h
  split at h
  · simp at h
  · split at h
    · simp at h
    · split at h
      · simp at h
      · rename_i hf
        obtain ⟨a, b, p, q, cip, pip, vp, vq, hd, rest⟩ := outcomeClientIP_addrs _ _ _ _ h
        refine ⟨s.take 5, a, b, p, q, cip, pip, vp, vq, ?_, ?_, rest⟩
        · by_cases h4 : bytesOf "TCP4 " = s.take 5
          · exact Or.inl h4.symm
          · by_cases h6 : bytesOf "TCP6 " = s.take 5
            · exact Or.inr h6.symm
            · exact absurd ⟨h4, h6⟩ hf
        · rw [← hd, List.take_append_drop]

theorem proxy_unknown_bytes : bytesOf "PROXY UNKNOWN\r\n" = bytesOf "PROXY " ++ unknown := by
  decide

/-! ## More lemmas on the outcome -/

theorem noEmptyChunk_afterErr (evs : List Event) (h : NoEmptyChunk evs) :
    NoEmptyChunk (afterErr evs) := by
  induction evs with
  | nil => exact h
  | cons ev rest ih =>
    cases ev with
    | data bs => exact ih (noEmptyChunk_tail h)
    | fail e => exact noEmptyChunk_tail h

theorem prox_bytes : bytesOf "PROX" = [80, 82, 79, 88] := by decide

theorem proxy_tcp4_bytes : bytesOf "PROXY TCP4 " = bytesOf "PROXY " ++ bytesOf "TCP4 " := by
  decide

theorem proxy_tcp6_bytes : bytesOf "PROXY TCP6 " = bytesOf "PROXY " ++ bytesOf "TCP6 " := by
  decide

/-- The outcome after `TCP4 ` and after `TCP6 ` is the same. -/
theorem headerOutcome_tcp4_tcp6 (T : List Byte) :
    headerOutcome (bytesOf "TCP4 " ++ T) = headerOutcome (bytesOf "TCP6 " ++ T) := by
  by_cases hlen : 4 ≤ T.length
  · rw [headerOutcome_family _ T (Or.inl rfl) hlen, headerOutcome_family _ T (Or.inr rfl) hlen]
  · have h4 : (bytesOf "TCP4 " ++ T).length < 9 := by
      rw [List.length_append, tcp4_bytes]; simp only [List.length_cons, List.length_nil]; omega
    have h6 : (bytesOf "TCP6 " ++ T).length < 9 := by
      rw [List.length_append, tcp6_bytes]; simp only [List.length_cons, List.length_nil]; omega
    simp only [headerOutcome, if_pos h4, if_pos h6]

/-- On `PROXY TCP4 192.168.01.1 ...` the client IP is refused for its leading zero, and
`Wrap` fails with the client-IP error. -/
theorem Wrap_leading_zero :
    Wrap leadingZeroConn = Except.error
      (WrapError.clientIP (FieldError.cannotParseIP (bytesOf "192.168.01.1 "))) := rfl

/-! ## The claims -/

/-- C1. On a stream that delivers the header line `PROXY F a b p q\r\n` (family `TCP4` or
`TCP6`, `a` and `b` texts that `net.ParseIP` accepts, `p` and `q` decimal digit texts
whose value fits an `int`, so in particular every port number) followed by any payload
`P`, in whatever chunks, `Wrap` succeeds, `RemoteAddr()` is the first IP with the first
port and `ProxyAddr()` is the second IP with the second port. -/
theorem wrap_header_addresses (cn : RawConn) (F a b p q P : List Byte) (ipa ipb : IP)
    (hne : NoEmptyChunk cn.events)
    (hF : F = bytesOf "TCP4 " ∨ F = bytesOf "TCP6 ")
    (hs : dataStart cn.events = headerLine F a b p q ++ P)
    (ha : ParseIP a = some ipa) (hb : ParseIP b = some ipb)
    (hp : IsDecimal p) (hpv : decVal p < 2 ^ 63)
    (hq : IsDecimal q) (hqv : decVal q < 2 ^ 63) :
    ∃ c, Wrap cn = Except.ok c ∧
      c.RemoteAddr = some (Addr.tcp ipa (decVal p)) ∧
      c.ProxyAddr = some (Addr.tcp ipb (decVal q)) := by
  rw [headerLine_append] at hs
  have hw := Wrap_header cn _ hne hs
  rw [headerOutcome_line F a b p q P ipa ipb _ _ hF ha hb (Atoi_decimal p hp hpv)
    (Atoi_decimal q hq hqv) hp.no_space hq.no_cr] at hw
  obtain ⟨r1, hwrap, -⟩ := hw
  exact ⟨_, hwrap, by simp [Conn.RemoteAddr], rfl⟩

/-- C1 at `PROXY TCP4 192.168.0.1 192.168.0.11 56324 443\r\n` followed by `HELLO`:
remote 192.168.0.1:56324 and proxy 192.168.0.11:443. -/
theorem wrap_header_addresses_witness :
    ∃ c, Wrap exampleConn = Except.ok c ∧
      c.RemoteAddr =
        some (Addr.tcp [0, 0, 0, 0, 0, 0, 0, 0, 0, 0, 255, 255, 192, 168, 0, 1] 56324) ∧
      c.ProxyAddr =
        some (Addr.tcp [0, 0, 0, 0, 0, 0, 0, 0, 0, 0, 255, 255, 192, 168, 0, 11] 443) :=
  wrap_header_addresses exampleConn (bytesOf "TCP4 ") (bytesOf "192.168.0.1")
    (bytesOf "192.168.0.11") (bytesOf "56324") (bytesOf "443") (bytesOf "HELLO")
    [0, 0, 0, 0, 0, 0, 0, 0, 0, 0, 255, 255, 192, 168, 0, 1]
    [0, 0, 0, 0, 0, 0, 0, 0, 0, 0, 255, 255, 192, 168, 0, 11]
    (by decide) (Or.inl rfl) (by decide) (by decide) (by decide) (by decide) (by decide)
    (by decide) (by decide)

/-- C2. After `Wrap` succeeds on a header line followed by a payload `P`, the unread bytes
of the connection are exactly `P`, and reading it to its first error (reads of any size
`n`) returns exactly `P` and then the error of the raw connection: the header is consumed
up to its line feed and no byte of `P` is consumed, lost or parsed again, whatever `P`
begins with. -/
theorem wrap_header_payload (cn : RawConn) (F a b p q P : List Byte) (ipa ipb : IP)
    (n fuel : Nat)
    (hne : NoEmptyChunk cn.events)
    (hF : F = bytesOf "TCP4 " ∨ F = bytesOf "TCP6 ")
    (hs : dataStart cn.events = headerLine F a b p q ++ P)
    (ha : ParseIP a = some ipa) (hb : ParseIP b = some ipb)
    (hp : IsDecimal p) (hpv : decVal p < 2 ^ 63)
    (hq : IsDecimal q) (hqv : decVal q < 2 ^ 63)
    (hn : 0 < n) (hfuel : P.length < fuel) :
    ∃ c, Wrap cn = Except.ok c ∧ c.r.pre = P ∧
      Conn.readAll fuel n c = (P, some (firstErr cn.events)) := by
  obtain ⟨r1, hw, hr1⟩ := Wrap_line cn F a b p q P ipa ipb _ _ hne hF hs ha hb
    (Atoi_decimal p hp hpv) (Atoi_decimal q hq hqv) hp.no_space hq.no_cr
  exact ⟨_, hw, hr1.2.1, readAll_holds n hn cn.ctx fuel _ P hr1 hfuel⟩

/-- C2 at the TCP4 example header followed by `HELLO`: the reads return exactly `HELLO`,
then end of stream. -/
theorem wrap_header_payload_witness :
    ∃ c, Wrap exampleConn = Except.ok c ∧ c.r.pre = bytesOf "HELLO" ∧
      Conn.readAll 6 512 c = (bytesOf "HELLO", some IOError.EOF) :=
  wrap_header_payload exampleConn (bytesOf "TCP4 ") (bytesOf "192.168.0.1")
    (bytesOf "192.168.0.11") (bytesOf "56324") (bytesOf "443") (bytesOf "HELLO")
    [0, 0, 0, 0, 0, 0, 0, 0, 0, 0, 255, 255, 192, 168, 0, 1]
    [0, 0, 0, 0, 0, 0, 0, 0, 0, 0, 255, 255, 192, 168, 0, 11] 512 6
    (by decide) (Or.inl rfl) (by decide) (by decide) (by decide) (by decide) (by decide)
    (by decide) (by decide) (by decide) (by decide)

/-- C3. On a stream that delivers six bytes or more before its first error and whose first
six bytes are not `PROXY `, `Wrap` succeeds and consumes nothing: no address is stored,
`ProxyAddr()` is empty, `RemoteAddr()` is the peer address of the raw connection, every
byte is still unread and the reads return the whole stream in order. -/
theorem wrap_plain_transparent (cn : RawConn) (n fuel : Nat)
    (hne : NoEmptyChunk cn.events)
    (hlen : 6 ≤ (dataStart cn.events).length)
    (hs : (dataStart cn.events).take 6 ≠ bytesOf "PROXY ")
    (hn : 0 < n) (hfuel : (dataStart cn.events).length < fuel) :
    ∃ c, Wrap cn = Except.ok c ∧ c.proxy = none ∧ c.remote = none ∧
      c.ProxyAddr = none ∧ c.RemoteAddr = cn.RemoteAddr ∧
      c.r.pre = dataStart cn.events ∧
      Conn.readAll fuel n c = (dataStart cn.events, some (firstErr cn.events)) := by
  obtain ⟨r1, hw, hr1⟩ := Wrap_plain cn hne hlen hs
  refine ⟨_, hw, rfl, rfl, rfl, ?_, hr1.2.1, readAll_holds n hn cn.ctx fuel _ _ hr1 hfuel⟩
  simp [Conn.RemoteAddr, RawConn.RemoteAddr, Holds.peer hr1]

/-- C3 at the stream `GET / HTTP/1.1\r\n`. -/
theorem wrap_plain_transparent_witness :
    ∃ c, Wrap plainConn = Except.ok c ∧ c.proxy = none ∧ c.remote = none ∧
      c.ProxyAddr = none ∧ c.RemoteAddr = some (Addr.tcp [10, 0, 0, 7] 31000) ∧
      c.r.pre = bytesOf "GET / HTTP/1.1\r\n" ∧
      Conn.readAll 20 4 c = (bytesOf "GET / HTTP/1.1\r\n", some IOError.EOF) :=
  wrap_plain_transparent plainConn 4 20 (by decide) (by decide) (by decide) (by decide)
    (by decide)

/-- C4. On a stream that breaks before its sixth byte, `Wrap` succeeds when the break is
the end of the stream (`io.EOF`, or `bufio.ErrBufferFull`): no address is stored and
`RemoteAddr()` is the peer address of the raw connection. On any other error of the peek
`Wrap` fails with that error, wrapped. -/
theorem wrap_short_stream (cn : RawConn) (hne : NoEmptyChunk cn.events)
    (hlen : (dataStart cn.events).length < 6) :
    (firstErr cn.events = IOError.EOF ∨ firstErr cn.events = IOError.ErrBufferFull →
      ∃ c, Wrap cn = Except.ok c ∧ c.proxy = none ∧ c.remote = none ∧
        c.ProxyAddr = none ∧ c.RemoteAddr = cn.RemoteAddr) ∧
    (firstErr cn.events ≠ IOError.EOF → firstErr cn.events ≠ IOError.ErrBufferFull →
      Wrap cn = Except.error (WrapError.onLoop (firstErr cn.events))) := by
  have hw := Wrap_short cn hne hlen
  constructor
  · intro he
    have hc : firstErr cn.events = IOError.ErrBufferFull ∨ firstErr cn.events = IOError.EOF :=
      he.symm
    rw [if_pos hc] at hw
    exact ⟨_, hw, rfl, rfl, rfl, rfl⟩
  · intro h1 h2
    have hc : ¬ (firstErr cn.events = IOError.ErrBufferFull ∨
        firstErr cn.events = IOError.EOF) := by
      rintro (h | h)
      · exact h2 h
      · exact h1 h
    rw [if_neg hc] at hw
    exact hw

/-- C4 at the stream `PROX` that the peer then closes. -/
theorem wrap_short_stream_witness :
    ∃ c, Wrap proxConn = Except.ok c ∧ c.proxy = none ∧ c.remote = none ∧
      c.ProxyAddr = none ∧ c.RemoteAddr = some (Addr.tcp [10, 0, 0, 7] 31000) :=
  (wrap_short_stream proxConn (by decide) (by decide)).1 (Or.inl (by decide))

/-- C5. Whatever the raw connection delivers, `Wrap` returns an error and no connection,
or a connection with both addresses set, or a connection with both addresses absent; a
connection is never returned with one address only, and an error of `parse`, or of `init`
once the six peeked bytes are `PROXY `, is always the result of `Wrap`. -/
theorem wrap_end_states (cn : RawConn) :
    ((∃ e, Wrap cn = Except.error e) ∨
      (∃ c ipc pc ipp pp, Wrap cn = Except.ok c ∧
        c.remote = some (Addr.tcp ipc pc) ∧ c.proxy = some (Addr.tcp ipp pp)) ∨
      (∃ c, Wrap cn = Except.ok c ∧ c.remote = none ∧ c.proxy = none)) ∧
    (∀ c, Wrap cn = Except.ok c → ¬ (c.remote = none ∧ c.proxy ≠ none) ∧
      ¬ (c.remote ≠ none ∧ c.proxy = none)) ∧
    (∀ e c1, Conn.parse { r := NewReader cn, proxy := none, remote := none } = (some e, c1) →
      Wrap cn = Except.error e) ∧
    (∀ buf r e c1, (NewReader cn).Peek 6 = (buf, none, r) → buf = Viaproxy.proxy →
      Conn.init { r := r, proxy := none, remote := none } = (some e, c1) →
      Wrap cn = Except.error e) := by
  have hparse : ∀ e c1,
      Conn.parse { r := NewReader cn, proxy := none, remote := none } = (some e, c1) →
      Wrap cn = Except.error e := by
    intro e c1 h
    simp only [Wrap, h]
  have hstates : ∀ c, Wrap cn = Except.ok c →
      (c.remote = none ∧ c.proxy = none) ∨
      (∃ ipc pc ipp pp, c.remote = some (Addr.tcp ipc pc) ∧ c.proxy = some (Addr.tcp ipp pp)) := by
    intro c h
    cases hp : Conn.parse { r := NewReader cn, proxy := none, remote := none } with
    | mk o c1 =>
      cases o with
      | some e => rw [hparse e c1 hp] at h; cases h
      | none =>
        simp only [Wrap, hp, Except.ok.injEq] at h
        subst h
        exact parse_none_addrs _ _ hp
  refine ⟨?_, ?_, hparse, ?_⟩
  · cases hw : Wrap cn with
    | error e => exact Or.inl ⟨e, rfl⟩
    | ok c =>
      rcases hstates c hw with ⟨h1, h2⟩ | ⟨ipc, pc, ipp, pp, h1, h2⟩
      · exact Or.inr (Or.inr ⟨c, rfl, h1, h2⟩)
      · exact Or.inr (Or.inl ⟨c, ipc, pc, ipp, pp, rfl, h1, h2⟩)
  · intro c hw
    rcases hstates c hw with ⟨h1, h2⟩ | ⟨ipc, pc, ipp, pp, h1, h2⟩
    · exact ⟨fun h => h.2 h2, fun h => h.1 h1⟩
    · refine ⟨fun h => ?_, fun h => ?_⟩
      · rw [h1] at h; cases h.1
      · rw [h2] at h; cases h.2
  · intro buf r e c1 hpeek hbuf hinit
    apply hparse e c1
    simp only [Conn.parse, proxy_length, hpeek, hbuf, ne_eq, not_true_eq_false, if_false, hinit]

/-- C6. When `Wrap` succeeds on a stream that starts with `PROXY ` (a raw connection
whose error is not the `ErrBufferFull` of `bufio`), what it consumed is one complete
header line: either `PROXY UNKNOWN\r\n`, both addresses absent, or `PROXY `, `TCP4 ` or
`TCP6 `, and `a b p q\r\n`, where `a` and `b` are the texts parsed as client and proxy IP,
`p` and `q` the texts parsed as client and proxy port, `a`, `b`, `p` hold no space and
`q` no carriage return. What follows the line is unread. -/
theorem wrap_consumes_header_line (cn : RawConn) (s : List Byte) (c : Conn)
    (hne : NoEmptyChunk cn.events)
    (hx : firstErr cn.events ≠ IOError.ErrBufferFull)
    (hs : dataStart cn.events = bytesOf "PROXY " ++ s)
    (hw : Wrap cn = Except.ok c) :
    (dataStart cn.events = bytesOf "PROXY UNKNOWN\r\n" ++ c.r.pre ∧
      c.remote = none ∧ c.proxy = none) ∨
    (∃ F a b p q ipa ipb vp vq, (F = bytesOf "TCP4 " ∨ F = bytesOf "TCP6 ") ∧
      dataStart cn.events = headerLine F a b p q ++ c.r.pre ∧
      SP ∉ a ∧ SP ∉ b ∧ SP ∉ p ∧ CR ∉ q ∧
      ParseIP a = some ipa ∧ ParseIP b = some ipb ∧
      Atoi p = Except.ok vp ∧ Atoi q = Except.ok vq ∧
      c.remote = some (Addr.tcp ipa vp) ∧ c.proxy = some (Addr.tcp ipb vq)) := by
  have hm := Wrap_header cn s hne hs
  cases ho : headerOutcome s with
  | unknownHeader rest =>
    rw [ho] at hm
    obtain ⟨r1, hw1, hr1⟩ := hm
    rw [hw, Except.ok.injEq] at hw1
    subst hw1
    left
    refine ⟨?_, rfl, rfl⟩
    rw [hs, headerOutcome_unknown_inv s rest ho, proxy_unknown_bytes, List.append_assoc]
    simp only [hr1.2.1]
  | addrs ra pa rest =>
    rw [ho] at hm
    obtain ⟨r1, hw1, hr1⟩ := hm
    rw [hw, Except.ok.injEq] at hw1
    subst hw1
    right
    obtain ⟨F, a, b, p, q, cip, pip, vp, vq, hF, hd, ha, hb, hp, hq, hpa, hpb, hap, haq, hra,
      hrp⟩ := headerOutcome_addrs_inv s ra pa rest ho
    refine ⟨F, a, b, p, q, cip, pip, vp, vq, hF, ?_, ha, hb, hp, hq, hpa, hpb, hap, haq, ?_, ?_⟩
    · rw [hs, hd, headerLine_append]
      simp only [hr1.2.1]
    · simp only [hra]
    · simp only [hrp]
  | failed e =>
    rw [ho] at hm
    have : Wrap cn = Except.error e := hm
    rw [hw] at this
    cases this
  | broken w =>
    rw [ho] at hm
    have : Wrap cn = Except.error (w cn.ctx.1) := hm
    rw [hw] at this
    cases this
  | cutOff w =>
    rw [ho] at hm
    have : Wrap cn = Except.error (w cn.ctx.1) := hm hx
    rw [hw] at this
    cases this

/-- C6 at the TCP4 example header followed by `HELLO`: the consumed bytes are a header
line of the second form. -/
theorem wrap_consumes_header_line_witness :
    ∃ F a b p q ipa ipb vp vq, (F = bytesOf "TCP4 " ∨ F = bytesOf "TCP6 ") ∧
      dataStart exampleConn.events = headerLine F a b p q ++ bytesOf "HELLO" ∧
      SP ∉ a ∧ SP ∉ b ∧ SP ∉ p ∧ CR ∉ q ∧
      ParseIP a = some ipa ∧ ParseIP b = some ipb ∧
      Atoi p = Except.ok vp ∧ Atoi q = Except.ok vq ∧
      some (Addr.tcp [0, 0, 0, 0, 0, 0, 0, 0, 0, 0, 255, 255, 192, 168, 0, 1] 56324) =
        some (Addr.tcp ipa vp) ∧
      some (Addr.tcp [0, 0, 0, 0, 0, 0, 0, 0, 0, 0, 255, 255, 192, 168, 0, 11] 443) =
        some (Addr.tcp ipb vq) :=
  Or.resolve_left
    (wrap_consumes_header_line exampleConn
      (bytesOf "TCP4 192.168.0.1 192.168.0.11 56324 443\r\nHELLO")
      { r := { buf := bytesOf "HELLO",
               rd := { events := [], peer := some (Addr.tcp [10, 0, 0, 7] 31000) },
               err := none },
        proxy := some (Addr.tcp [0, 0, 0, 0, 0, 0, 0, 0, 0, 0, 255, 255, 192, 168, 0, 11] 443),
        remote := some (Addr.tcp [0, 0, 0, 0, 0, 0, 0, 0, 0, 0, 255, 255, 192, 168, 0, 1] 56324) }
      (by decide) (by decide) (by decide) rfl)
    (fun h => Option.noConfusion h.2.1)

/-- C7 (as amended). On a stream that starts with `PROXY TCP4 ` or `PROXY TCP6 `, then a
client-IP field `a` closed by a space, with at least nine bytes after `PROXY ` before the
stream breaks: when `a` is not a valid IP text, `Wrap` fails with the client-IP error;
when `a` is valid and the proxy-IP field `b` that follows is not, `Wrap` fails with the
proxy-IP error. With fewer than nine bytes after `PROXY `, `Wrap` fails as well, with the
error of the peek for the unknown token. No connection is returned in any of these cases. -/
theorem wrap_invalid_address (cn : RawConn) (F a t : List Byte)
    (hne : NoEmptyChunk cn.events)
    (hF : F = bytesOf "TCP4 " ∨ F = bytesOf "TCP6 ")
    (hs : dataStart cn.events = bytesOf "PROXY " ++ (F ++ (a ++ SP :: t)))
    (ha : SP ∉ a) :
    (4 ≤ (a ++ SP :: t).length → ParseIP a = none →
      Wrap cn = Except.error
        (WrapError.clientIP (FieldError.cannotParseIP (a ++ [SP])))) ∧
    (4 ≤ (a ++ SP :: t).length → ∀ ipa b u, ParseIP a = some ipa → t = b ++ SP :: u →
      SP ∉ b → ParseIP b = none →
      Wrap cn = Except.error
        (WrapError.proxyIP (FieldError.cannotParseIP (b ++ [SP])))) ∧
    ((a ++ SP :: t).length < 4 →
      Wrap cn = Except.error (WrapError.header (firstErr cn.events))) := by
  have hm := Wrap_header cn _ hne hs
  refine ⟨?_, ?_, ?_⟩
  · intro hlen hbad
    rw [headerOutcome_family F _ hF hlen, outcomeClientIP_bad a t ha hbad] at hm
    exact hm
  · intro hlen ipa b u hok ht hb hbad
    subst ht
    rw [headerOutcome_family F _ hF hlen, outcomeClientIP_ok a _ ha ipa hok,
      outcomeProxyIP_bad ipa b u hb hbad] at hm
    exact hm
  · intro hlen
    have hFl : F.length = 5 := by rcases hF with h | h <;> rw [h] <;> decide
    have hshort : (F ++ (a ++ SP :: t)).length < 9 := by
      rw [List.length_append, hFl]; omega
    simp only [headerOutcome, if_pos hshort] at hm
    exact hm

/-- C7 at `PROXY TCP4 not-an-ip ...`: `Wrap` fails with the client-IP error. -/
theorem wrap_invalid_address_witness :
    Wrap notAnIPConn = Except.error
      (WrapError.clientIP (FieldError.cannotParseIP (bytesOf "not-an-ip "))) :=
  (wrap_invalid_address notAnIPConn (bytesOf "TCP4 ") (bytesOf "not-an-ip")
    (bytesOf "192.168.0.11 56324 443\r\nHELLO") (by decide) (Or.inl rfl) (by decide)
    (by decide)).1 (by decide) (by decide)

/-- C7 as stated fails on the stream `PROXY TCP4 x ` that then ends: its client-IP field
`x` is not a valid IP text, and `Wrap` fails with the error of the peek for the unknown
token (`parsing proxy protocol header`), not with an address error. -/
theorem wrap_invalid_address_counterexample :
    ParseIP (bytesOf "x") = none ∧
    Wrap shortFieldConn = Except.error (WrapError.header IOError.EOF) ∧
    ¬ ∃ e, Wrap shortFieldConn = Except.error (WrapError.clientIP e) := by
  refine ⟨by decide, rfl, ?_⟩
  rintro ⟨e, he⟩
  have h : Wrap shortFieldConn = Except.error (WrapError.header IOError.EOF) := rfl
  rw [h] at he
  cases he

/-- C8 (as amended). With a family token and two valid IP texts before them, each port
field (the client port up to the next space, the proxy port up to the next carriage
return) is accepted exactly when `strconv.Atoi` reads it: decimal digits with an optional
sign `+` or `-`, the value within a 64-bit `int`; the stored port is then that integer,
negative for a `-` sign. For every other client-port text `Wrap` fails with the
client-port error, for every other proxy-port text with the proxy-port error. -/
theorem wrap_port_fields (cn : RawConn) (F a b p q t : List Byte) (ipa ipb : IP)
    (hne : NoEmptyChunk cn.events)
    (hF : F = bytesOf "TCP4 " ∨ F = bytesOf "TCP6 ")
    (hs : dataStart cn.events =
      bytesOf "PROXY " ++ (F ++ (a ++ SP :: (b ++ SP :: (p ++ SP :: (q ++ CR :: t))))))
    (ha : ParseIP a = some ipa) (hb : ParseIP b = some ipb)
    (hp : SP ∉ p) (hq : CR ∉ q) :
    ((∀ v, ¬ IsIntText p v) →
      ∃ e, Wrap cn = Except.error (WrapError.clientPort (FieldError.num e))) ∧
    (∀ vp, IsIntText p vp → (∀ v, ¬ IsIntText q v) →
      ∃ e, Wrap cn = Except.error (WrapError.proxyPort (FieldError.num e))) ∧
    (∀ vp vq P, IsIntText p vp → IsIntText q vq → t = LF :: P →
      ∃ c, Wrap cn = Except.ok c ∧ c.RemoteAddr = some (Addr.tcp ipa vp) ∧
        c.ProxyAddr = some (Addr.tcp ipb vq)) := by
  have hm := Wrap_header cn _ hne hs
  have hlen : 4 ≤ (a ++ SP :: (b ++ SP :: (p ++ SP :: (q ++ CR :: t)))).length := by
    simp only [List.length_append, List.length_cons]; omega
  rw [headerOutcome_family F _ hF hlen,
    outcomeClientIP_ok a _ (ParseIP_no_space a ipa ha) ipa ha,
    outcomeProxyIP_ok ipa b _ (ParseIP_no_space b ipb hb) ipb hb] at hm
  refine ⟨?_, ?_, ?_⟩
  · intro hno
    cases hap : Atoi p with
    | ok v => exact absurd ((Atoi_iff p v).mp hap) (hno v)
    | error e =>
      rw [outcomeClientPort_err ipa ipb p _ hp e hap] at hm
      exact ⟨e, hm⟩
  · intro vp hvp hno
    rw [outcomeClientPort_ok ipa ipb p _ hp vp ((Atoi_iff p vp).mpr hvp)] at hm
    cases haq : Atoi q with
    | ok v => exact absurd ((Atoi_iff q v).mp haq) (hno v)
    | error e =>
      rw [outcomeProxyPort_err ipa ipb vp q _ hq e haq] at hm
      exact ⟨e, hm⟩
  · intro vp vq P hvp hvq ht
    subst ht
    rw [outcomeClientPort_ok ipa ipb p _ hp vp ((Atoi_iff p vp).mpr hvp),
      outcomeProxyPort_ok ipa ipb vp q _ hq vq ((Atoi_iff q vq).mpr hvq),
      outcomeTrailer_lf] at hm
    obtain ⟨r1, hw, -⟩ := hm
    exact ⟨_, hw, by simp [Conn.RemoteAddr], rfl⟩

/-- C8 (as amended) at the client port `+56324`: accepted, the stored port is 56324. -/
theorem wrap_port_fields_witness :
    ∃ c, Wrap signedPortConn = Except.ok c ∧
      c.RemoteAddr =
        some (Addr.tcp [0, 0, 0, 0, 0, 0, 0, 0, 0, 0, 255, 255, 192, 168, 0, 1] 56324) ∧
      c.ProxyAddr =
        some (Addr.tcp [0, 0, 0, 0, 0, 0, 0, 0, 0, 0, 255, 255, 192, 168, 0, 11] 443) :=
  (wrap_port_fields signedPortConn (bytesOf "TCP4 ") (bytesOf "192.168.0.1")
    (bytesOf "192.168.0.11") (bytesOf "+56324") (bytesOf "443") (bytesOf "\nHELLO")
    [0, 0, 0, 0, 0, 0, 0, 0, 0, 0, 255, 255, 192, 168, 0, 1]
    [0, 0, 0, 0, 0, 0, 0, 0, 0, 0, 255, 255, 192, 168, 0, 11]
    (by decide) (Or.inl rfl) (by decide) (by decide) (by decide) (by decide)
    (by decide)).2.2 56324 443 (bytesOf "HELLO")
    (Or.inr (Or.inl ⟨bytesOf "56324", rfl, by decide, by decide, by decide⟩))
    (Or.inl ⟨by decide, by decide, by decide⟩) rfl

/-- C8 as stated fails on the client port `-1`: the text is a signed, negative number, yet
`Wrap` succeeds and stores the port -1. -/
theorem wrap_port_fields_counterexample :
    ¬ IsDecimal (bytesOf "-1") ∧
    ∃ c, Wrap negativePortConn = Except.ok c ∧
      c.RemoteAddr =
        some (Addr.tcp [0, 0, 0, 0, 0, 0, 0, 0, 0, 0, 255, 255, 192, 168, 0, 1] (-1)) :=
  ⟨by decide, _, rfl, rfl⟩

/-- C9. On a stream that delivers `PROXY UNKNOWN\r\n` followed by any payload `P`, `Wrap`
succeeds, consumes exactly the fifteen bytes of that header, leaves both stored addresses
unset, and the reads return exactly `P`, then the error of the raw connection. -/
theorem wrap_unknown_header (cn : RawConn) (P : List Byte) (n fuel : Nat)
    (hne : NoEmptyChunk cn.events)
    (hs : dataStart cn.events = bytesOf "PROXY UNKNOWN\r\n" ++ P)
    (hn : 0 < n) (hfuel : P.length < fuel) :
    ∃ c, Wrap cn = Except.ok c ∧ c.remote = none ∧ c.proxy = none ∧
      c.r.pre = P ∧ (dataStart cn.events).length = 15 + c.r.pre.length ∧
      Conn.readAll fuel n c = (P, some (firstErr cn.events)) := by
  have hs2 := hs
  rw [proxy_unknown_bytes, List.append_assoc] at hs2
  have hm := Wrap_header cn _ hne hs2
  rw [headerOutcome_unknown] at hm
  obtain ⟨r1, hw, hr1⟩ := hm
  refine ⟨_, hw, rfl, rfl, hr1.2.1, ?_, readAll_holds n hn cn.ctx fuel _ P hr1 hfuel⟩
  have h15 : (bytesOf "PROXY UNKNOWN\r\n").length = 15 := by decide
  rw [hs, List.length_append, h15]
  simp only [hr1.2.1]

/-- C9 at `PROXY UNKNOWN\r\n` followed by `HELLO`. -/
theorem wrap_unknown_header_witness :
    ∃ c, Wrap unknownConn = Except.ok c ∧ c.remote = none ∧ c.proxy = none ∧
      c.r.pre = bytesOf "HELLO" ∧ (dataStart unknownConn.events).length = 15 + c.r.pre.length ∧
      Conn.readAll 6 512 c = (bytesOf "HELLO", some IOError.EOF) :=
  wrap_unknown_header unknownConn (bytesOf "HELLO") 512 6 (by decide) (by decide) (by decide)
    (by decide)

/-- C10 (as amended). After `Wrap` succeeds on a stream that starts with
`PROXY UNKNOWN\r\n`, `ProxyAddr()` returns the empty value and `RemoteAddr()` returns the
peer address of the raw connection. -/
theorem wrap_unknown_accessors (cn : RawConn) (P : List Byte) (c : Conn)
    (hne : NoEmptyChunk cn.events)
    (hs : dataStart cn.events = bytesOf "PROXY UNKNOWN\r\n" ++ P)
    (hw : Wrap cn = Except.ok c) :
    c.ProxyAddr = none ∧ c.RemoteAddr = cn.RemoteAddr := by
  rw [proxy_unknown_bytes, List.append_assoc] at hs
  have hm := Wrap_header cn _ hne hs
  rw [headerOutcome_unknown] at hm
  obtain ⟨r1, hw1, hr1⟩ := hm
  rw [hw, Except.ok.injEq] at hw1
  subst hw1
  exact ⟨rfl, by simp [Conn.RemoteAddr, RawConn.RemoteAddr, Holds.peer hr1]⟩

/-- C10 (as amended) at `PROXY UNKNOWN\r\n` followed by `HELLO`, from the peer
10.0.0.7:31000. -/
theorem wrap_unknown_accessors_witness :
    Conn.ProxyAddr { r := { buf := bytesOf "HELLO",
                            rd := { events := [], peer := some (Addr.tcp [10, 0, 0, 7] 31000) },
                            err := none },
                     proxy := none, remote := none } = none ∧
    Conn.RemoteAddr { r := { buf := bytesOf "HELLO",
                             rd := { events := [], peer := some (Addr.tcp [10, 0, 0, 7] 31000) },
                             err := none },
                      proxy := none, remote := none } = unknownConn.RemoteAddr :=
  wrap_unknown_accessors unknownConn (bytesOf "HELLO") _ (by decide) (by decide) rfl

/-- C10 as stated fails on `PROXY UNKNOWN\r\n` followed by `HELLO` from the peer
10.0.0.7:31000: `Wrap` succeeds and `RemoteAddr()` is that peer address, not the empty
value. -/
theorem wrap_unknown_accessors_counterexample :
    ∃ c, Wrap unknownConn = Except.ok c ∧
      c.RemoteAddr = some (Addr.tcp [10, 0, 0, 7] 31000) ∧ c.RemoteAddr ≠ none :=
  ⟨_, rfl, rfl, by decide⟩

/-- C11 (as amended). On a stream that starts with `PROXY ` and delivers at least nine
more bytes before it breaks, when those nine bytes are not `UNKNOWN\r\n` and the first
five of them are neither `TCP4 ` nor `TCP6 `, `Wrap` fails with the unrecognized-protocol
error that carries these five bytes. With fewer than nine bytes after `PROXY `, `Wrap`
fails with the error of the peek for the unknown token. -/
theorem wrap_unrecognized_family (cn : RawConn) (s : List Byte)
    (hne : NoEmptyChunk cn.events)
    (hs : dataStart cn.events = bytesOf "PROXY " ++ s) :
    (9 ≤ s.length → s.take 9 ≠ unknown →
      s.take 5 ≠ bytesOf "TCP4 " → s.take 5 ≠ bytesOf "TCP6 " →
      Wrap cn = Except.error (WrapError.unrecognizedProtocol (s.take 5))) ∧
    (s.length < 9 → Wrap cn = Except.error (WrapError.header (firstErr cn.events))) := by
  have hm := Wrap_header cn s hne hs
  constructor
  · intro hlen hu h4 h6
    have hf : bytesOf "TCP4 " ≠ s.take 5 ∧ bytesOf "TCP6 " ≠ s.take 5 :=
      ⟨fun h => h4 h.symm, fun h => h6 h.symm⟩
    simp only [headerOutcome, if_neg (show ¬ s.length < 9 by omega), if_neg hu, if_pos hf] at hm
    exact hm
  · intro hlen
    simp only [headerOutcome, if_pos hlen] at hm
    exact hm

/-- C11 (as amended) at `PROXY UDP4 192.168.0.1 ...`: the unrecognized-protocol error. -/
theorem wrap_unrecognized_family_witness :
    Wrap udpConn = Except.error (WrapError.unrecognizedProtocol (bytesOf "UDP4 ")) :=
  (wrap_unrecognized_family udpConn (bytesOf "UDP4 192.168.0.1 192.168.0.11 56324 443\r\nHELLO")
    (by decide) (by decide)).1 (by decide) (by decide) (by decide) (by decide)

/-- C11 as stated fails on the stream `PROXY UDP4 x` that then ends: it starts with
`PROXY `, does not go on with `UNKNOWN\r\n`, its next five bytes `UDP4 ` are neither
`TCP4 ` nor `TCP6 `, and `Wrap` fails with the error of the peek for the unknown token,
not with the unrecognized-protocol error. -/
theorem wrap_unrecognized_family_counterexample :
    dataStart shortFamilyConn.events = bytesOf "PROXY " ++ bytesOf "UDP4 " ++ bytesOf "x" ∧
    Wrap shortFamilyConn = Except.error (WrapError.header IOError.EOF) ∧
    Wrap shortFamilyConn ≠ Except.error (WrapError.unrecognizedProtocol (bytesOf "UDP4 ")) := by
  refine ⟨by decide, rfl, ?_⟩
  have h : Wrap shortFamilyConn = Except.error (WrapError.header IOError.EOF) := rfl
  rw [h]
  intro he
  cases he

/-- C12. On a stream whose header is valid up to and including the carriage return that
ends the proxy port, `Wrap` fails with the invalid-trailing error and returns no
connection when the stream breaks at that point (the error of the connection is
reported) and when the next byte is not a line feed. -/
theorem wrap_invalid_trailer (cn : RawConn) (F a b p q t : List Byte) (ipa ipb : IP)
    (vp vq : Int)
    (hne : NoEmptyChunk cn.events)
    (hF : F = bytesOf "TCP4 " ∨ F = bytesOf "TCP6 ")
    (hs : dataStart cn.events =
      bytesOf "PROXY " ++ (F ++ (a ++ SP :: (b ++ SP :: (p ++ SP :: (q ++ CR :: t))))))
    (ha : ParseIP a = some ipa) (hb : ParseIP b = some ipb)
    (hp : Atoi p = Except.ok vp) (hq : Atoi q = Except.ok vq)
    (hps : SP ∉ p) (hqc : CR ∉ q) :
    (t = [] →
      Wrap cn = Except.error (WrapError.invalidTrailing (some (firstErr cn.events)))) ∧
    (∀ c u, t = c :: u → c ≠ LF →
      Wrap cn = Except.error (WrapError.invalidTrailing none)) := by
  have hm := Wrap_header cn _ hne hs
  have hlen : 4 ≤ (a ++ SP :: (b ++ SP :: (p ++ SP :: (q ++ CR :: t)))).length := by
    simp only [List.length_append, List.length_cons]; omega
  rw [headerOutcome_family F _ hF hlen,
    outcomeClientIP_ok a _ (ParseIP_no_space a ipa ha) ipa ha,
    outcomeProxyIP_ok ipa b _ (ParseIP_no_space b ipb hb) ipb hb,
    outcomeClientPort_ok ipa ipb p _ hps vp hp,
    outcomeProxyPort_ok ipa ipb vp q _ hqc vq hq] at hm
  constructor
  · intro ht
    subst ht
    simp only [outcomeTrailer] at hm
    exact hm
  · intro c u ht hc
    subst ht
    simp only [outcomeTrailer, hc, ne_eq, not_false_eq_true, if_true] at hm
    exact hm

/-- C12 at `PROXY TCP4 192.168.0.1 192.168.0.11 56324 443\r` followed by `X`. -/
theorem wrap_invalid_trailer_witness :
    Wrap badTrailerConn = Except.error (WrapError.invalidTrailing none) :=
  (wrap_invalid_trailer badTrailerConn (bytesOf "TCP4 ") (bytesOf "192.168.0.1")
    (bytesOf "192.168.0.11") (bytesOf "56324") (bytesOf "443") (bytesOf "X")
    [0, 0, 0, 0, 0, 0, 0, 0, 0, 0, 255, 255, 192, 168, 0, 1]
    [0, 0, 0, 0, 0, 0, 0, 0, 0, 0, 255, 255, 192, 168, 0, 11] 56324 443
    (by decide) (Or.inl rfl) (by decide) (by decide) (by decide) rfl rfl
    (by decide) (by decide)).2 88 [] rfl (by decide)

/-- C13 (as amended). On a stream that closes after the four bytes `PROX`, `Wrap` succeeds
with no address stored; the bytes `PROX` are still unread, the first `Read` returns them
(as many as the slice holds) without an error, and reading to the first error returns
`PROX` and then end of stream. -/
theorem wrap_prox_then_eof (cn : RawConn) (n fuel : Nat)
    (hne : NoEmptyChunk cn.events)
    (hs : dataStart cn.events = bytesOf "PROX")
    (he : firstErr cn.events = IOError.EOF) (ha : afterErr cn.events = [])
    (hn : 0 < n) (hfuel : 4 < fuel) :
    ∃ c, Wrap cn = Except.ok c ∧ c.remote = none ∧ c.proxy = none ∧
      (c.Read n).1 = (bytesOf "PROX").take n ∧ (c.Read n).2.1 = none ∧
      Conn.readAll fuel n c = (bytesOf "PROX", some IOError.EOF) := by
  have hlen : (dataStart cn.events).length < 6 := by rw [hs]; decide
  have hw := Wrap_short cn hne hlen
  rw [if_pos (Or.inr he), hs, ha] at hw
  refine ⟨_, hw, rfl, rfl, ?_, ?_, ?_⟩
  · have hn0 : ¬ n = 0 := by omega
    simp [Conn.Read, Reader.Read, hn0, prox_bytes]
  · have hn0 : ¬ n = 0 := by omega
    simp [Conn.Read, Reader.Read, hn0, prox_bytes]
  · have hh : Reader.Holds
        { buf := bytesOf "PROX", rd := { events := [], peer := cn.peer }, err := none }
        (bytesOf "PROX") (IOError.EOF, [], cn.peer) :=
      ⟨⟨rfl, by simp [prox_bytes, defaultBufSize], by simp [NoEmptyChunk]⟩,
        by simp [Reader.pre, dataStart], rfl⟩
    have h4 : (bytesOf "PROX").length < fuel := by
      have : (bytesOf "PROX").length = 4 := by decide
      omega
    exact readAll_holds n hn _ fuel
      (Conn.mk ⟨bytesOf "PROX", ⟨[], cn.peer⟩, none⟩ none none) (bytesOf "PROX") hh h4

/-- C13 (as amended) at the stream `PROX` that the peer then closes, read with slices of
512 bytes. -/
theorem wrap_prox_then_eof_witness :
    ∃ c, Wrap proxConn = Except.ok c ∧ c.remote = none ∧ c.proxy = none ∧
      (c.Read 512).1 = (bytesOf "PROX").take 512 ∧ (c.Read 512).2.1 = none ∧
      Conn.readAll 5 512 c = (bytesOf "PROX", some IOError.EOF) :=
  wrap_prox_then_eof proxConn 512 5 (by decide) (by decide) (by decide) (by decide)
    (by decide) (by decide)

/-- C13 as stated fails on the stream `PROX` that the peer then closes: the first `Read`
on the returned connection returns the four bytes `PROX` and no error, not end of
stream. -/
theorem wrap_prox_then_eof_counterexample :
    ∃ c, Wrap proxConn = Except.ok c ∧
      (c.Read 512).1 = bytesOf "PROX" ∧ (c.Read 512).2.1 ≠ some IOError.EOF :=
  ⟨_, rfl, rfl, by decide⟩

/-- C14. Two streams that differ only in the family token, `PROXY TCP4 ` + `T` and
`PROXY TCP6 ` + `T` (the same error behind `T`, which is not the `ErrBufferFull` of
`bufio`), give the same result of `Wrap`: the same error, or the same stored addresses
and the same unread bytes. When `T` is a line of valid fields both succeed with the
addresses that `net.ParseIP` reads, whichever the family of the texts. -/
theorem wrap_family_irrelevant (cn4 cn6 : RawConn) (T : List Byte)
    (hne4 : NoEmptyChunk cn4.events) (hne6 : NoEmptyChunk cn6.events)
    (hs4 : dataStart cn4.events = bytesOf "PROXY TCP4 " ++ T)
    (hs6 : dataStart cn6.events = bytesOf "PROXY TCP6 " ++ T)
    (herr : firstErr cn4.events = firstErr cn6.events)
    (hx : firstErr cn4.events ≠ IOError.ErrBufferFull) :
    SameResult (Wrap cn4) (Wrap cn6) ∧
    (∀ a b p q P ipa ipb vp vq,
      T = a ++ SP :: (b ++ SP :: (p ++ SP :: (q ++ CR :: LF :: P))) →
      ParseIP a = some ipa → ParseIP b = some ipb →
      Atoi p = Except.ok vp → Atoi q = Except.ok vq → SP ∉ p → CR ∉ q →
      ∃ c4 c6, Wrap cn4 = Except.ok c4 ∧ Wrap cn6 = Except.ok c6 ∧
        c4.remote = some (Addr.tcp ipa vp) ∧ c6.remote = some (Addr.tcp ipa vp) ∧
        c4.proxy = some (Addr.tcp ipb vq) ∧ c6.proxy = some (Addr.tcp ipb vq)) := by
  rw [proxy_tcp4_bytes, List.append_assoc] at hs4
  rw [proxy_tcp6_bytes, List.append_assoc] at hs6
  have hm4 := Wrap_header cn4 _ hne4 hs4
  have hm6 := Wrap_header cn6 _ hne6 hs6
  have hx6 : firstErr cn6.events ≠ IOError.ErrBufferFull := herr ▸ hx
  have he : cn4.ctx.1 = cn6.ctx.1 := herr
  constructor
  · rw [← headerOutcome_tcp4_tcp6] at hm6
    cases ho : headerOutcome (bytesOf "TCP4 " ++ T) with
    | unknownHeader rest =>
      rw [ho] at hm4 hm6
      obtain ⟨r4, hw4, hr4⟩ := hm4
      obtain ⟨r6, hw6, hr6⟩ := hm6
      rw [hw4, hw6]
      exact ⟨rfl, rfl, hr4.2.1.trans hr6.2.1.symm⟩
    | addrs ra pa rest =>
      rw [ho] at hm4 hm6
      obtain ⟨r4, hw4, hr4⟩ := hm4
      obtain ⟨r6, hw6, hr6⟩ := hm6
      rw [hw4, hw6]
      exact ⟨rfl, rfl, hr4.2.1.trans hr6.2.1.symm⟩
    | failed e =>
      rw [ho] at hm4 hm6
      have h4 : Wrap cn4 = Except.error e := hm4
      have h6 : Wrap cn6 = Except.error e := hm6
      rw [h4, h6]
      exact rfl
    | broken w =>
      rw [ho] at hm4 hm6
      have h4 : Wrap cn4 = Except.error (w cn4.ctx.1) := hm4
      have h6 : Wrap cn6 = Except.error (w cn6.ctx.1) := hm6
      rw [h4, h6, he]
      exact rfl
    | cutOff w =>
      rw [ho] at hm4 hm6
      have h4 : Wrap cn4 = Except.error (w cn4.ctx.1) := hm4 hx
      have h6 : Wrap cn6 = Except.error (w cn6.ctx.1) := hm6 hx6
      rw [h4, h6, he]
      exact rfl
  · intro a b p q P ipa ipb vp vq hT ha hb hp hq hps hqc
    subst hT
    rw [headerOutcome_line _ a b p q P ipa ipb vp vq (Or.inl rfl) ha hb hp hq hps hqc] at hm4
    rw [headerOutcome_line _ a b p q P ipa ipb vp vq (Or.inr rfl) ha hb hp hq hps hqc] at hm6
    obtain ⟨r4, hw4, -⟩ := hm4
    obtain ⟨r6, hw6, -⟩ := hm6
    exact ⟨_, _, hw4, hw6, rfl, rfl, rfl, rfl⟩

/-- C14 at `::1 192.168.0.11 56324 443\r\n` followed by `HELLO`: an IPv6 client address
under `TCP4` and an IPv4 proxy address under `TCP6` are accepted, with the same result. -/
theorem wrap_family_irrelevant_witness :
    SameResult (Wrap mixedUnderTCP4Conn) (Wrap mixedUnderTCP6Conn) ∧
    ∃ c4 c6, Wrap mixedUnderTCP4Conn = Except.ok c4 ∧ Wrap mixedUnderTCP6Conn = Except.ok c6 ∧
      c4.remote = some (Addr.tcp [0, 0, 0, 0, 0, 0, 0, 0, 0, 0, 0, 0, 0, 0, 0, 1] 56324) ∧
      c6.remote = some (Addr.tcp [0, 0, 0, 0, 0, 0, 0, 0, 0, 0, 0, 0, 0, 0, 0, 1] 56324) ∧
      c4.proxy =
        some (Addr.tcp [0, 0, 0, 0, 0, 0, 0, 0, 0, 0, 255, 255, 192, 168, 0, 11] 443) ∧
      c6.proxy =
        some (Addr.tcp [0, 0, 0, 0, 0, 0, 0, 0, 0, 0, 255, 255, 192, 168, 0, 11] 443) :=
  ⟨(wrap_family_irrelevant mixedUnderTCP4Conn mixedUnderTCP6Conn
      (bytesOf "::1 192.168.0.11 56324 443\r\nHELLO") (by decide) (by decide) (by decide)
      (by decide) (by decide) (by decide)).1,
   (wrap_family_irrelevant mixedUnderTCP4Conn mixedUnderTCP6Conn
      (bytesOf "::1 192.168.0.11 56324 443\r\nHELLO") (by decide) (by decide) (by decide)
      (by decide) (by decide) (by decide)).2
      (bytesOf "::1") (bytesOf "192.168.0.11") (bytesOf "56324") (bytesOf "443")
      (bytesOf "HELLO") [0, 0, 0, 0, 0, 0, 0, 0, 0, 0, 0, 0, 0, 0, 0, 1]
      [0, 0, 0, 0, 0, 0, 0, 0, 0, 0, 255, 255, 192, 168, 0, 11] 56324 443
      (by decide) (by decide) (by decide) rfl rfl (by decide) (by decide)⟩

/-- C15. Whatever the state of the reader, once `Peek` of the nine bytes of the unknown
token has returned without an error, the `Read` of five bytes that follows returns no
error and exactly the first five of the peeked bytes, taken from the buffer: the
connection is not read, and the family buffer is filled completely. -/
theorem family_read_after_peek (b b1 : Reader) (buf : List Byte)
    (h : b.Peek unknown.length = (buf, none, b1)) :
    b1.Read 5 = (buf.take 5, none, { b1 with buf := b1.buf.drop 5 }) ∧
    (buf.take 5).length = 5 ∧ intoBuf 5 (buf.take 5) = buf.take 5 ∧
    9 ≤ b1.buf.length := by
  rw [unknown_length] at h
  unfold Reader.Peek at h
  simp only [show ¬ defaultBufSize < 9 by decide, if_false] at h
  split at h
  · split at h <;> simp at h
  · rename_i hlen
    simp only [Prod.mk.injEq, true_and] at h
    obtain ⟨hbuf, hb1⟩ := h
    subst hb1
    have h9 : 9 ≤ (Reader.peekLoop 9 9 b).buf.length := by omega
    have hne : (Reader.peekLoop 9 9 b).buf ≠ [] := by
      intro hnil
      rw [hnil] at h9
      simp at h9
    have htake : buf.take 5 = (Reader.peekLoop 9 9 b).buf.take 5 := by
      rw [← hbuf, List.take_take]
      rfl
    have hl5 : (buf.take 5).length = 5 := by
      rw [htake, List.length_take]; omega
    refine ⟨?_, hl5, intoBuf_of_length 5 _ hl5, h9⟩
    unfold Reader.Read
    rw [if_neg (by decide), if_neg hne, htake]

/-- C15 at a reader that holds `TCP4 192.168.0.1 ...` after `PROXY ` was read. -/
theorem family_read_after_peek_witness :
    familyReader.Read 5 =
      ((bytesOf "TCP4 192.").take 5, none,
        { familyReader with buf := familyReader.buf.drop 5 }) ∧
    ((bytesOf "TCP4 192.").take 5).length = 5 ∧
    intoBuf 5 ((bytesOf "TCP4 192.").take 5) = (bytesOf "TCP4 192.").take 5 ∧
    9 ≤ familyReader.buf.length :=
  family_read_after_peek familyReader familyReader (bytesOf "TCP4 192.") rfl

/-- C16. No range check is applied to the ports: on a header line whose port fields are
decimal digit texts with values that fit a 64-bit `int`, `Wrap` succeeds and stores
exactly those values, leading zeros or not; a value above 65535 is stored as it is. -/
theorem wrap_port_no_range_check (cn : RawConn) (F a b p q P : List Byte) (ipa ipb : IP)
    (hne : NoEmptyChunk cn.events)
    (hF : F = bytesOf "TCP4 " ∨ F = bytesOf "TCP6 ")
    (hs : dataStart cn.events = headerLine F a b p q ++ P)
    (ha : ParseIP a = some ipa) (hb : ParseIP b = some ipb)
    (hp : IsDecimal p) (hpv : decVal p < 2 ^ 63)
    (hq : IsDecimal q) (hqv : decVal q < 2 ^ 63) :
    ∃ c, Wrap cn = Except.ok c ∧
      c.remote = some (Addr.tcp ipa (decVal p)) ∧ c.proxy = some (Addr.tcp ipb (decVal q)) ∧
      (65535 < decVal p → ∃ ip port, c.remote = some (Addr.tcp ip port) ∧ 65535 < port) ∧
      (65535 < decVal q → ∃ ip port, c.proxy = some (Addr.tcp ip port) ∧ 65535 < port) := by
  obtain ⟨r1, hw, -⟩ := Wrap_line cn F a b p q P ipa ipb _ _ hne hF hs ha hb
    (Atoi_decimal p hp hpv) (Atoi_decimal q hq hqv) hp.no_space hq.no_cr
  refine ⟨_, hw, rfl, rfl, ?_, ?_⟩
  · intro h
    exact ⟨ipa, decVal p, rfl, by exact_mod_cast h⟩
  · intro h
    exact ⟨ipb, decVal q, rfl, by exact_mod_cast h⟩

/-- C16 at the ports `70000` and `00443`: stored as 70000, above 65535, and 443. -/
theorem wrap_port_no_range_check_witness :
    ∃ c, Wrap bigPortConn = Except.ok c ∧
      c.remote =
        some (Addr.tcp [0, 0, 0, 0, 0, 0, 0, 0, 0, 0, 255, 255, 192, 168, 0, 1] 70000) ∧
      c.proxy =
        some (Addr.tcp [0, 0, 0, 0, 0, 0, 0, 0, 0, 0, 255, 255, 192, 168, 0, 11] 443) ∧
      (65535 < decVal (bytesOf "70000") →
        ∃ ip port, c.remote = some (Addr.tcp ip port) ∧ 65535 < port) ∧
      (65535 < decVal (bytesOf "00443") →
        ∃ ip port, c.proxy = some (Addr.tcp ip port) ∧ 65535 < port) :=
  wrap_port_no_range_check bigPortConn (bytesOf "TCP4 ") (bytesOf "192.168.0.1")
    (bytesOf "192.168.0.11") (bytesOf "70000") (bytesOf "00443") (bytesOf "HELLO")
    [0, 0, 0, 0, 0, 0, 0, 0, 0, 0, 255, 255, 192, 168, 0, 1]
    [0, 0, 0, 0, 0, 0, 0, 0, 0, 0, 255, 255, 192, 168, 0, 11]
    (by decide) (Or.inl rfl) (by decide) (by decide) (by decide) (by decide) (by decide)
    (by decide) (by decide)

end Viaproxy

namespace Commands

/-! ## The claim on commands.go -/

theorem foldl_append_flatten (l : List (List Viaproxy.Byte)) :
    ∀ acc : List Viaproxy.Byte, l.foldl (fun acc s => acc ++ [] ++ s) acc = acc ++ l.flatten := by
  induction l with
  | nil => intro acc; simp
  | cons a l ih =>
    intro acc
    rw [List.foldl_cons, ih]
    simp

/-- Joining with the empty separator is concatenation. -/
theorem stringsJoin_nil (l : List (List Viaproxy.Byte)) : stringsJoin l [] = l.flatten := by
  match l with
  | [] => rfl
  | [a] => simp [stringsJoin]
  | a :: b :: t =>
    simp only [stringsJoin, foldl_append_flatten, List.flatten_cons]

/-- The data that `request` and `notify` send for the arguments after the route. -/
theorem data_eq_flatten (route : List Viaproxy.Byte) (rest : List (List Viaproxy.Byte)) :
    (if 1 < (route :: rest).length then stringsJoin ((route :: rest).drop 1) [] else []) =
      rest.flatten := by
  cases rest with
  | nil => simp
  | cons a t =>
    have : 1 < (route :: a :: t).length := by simp
    rw [if_pos this, stringsJoin_nil]
    rfl

/-- C17. For `request` and `notify`: with a client that is connected and arguments
`route :: rest`, exactly one send is made, its route is `route` and its data is the
concatenation of `rest` with nothing between the arguments (empty when `rest` is empty),
and the result is the error of that send; with no client, or a client that is not
connected, the result is `not connected` whatever the arguments and nothing is sent; with a
connected client and no argument, the result is the format error and nothing is sent. -/
theorem request_notify_send (sendResult : ClientCall → Option (List Viaproxy.Byte))
    (calls : List ClientCall) :
    (∀ route rest,
      request (some { connected := true, sendResult := sendResult, calls := calls })
          (route :: rest) =
        ((sendResult (ClientCall.request route rest.flatten)).map CmdError.client,
          some { connected := true, sendResult := sendResult,
                 calls := calls ++ [ClientCall.request route rest.flatten] }) ∧
      notify (some { connected := true, sendResult := sendResult, calls := calls })
          (route :: rest) =
        ((sendResult (ClientCall.notify route rest.flatten)).map CmdError.client,
          some { connected := true, sendResult := sendResult,
                 calls := calls ++ [ClientCall.notify route rest.flatten] })) ∧
    (∀ args,
      request none args = (some CmdError.notConnected, none) ∧
      notify none args = (some CmdError.notConnected, none) ∧
      request (some { connected := false, sendResult := sendResult, calls := calls }) args =
        (some CmdError.notConnected,
          some { connected := false, sendResult := sendResult, calls := calls }) ∧
      notify (some { connected := false, sendResult := sendResult, calls := calls }) args =
        (some CmdError.notConnected,
          some { connected := false, sendResult := sendResult, calls := calls })) ∧
    (request (some { connected := true, sendResult := sendResult, calls := calls }) [] =
        (some CmdError.requestFormat,
          some { connected := true, sendResult := sendResult, calls := calls }) ∧
      notify (some { connected := true, sendResult := sendResult, calls := calls }) [] =
        (some CmdError.notifyFormat,
          some { connected := true, sendResult := sendResult, calls := calls })) := by
  refine ⟨?_, ?_, ?_⟩
  · intro route rest
    have hd := data_eq_flatten route rest
    constructor
    · simp only [request, PitayaClient.ConnectedStatus, Bool.not_true, Bool.false_eq_true,
        if_false, List.length_cons, PitayaClient.SendRequest, List.headD_cons]
      rw [if_neg (by omega)]
      simp only [List.length_cons] at hd
      rw [hd]
      cases sendResult (ClientCall.request route rest.flatten) <;> rfl
    · simp only [notify, PitayaClient.ConnectedStatus, Bool.not_true, Bool.false_eq_true,
        if_false, List.length_cons, PitayaClient.SendNotify, List.headD_cons]
      rw [if_neg (by omega)]
      simp only [List.length_cons] at hd
      rw [hd]
      cases sendResult (ClientCall.notify route rest.flatten) <;> rfl
  · intro args
    exact ⟨rfl, rfl, rfl, rfl⟩
  · exact ⟨rfl, rfl⟩

end Commands
